import Mathlib

/-! libnxt: packet messaging with a Lego NXT over USB

A shallow embedding of `src/libnxt/src/{error_codes.h, nxt_comm.c, messaging.c}`.

* The file-scope variables of `nxt_comm.c` (`handle`) and `messaging.c`
  (`inBuf`, `outBuf`, `inCount`, `readOffset`, `outCount`, `timeout`, `eof`)
  are the fields of one record `State`, threaded through every function.
* libusb and the thin wrappers of `nxt_usb.c` are the external world: a record
  `Platform` of step functions over an abstract device state.  The record also
  says whether plain `char` is signed on the target, which the C standard leaves
  to the implementation.
* The two `do ... while` loops of `nxt_comm.c` and the one of `exit_messaging`
  need not terminate, so they take a fuel argument and return `Option`.
* Bytes are natural numbers; a byte array is a `List Nat`.
* Counters are natural numbers; the one subtraction on `size_t` that can wrap
  around, `outCount -= written` in `flush_buffer`, is taken modulo
  `2 ^ size_bits`, a parameter of `Platform`.
* `State.calls` and `State.payloads` are ghost fields: the record of calls made
  on the USB stack and of the payload blocks `receive` asked `calloc` for.
-/

namespace LibNxt

/-! ## error_codes.h -/

/-- The enumeration `libnxt_error` of `error_codes.h`. -/
inductive libnxt_error
  | LIBNXT_NO_EFFECT
  | LIBNXT_SUCCESS
  | LIBNXT_TIMEOUT
  | LIBNXT_ILLEGAL_ARG
  | LIBNXT_NOT_VISIBLE
  | LIBNXT_DISCONNECTED
  | LIBNXT_NOT_OPENED
  | LIBNXT_IO_ERROR
  | LIBNXT_DEPENDENT_ERROR
  | LIBNXT_OTHER_ERROR
  deriving DecidableEq, Repr

open libnxt_error

/-- The integer value of each enumerator, as initialised in `error_codes.h`. -/
def libnxt_error.toInt : libnxt_error → Int
  | LIBNXT_NO_EFFECT => 1
  | LIBNXT_SUCCESS => 0
  | LIBNXT_TIMEOUT => -1
  | LIBNXT_ILLEGAL_ARG => -2
  | LIBNXT_NOT_VISIBLE => -3
  | LIBNXT_DISCONNECTED => -4
  | LIBNXT_NOT_OPENED => -5
  | LIBNXT_IO_ERROR => -6
  | LIBNXT_DEPENDENT_ERROR => -7
  | LIBNXT_OTHER_ERROR => -8

/-- C truth value of an error code used as a condition: `if ( errorCode )`. -/
def libnxt_error.nonzero (e : libnxt_error) : Bool := e.toInt != 0

/-! ## libusb.h (external): the result codes the sources compare against -/

/-- Value of `LIBUSB_SUCCESS` in libusb-1.0. -/
def LIBUSB_SUCCESS : Int := 0
/-- Value of `LIBUSB_ERROR_NO_DEVICE` in libusb-1.0. -/
def LIBUSB_ERROR_NO_DEVICE : Int := -4
/-- Value of `LIBUSB_ERROR_NOT_FOUND` in libusb-1.0. -/
def LIBUSB_ERROR_NOT_FOUND : Int := -5
/-- Value of `LIBUSB_ERROR_IO` in libusb-1.0. -/
def LIBUSB_ERROR_IO : Int := -1
/-- Value of `LIBUSB_ERROR_TIMEOUT` in libusb-1.0. -/
def LIBUSB_ERROR_TIMEOUT : Int := -7

/-! ## The external world -/

/-- The USB stack and the compiler, as far as `nxt_comm.c` and `messaging.c` see
them.  `τ` is the state of the bus and of the attached device.  Every function
of `nxt_usb.c` returns a libusb result code.

* `bulk_read_nxt u n` is a bulk read of at most `n` bytes: the result code, the
  bytes stored into the buffer (their number is what the call reports through
  its `transferred` argument) and the next device state.
* `bulk_write_nxt u bytes` is a bulk write offering `bytes`: the result code,
  the count reported through `transferred`, and the next device state.
* `char_signed` says whether plain `char` is a signed type.
* `size_bits` is the width of `size_t` in bits: 32 on a 32-bit target such as
  the Galileo, 64 on an x86-64 host. -/
structure Platform (τ : Type) where
  libusb_init : τ → Int × τ
  find_nxt : τ → Int × τ
  open_nxt : τ → Int × τ
  close_handle : τ → τ
  bulk_read_nxt : τ → Nat → Int × List Nat × τ
  bulk_write_nxt : τ → List Nat → Int × Nat × τ
  char_signed : Bool
  size_bits : Nat

/-- One call on the USB stack, with what it was given and what it answered. -/
inductive UsbCall
  | usb_init (code : Int)
  | usb_find (code : Int)
  | usb_open (code : Int)
  | usb_close
  | usb_read (length : Nat) (code : Int) (data : List Nat)
  | usb_write (bytes : List Nat) (code : Int) (written : Nat)
  deriving DecidableEq, Repr

/-- The program state: the device, the static variables of `nxt_comm.c` and
`messaging.c`, and two ghost fields.

* `handle` is `handle != NULL`.
* `inBuf`, `outBuf` are the blocks the two pointers address; `[]` before the
  first `calloc` and after `free`.
* `timeout` is the `int` flag; `eof` is the `int` flag, only ever 0 or 1. -/
structure State (τ : Type) where
  usb : τ
  handle : Bool
  inBuf : List Nat
  outBuf : List Nat
  inCount : Nat
  readOffset : Nat
  outCount : Nat
  timeout : Int
  eof : Bool
  calls : List UsbCall
  payloads : List Nat
  deriving DecidableEq

/-- `BUFFER_SIZE` of `messaging.c`. -/
def BUFFER_SIZE : Nat := 512
/-- `SYSTEM_COMMAND_REPLY` of `messaging.c`. -/
def SYSTEM_COMMAND_REPLY : Nat := 0x01
/-- `NXJ_PACKET_MODE` of `messaging.c`. -/
def NXJ_PACKET_MODE : Nat := 0xff
/-- `CONFIRM_PACKET_MODE_REPLY` of `messaging.c`. -/
def CONFIRM_PACKET_MODE_REPLY : List Nat := [0x02, 0xfe, 0xef]
/-- `EOF_HEADER` of `messaging.c`. -/
def EOF_HEADER : List Nat := [0x00, 0x00]

/-- The state at program start: the static initialisers of both files. -/
def State.initial {τ : Type} (u : τ) : State τ :=
  { usb := u, handle := false, inBuf := [], outBuf := [], inCount := 0,
    readOffset := 0, outCount := 0, timeout := 0, eof := true, calls := [],
    payloads := [] }

/-- Storing `data` into `buf` from index `off` on: what a bulk read does to the
memory at `buf + off`. -/
def blit (buf : List Nat) (off : Nat) (data : List Nat) : List Nat :=
  buf.take off ++ data ++ buf.drop (off + data.length)

/-- The bytes the transport took, in order: for every bulk write in the record,
the first `written` of the bytes it was offered. -/
def accepted : List UsbCall → List Nat
  | [] => []
  | UsbCall.usb_write bytes _ written :: rest => bytes.take written ++ accepted rest
  | _ :: rest => accepted rest

/-- The bytes handed to the transport, in order: for every bulk write in the
record, the bytes it was offered. -/
def offered : List UsbCall → List Nat
  | [] => []
  | UsbCall.usb_write bytes _ _ :: rest => bytes ++ offered rest
  | _ :: rest => offered rest

/-- How often the record closes the device handle. -/
def closeCount : List UsbCall → Nat
  | [] => 0
  | UsbCall.usb_close :: rest => closeCount rest + 1
  | _ :: rest => closeCount rest

/-! ## nxt_comm.c -/

/-- `open_comm`.  `libusb_set_debug` and `forget_nxt` have no result and are
not recorded.  `open_nxt` leaves `*handle` NULL when it fails. -/
def open_comm {τ : Type} (P : Platform τ) (s : State τ) : libnxt_error × State τ :=
  if s.handle then (LIBNXT_NO_EFFECT, s)
  else
    let r1 := P.libusb_init s.usb
    let s1 := { s with usb := r1.2, calls := s.calls ++ [UsbCall.usb_init r1.1] }
    if r1.1 != 0 then (LIBNXT_DEPENDENT_ERROR, s1)
    else
      let r2 := P.find_nxt s1.usb
      let s2 := { s1 with usb := r2.2, calls := s1.calls ++ [UsbCall.usb_find r2.1] }
      if r2.1 != 0 then
        (if r2.1 == LIBUSB_ERROR_NOT_FOUND then LIBNXT_NOT_VISIBLE
          else LIBNXT_DEPENDENT_ERROR, s2)
      else
        let r3 := P.open_nxt s2.usb
        let s3 := { s2 with usb := r3.2, calls := s2.calls ++ [UsbCall.usb_open r3.1] }
        if r3.1 != 0 then
          (if r3.1 == LIBUSB_ERROR_NO_DEVICE then LIBNXT_DISCONNECTED
            else LIBNXT_DEPENDENT_ERROR, s3)
        else (LIBNXT_SUCCESS, { s3 with handle := true })

/-- `close_comm`. -/
def close_comm {τ : Type} (P : Platform τ) (s : State τ) : State τ :=
  if s.handle then
    { s with usb := P.close_handle s.usb, calls := s.calls ++ [UsbCall.usb_close],
             handle := false }
  else s

/-- The local variables of the `do ... while` loop of `raw_read` that live
across iterations, with the buffer being filled. -/
structure ReadVars where
  buf : List Nat
  unfinished : Bool
  errorCode : Int
  total : Nat
  read : Nat
  ioError : Bool

/-- One pass through the body of the `do ... while` loop of `raw_read`.
`maxLength - total` is exact as long as no bulk read stored more than it was
asked for. -/
def raw_read_body {τ : Type} (P : Platform τ) (offset maxLength : Nat) (s : State τ)
    (v : ReadVars) : ReadVars × State τ :=
  let r := P.bulk_read_nxt s.usb (maxLength - v.total)
  let errorCode := r.1
  let read := r.2.1.length
  let s1 := { s with usb := r.2.2,
                     calls := s.calls ++ [UsbCall.usb_read (maxLength - v.total) r.1 r.2.1] }
  let buf1 := blit v.buf (offset + v.total) r.2.1
  if errorCode != 0 && errorCode != LIBUSB_ERROR_TIMEOUT then
    ({ v with buf := buf1, errorCode := errorCode, read := read, ioError := true }, s1)
  else
    ({ v with buf := buf1, errorCode := errorCode, read := read,
              total := v.total + read,
              unfinished :=
                if !v.unfinished then errorCode == LIBUSB_ERROR_TIMEOUT && decide (read > 0)
                else if errorCode == LIBUSB_SUCCESS then false else v.unfinished }, s1)

/-- The condition of the `do ... while` loop of `raw_read`:
`( waitForData && ! ioError && read == 0 ) || unfinished`. -/
def raw_read_again (waitForData : Bool) (v : ReadVars) : Bool :=
  (waitForData && !v.ioError && v.read == 0) || v.unfinished

/-- The `do ... while` loop of `raw_read`; one unit of fuel per iteration. -/
def raw_read_loop {τ : Type} (P : Platform τ) (offset maxLength : Nat) (waitForData : Bool) :
    Nat → State τ → ReadVars → Option (ReadVars × State τ)
  | 0, _, _ => none
  | fuel + 1, s, v =>
    let r := raw_read_body P offset maxLength s v
    if raw_read_again waitForData r.1 then
      raw_read_loop P offset maxLength waitForData fuel r.2 r.1
    else some r

/-- `raw_read`.  `buf` is the block the caller passes and `transferred` the
current value of `*transferred`; both come back as they are after the call. -/
def raw_read {τ : Type} (P : Platform τ) (fuel : Nat) (s : State τ) (buf : List Nat)
    (offset maxLength : Nat) (timeout : Int) (transferred : Nat) :
    Option (libnxt_error × List Nat × Nat × State τ) :=
  if !s.handle then some (LIBNXT_NOT_OPENED, buf, transferred, s)
  else if maxLength == 0 then some (LIBNXT_NO_EFFECT, buf, 0, s)
  else
    match raw_read_loop P offset maxLength (timeout == 0) fuel s
        { buf := buf, unfinished := false, errorCode := 0, total := 0, read := 0,
          ioError := false } with
    | none => none
    | some (v, s1) =>
      if v.ioError then
        some (if v.errorCode == LIBUSB_ERROR_NO_DEVICE then LIBNXT_DISCONNECTED
              else LIBNXT_IO_ERROR, v.buf, transferred, s1)
      else
        some (if v.errorCode == LIBUSB_ERROR_TIMEOUT then LIBNXT_TIMEOUT
              else LIBNXT_SUCCESS, v.buf, v.total, s1)

/-- The local variables of the `do ... while` loop of `raw_write`. -/
structure WriteVars where
  errorCode : Int
  total : Nat
  ioError : Bool

/-- One pass through the body of the `do ... while` loop of `raw_write`. -/
def raw_write_body {τ : Type} (P : Platform τ) (buf : List Nat) (offset length : Nat)
    (s : State τ) (v : WriteVars) : WriteVars × State τ :=
  let chunk := (buf.drop (offset + v.total)).take (length - v.total)
  let r := P.bulk_write_nxt s.usb chunk
  let errorCode := r.1
  let written := r.2.1
  let s1 := { s with usb := r.2.2,
                     calls := s.calls ++ [UsbCall.usb_write chunk errorCode written] }
  if errorCode != 0 && errorCode != LIBUSB_ERROR_TIMEOUT then
    ({ v with errorCode := errorCode, ioError := true }, s1)
  else
    ({ v with errorCode := errorCode, total := v.total + written }, s1)

/-- The condition of the `do ... while` loop of `raw_write`:
`waitForData && ! ioError && total < length`. -/
def raw_write_again (waitForData : Bool) (length : Nat) (v : WriteVars) : Bool :=
  waitForData && !v.ioError && decide (v.total < length)

/-- The `do ... while` loop of `raw_write`; one unit of fuel per iteration. -/
def raw_write_loop {τ : Type} (P : Platform τ) (buf : List Nat) (offset length : Nat)
    (waitForData : Bool) : Nat → State τ → WriteVars → Option (WriteVars × State τ)
  | 0, _, _ => none
  | fuel + 1, s, v =>
    let r := raw_write_body P buf offset length s v
    if raw_write_again waitForData length r.1 then
      raw_write_loop P buf offset length waitForData fuel r.2 r.1
    else some r

/-- `raw_write`.  `transferred` is the current value of `*transferred`; the
second component of the result is its value after the call. -/
def raw_write {τ : Type} (P : Platform τ) (fuel : Nat) (s : State τ) (buf : List Nat)
    (offset length : Nat) (timeout : Int) (transferred : Nat) :
    Option (libnxt_error × Nat × State τ) :=
  if !s.handle then some (LIBNXT_NOT_OPENED, transferred, s)
  else if length == 0 then some (LIBNXT_NO_EFFECT, 0, s)
  else
    match raw_write_loop P buf offset length (timeout == 0) fuel s
        { errorCode := 0, total := 0, ioError := false } with
    | none => none
    | some (v, s1) =>
      if v.ioError then
        some (if v.errorCode == LIBUSB_ERROR_NO_DEVICE then LIBNXT_DISCONNECTED
              else LIBNXT_IO_ERROR, transferred, s1)
      else
        some (if v.errorCode == LIBUSB_ERROR_TIMEOUT then LIBNXT_TIMEOUT
              else LIBNXT_SUCCESS, v.total, s1)

/-! ## messaging.c -/

/-- `in_buffer_empty`. -/
def in_buffer_empty {τ : Type} (s : State τ) : Bool := decide (s.readOffset ≥ s.inCount)

/-- `fill_buffer`.  `raw_read` stores its byte count into `inCount`. -/
def fill_buffer {τ : Type} (P : Platform τ) (fuel : Nat) (s : State τ) :
    Option (libnxt_error × State τ) :=
  let s0 := { s with inCount := 0, readOffset := 0 }
  match raw_read P fuel s0 s0.inBuf 0 BUFFER_SIZE s0.timeout s0.inCount with
  | none => none
  | some (errorCode, buf, transferred, s1) =>
    some (errorCode, { s1 with inBuf := buf, inCount := transferred })

/-- `out_buffer_full`. -/
def out_buffer_full {τ : Type} (s : State τ) : Bool := decide (s.outCount ≥ BUFFER_SIZE)

/-- The difference `a - b` of a `size_t` object `a` and an `int` count `b`
(not negative) converted to `size_t`, on a target where `size_t` is `bits` wide:
unsigned arithmetic, modulo `2 ^ bits`. -/
def size_t_sub (bits a b : Nat) : Nat :=
  (a + 2 ^ bits - b % 2 ^ bits) % 2 ^ bits

/-- `flush_buffer`.  The local `written` starts at 0 and is what `raw_write`
leaves in it.  `outCount -= written` is a subtraction on `size_t` and wraps
around when `written` exceeds `outCount`. -/
def flush_buffer {τ : Type} (P : Platform τ) (fuel : Nat) (s : State τ) :
    Option (libnxt_error × State τ) :=
  if s.outCount == 0 then some (LIBNXT_NO_EFFECT, s)
  else
    match raw_write P fuel s s.outBuf 0 s.outCount s.timeout 0 with
    | none => none
    | some (errorCode, written, s1) =>
      some (errorCode, { s1 with outCount := size_t_sub P.size_bits s1.outCount written })

/-- `read_byte`.  `byte` is the current value of `*byte`, returned unchanged
when nothing is stored.  When the buffer is not empty `errorCode` is never
assigned and never read; `LIBNXT_SUCCESS` stands for it. -/
def read_byte {τ : Type} (P : Platform τ) (fuel : Nat) (s : State τ) (byte : Nat) :
    Option (libnxt_error × Nat × State τ) :=
  match (if in_buffer_empty s then fill_buffer P fuel s else some (LIBNXT_SUCCESS, s)) with
  | none => none
  | some (errorCode, s1) =>
    let error := errorCode.nonzero && errorCode != LIBNXT_TIMEOUT
    if !error then
      if in_buffer_empty s1 then some (LIBNXT_TIMEOUT, byte, s1)
      else
        some (LIBNXT_SUCCESS, s1.inBuf.getD s1.readOffset 0,
              { s1 with readOffset := s1.readOffset + 1 })
    else some (errorCode, byte, s1)

/-- `write_byte`.  When the buffer is not full `errorCode` is never assigned
and never read; `LIBNXT_SUCCESS` stands for it. -/
def write_byte {τ : Type} (P : Platform τ) (fuel : Nat) (s : State τ) (byte : Nat) :
    Option (libnxt_error × State τ) :=
  match (if out_buffer_full s then flush_buffer P fuel s else some (LIBNXT_SUCCESS, s)) with
  | none => none
  | some (errorCode, s1) =>
    let error := errorCode.nonzero && errorCode != LIBNXT_TIMEOUT
    if !error then
      if out_buffer_full s1 then some (LIBNXT_TIMEOUT, s1)
      else
        some (LIBNXT_SUCCESS,
              { s1 with outBuf := s1.outBuf.set s1.outCount byte, outCount := s1.outCount + 1 })
    else some (errorCode, s1)

/-- `send_eof`: the two bytes of `EOF_HEADER`, always without timeout. -/
def send_eof {τ : Type} (P : Platform τ) (fuel : Nat) (s : State τ) :
    Option (libnxt_error × State τ) :=
  match raw_write P fuel s EOF_HEADER 0 EOF_HEADER.length 0 0 with
  | none => none
  | some (errorCode, _, s1) => some (errorCode, s1)

/-- `set_timeout`. -/
def set_timeout {τ : Type} (s : State τ) (enabled : Int) : State τ :=
  { s with timeout := enabled }

/-- The validity check of `init_messaging` on the reply: the count equals
`sizeof ( CONFIRM_PACKET_MODE_REPLY )` and no index below it differs. -/
def reply_valid (reply : List Nat) (transferred : Nat) : Bool :=
  if transferred == CONFIRM_PACKET_MODE_REPLY.length then
    (List.range transferred).all
      (fun i => reply.getD i 0 == CONFIRM_PACKET_MODE_REPLY.getD i 0)
  else false

/-- `init_messaging`.  `reply` is the indeterminate initial content of the local
array `reply[BUFFER_SIZE]`.  `calloc` yields zeroed blocks; the counters
`inCount`, `readOffset` and `outCount` are not assigned here. -/
def init_messaging {τ : Type} (P : Platform τ) (fuel : Nat) (s : State τ) (reply : List Nat) :
    Option (libnxt_error × State τ) :=
  if !s.eof then some (LIBNXT_NO_EFFECT, s)
  else
    let r := open_comm P s
    if r.1.nonzero then some (r.1, r.2)
    else
      let s1 := { r.2 with eof := false,
                           inBuf := List.replicate BUFFER_SIZE 0,
                           outBuf := List.replicate BUFFER_SIZE 0 }
      let request := [SYSTEM_COMMAND_REPLY, NXJ_PACKET_MODE]
      match raw_write P fuel s1 request 0 request.length 0 0 with
      | none => none
      | some (e1, transferred1, s2) =>
        let handshake : Option (libnxt_error × State τ) :=
          if !e1.nonzero then
            match raw_read P fuel s2 reply 0 BUFFER_SIZE 0 transferred1 with
            | none => none
            | some (e2, reply2, transferred2, s3) =>
              if !e2.nonzero then
                some (if !reply_valid reply2 transferred2 then LIBNXT_OTHER_ERROR else e2, s3)
              else some (e2, s3)
          else some (e1, s2)
        match handshake with
        | none => none
        | some (errorCode, s4) =>
          if errorCode.nonzero then
            some (errorCode, { close_comm P s4 with eof := true, inBuf := [], outBuf := [] })
          else some (LIBNXT_SUCCESS, s4)

/-- The value of a `char` object holding the byte `b`, promoted to `int` and
written as a 32-bit two's-complement bit pattern: sign-extended when plain
`char` is signed. -/
def char_to_int (charSigned : Bool) (b : Nat) : Nat :=
  if charSigned && decide (128 ≤ b) then b + (2 ^ 32 - 256) else b

/-- The assignment `*length = ( lenMSB << 8 ) | lenLSB` of `receive`, with both
operands of type `char`: promotion to `int`, shift and bitwise or on 32-bit
patterns, then conversion to `uint16_t`. -/
def header_length (charSigned : Bool) (lenLSB lenMSB : Nat) : Nat :=
  (((char_to_int charSigned lenMSB * 2 ^ 8) % 2 ^ 32) ||| char_to_int charSigned lenLSB)
    % 2 ^ 16

/-- The payload loop of `receive`:
`for ( i = 0; ! errorCode && i < *length; i++ ) errorCode = read_byte( &ret[i] )`,
entered with `errorCode` equal to 0; the first argument counts the iterations
left, `*length - i`. -/
def receive_loop {τ : Type} (P : Platform τ) (fuel : Nat) :
    Nat → Nat → State τ → List Nat → Option (libnxt_error × List Nat × State τ)
  | 0, _, s, ret => some (LIBNXT_SUCCESS, ret, s)
  | k + 1, i, s, ret =>
    match read_byte P fuel s (ret.getD i 0) with
    | none => none
    | some (errorCode, b, s1) =>
      if errorCode.nonzero then some (errorCode, ret.set i b, s1)
      else receive_loop P fuel k (i + 1) s1 (ret.set i b)

/-- `receive`.  `message` and `length` are the current values of `*message`
and `*length`; the result carries their values after the call.  A message
pointer is `none` when it is `REQUEST_EXIT` (NULL) and `some bytes` when it
addresses a block holding `bytes`.  `lenLSB` and `lenMSB` start uninitialised
and are read only after both header reads stored into them; 0 stands for their
initial value.  `calloc` is taken to succeed, yields a zeroed block, and is
noted in `payloads`. -/
def receive {τ : Type} (P : Platform τ) (fuel : Nat) (s : State τ)
    (message : Option (List Nat)) (length : Nat) :
    Option (libnxt_error × Option (List Nat) × Nat × State τ) :=
  if s.eof then some (LIBNXT_NOT_OPENED, message, length, s)
  else
    match read_byte P fuel s 0 with
    | none => none
    | some (e1, lenLSB, s1) =>
      if e1.nonzero then some (e1, message, length, s1)
      else
        match read_byte P fuel s1 0 with
        | none => none
        | some (e2, lenMSB, s2) =>
          if e2.nonzero then some (e2, message, length, s2)
          else
            let length1 := header_length P.char_signed lenLSB lenMSB
            if length1 == 0 then some (LIBNXT_SUCCESS, none, length1, s2)
            else
              let s3 := { s2 with payloads := s2.payloads ++ [length1] }
              match receive_loop P fuel length1 0 s3 (List.replicate length1 0) with
              | none => none
              | some (e3, ret, s4) =>
                if e3.nonzero then some (e3, message, length1, s4)
                else some (LIBNXT_SUCCESS, some ret, length1, s4)

/-- The payload loop of `send`:
`for ( i = 0; ! ( errorCode || i >= length ); i++ ) errorCode = write_byte( message[i] )`,
entered with `errorCode` equal to 0; the first argument counts the iterations
left, `length - i`. -/
def send_loop {τ : Type} (P : Platform τ) (fuel : Nat) (message : List Nat) :
    Nat → Nat → State τ → Option (libnxt_error × State τ)
  | 0, _, s => some (LIBNXT_SUCCESS, s)
  | k + 1, i, s =>
    match write_byte P fuel s (message.getD i 0) with
    | none => none
    | some (errorCode, s1) =>
      if errorCode.nonzero then some (errorCode, s1)
      else send_loop P fuel message k (i + 1) s1

/-- `send`.  `length` is a `uint16_t`; the casts to `unsigned char` are the
reductions modulo 256.  The result of the second `write_byte` is dropped, as in
the source. -/
def send {τ : Type} (P : Platform τ) (fuel : Nat) (s : State τ) (message : List Nat)
    (length : Nat) : Option (libnxt_error × State τ) :=
  if s.eof then some (LIBNXT_NOT_OPENED, s)
  else
    match write_byte P fuel s ((length &&& 0xFF) % 256) with
    | none => none
    | some (e1, s1) =>
      if e1.nonzero then some (e1, s1)
      else
        match write_byte P fuel s1 ((length >>> 8) % 256) with
        | none => none
        | some (_, s2) =>
          match send_loop P fuel message length 0 s2 with
          | none => none
          | some (e3, s3) =>
            if e3.nonzero then some (e3, s3) else flush_buffer P fuel s3

/-- The `do ... while ( length > 0 )` loop of `exit_messaging`; one unit of the
first argument per iteration. -/
def exit_loop {τ : Type} (P : Platform τ) (fuel : Nat) :
    Nat → State τ → Option (List Nat) → Nat → Option (State τ)
  | 0, _, _, _ => none
  | k + 1, s, dataIn, length =>
    match receive P fuel s dataIn length with
    | none => none
    | some (errorCode, dataIn1, length1, s1) =>
      if errorCode.nonzero then some s1
      else if length1 > 0 then exit_loop P fuel k s1 dataIn1 length1
      else some s1

/-- `exit_messaging`.  `dataIn` is an uninitialised pointer; `none` stands for
it. -/
def exit_messaging {τ : Type} (P : Platform τ) (fuel : Nat) (s : State τ) :
    Option (State τ) :=
  if !s.eof then
    let tmpTimeout := s.timeout
    let s0 := set_timeout s 0
    let drained : Option (State τ) :=
      match flush_buffer P fuel s0 with
      | none => none
      | some (e1, s1) =>
        if !e1.nonzero then
          match send_eof P fuel s1 with
          | none => none
          | some (e2, s2) =>
            if !e2.nonzero then exit_loop P fuel fuel s2 none 0 else some s2
        else some s1
    match drained with
    | none => none
    | some s3 =>
      some (set_timeout { close_comm P s3 with eof := true, inBuf := [], outBuf := [] }
              tmpTimeout)
  else some s

/-! ## Concrete platforms and states used to exercise the theorems -/

/-- A device that answers from a script: every bulk read takes the next entry
(result code and bytes) of the script, and reports device loss once the script
is used up; every bulk write is taken whole; opening always works. -/
def scripted (charSigned : Bool) : Platform (List (Int × List Nat)) where
  libusb_init := fun u => (0, u)
  find_nxt := fun u => (0, u)
  open_nxt := fun u => (0, u)
  close_handle := fun u => u
  bulk_read_nxt := fun u _ =>
    match u with
    | [] => (LIBUSB_ERROR_NO_DEVICE, [], [])
    | r :: rest => (r.1, r.2, rest)
  bulk_write_nxt := fun u bytes => (0, bytes.length, u)
  char_signed := charSigned
  size_bits := 64

/-- A loss-free loopback: the device state is the queue of bytes in flight.  A
bulk write appends all its bytes; a bulk read hands back the head of the queue,
up to the length asked for, and times out with nothing while the queue is
empty. -/
def loopback (charSigned : Bool) : Platform (List Nat) where
  libusb_init := fun u => (0, u)
  find_nxt := fun u => (0, u)
  open_nxt := fun u => (0, u)
  close_handle := fun u => u
  bulk_read_nxt := fun u n =>
    if u.isEmpty then (LIBUSB_ERROR_TIMEOUT, [], u) else (0, u.take n, u.drop n)
  bulk_write_nxt := fun u bytes => (0, bytes.length, u ++ bytes)
  char_signed := charSigned
  size_bits := 64

/-- The state right after a successful first `init_messaging`, apart from the
record of calls: handle open, fresh zeroed buffers, counters at 0. -/
def State.opened {τ : Type} (u : τ) : State τ :=
  { State.initial u with handle := true, eof := false,
                         inBuf := List.replicate BUFFER_SIZE 0,
                         outBuf := List.replicate BUFFER_SIZE 0 }

/-- An open session with one byte queued for output and the timeout flag set
to 7, whose peer will answer with an exit frame. -/
def exitDemo : State (List (Int × List Nat)) :=
  { State.opened [((0 : Int), [0, 0])] with outCount := 1, timeout := 7 }

/-- The state `exit_messaging` leaves `exitDemo` in. -/
def exitDemoAfter : State (List (Int × List Nat)) :=
  { usb := [], handle := false, inBuf := [], outBuf := [], inCount := 2, readOffset := 2,
    outCount := 0, timeout := 7, eof := true,
    calls := [UsbCall.usb_write [0] 0 1, UsbCall.usb_write [0, 0] 0 2,
              UsbCall.usb_read 512 0 [0, 0], UsbCall.usb_close],
    payloads := [] }

/-- A closed session at program start whose device will answer the first bulk
read with `r`. -/
def handshakeStart (r : List Nat) : State (List (Int × List Nat)) :=
  State.initial [((0 : Int), r)]

/-- The state of `handshakeStart r` after `open_comm`. -/
def handshakeOpened (r : List Nat) : State (List (Int × List Nat)) :=
  { handshakeStart r with
      handle := true,
      calls := [UsbCall.usb_init 0, UsbCall.usb_find 0, UsbCall.usb_open 0] }

/-- The state of `handshakeStart r` after the mode-switch command is written. -/
def handshakeAsked (r : List Nat) : State (List (Int × List Nat)) :=
  { handshakeOpened r with
      eof := false,
      inBuf := List.replicate BUFFER_SIZE 0,
      outBuf := List.replicate BUFFER_SIZE 0,
      calls := [UsbCall.usb_init 0, UsbCall.usb_find 0, UsbCall.usb_open 0,
                UsbCall.usb_write [0x01, 0xFF] 0 2] }

/-- The state of `handshakeStart r` after the reply is read. -/
def handshakeAnswered (r : List Nat) : State (List (Int × List Nat)) :=
  { handshakeAsked r with
      usb := [],
      calls := [UsbCall.usb_init 0, UsbCall.usb_find 0, UsbCall.usb_open 0,
                UsbCall.usb_write [0x01, 0xFF] 0 2, UsbCall.usb_read 512 0 r] }

/-- The state of `handshakeStart r` after a rejected reply: rolled back. -/
def handshakeRolledBack (r : List Nat) : State (List (Int × List Nat)) :=
  { State.initial [] with
      calls := [UsbCall.usb_init 0, UsbCall.usb_find 0, UsbCall.usb_open 0,
                UsbCall.usb_write [0x01, 0xFF] 0 2, UsbCall.usb_read 512 0 r,
                UsbCall.usb_close] }

/-- An open session whose peer sends, in one chunk, a frame with the header
bytes `0x80 0x00` (a payload of 128 bytes announced) and the first three payload
bytes, and is unplugged afterwards. -/
def signedDemo : State (List (Int × List Nat)) :=
  State.opened [((0 : Int), [0x80, 0x00, 1, 2, 3])]

/-- A transport that takes every write whole and without error. -/
def AcceptsAll {τ : Type} (P : Platform τ) : Prop :=
  ∀ (u : τ) (bytes : List Nat),
    (P.bulk_write_nxt u bytes).1 = 0 ∧ (P.bulk_write_nxt u bytes).2.1 = bytes.length

/-- The session is Open, the output block is allocated, and since the state
`s0` the transport was offered, and took, `stream` short of the bytes still
queued in `outBuf`. -/
def Sent {τ : Type} (s0 s : State τ) (stream : List Nat) : Prop :=
  s.handle = true ∧ s.eof = false ∧ s.outBuf.length = BUFFER_SIZE ∧
  s.outCount ≤ BUFFER_SIZE ∧
  ∃ new, s.calls = s0.calls ++ new ∧ accepted new = offered new ∧
    offered new ++ s.outBuf.take s.outCount = stream

/-- A message of 128 bytes, each `0x41`. -/
def message128 : List Nat := List.replicate 128 0x41

/-- The state of a freshly opened loopback session after `send` of
`message128`: the frame is in flight and still sits in the flushed output
block. -/
def roundtripSent : State (List Nat) :=
  { State.opened (0x80 :: 0x00 :: message128) with
      outBuf := 0x80 :: 0x00 :: message128 ++ List.replicate 382 0,
      calls := [UsbCall.usb_write (0x80 :: 0x00 :: message128) 0 130] }

/-! ## Predicates used in the statements -/

/-- The part of the state that only `open_comm`, `close_comm`, `set_timeout`
and the session functions change. -/
def Steady {τ : Type} (s s' : State τ) : Prop :=
  s'.handle = s.handle ∧ s'.eof = s.eof ∧ s'.timeout = s.timeout ∧
    s'.payloads = s.payloads ∧ closeCount s'.calls = closeCount s.calls

/-- The session part of the state: what `receive` leaves alone. -/
def Held {τ : Type} (s s' : State τ) : Prop :=
  s'.handle = s.handle ∧ s'.eof = s.eof ∧ s'.timeout = s.timeout ∧
    closeCount s'.calls = closeCount s.calls

/-- The device state after the bulk writes of a record, in order. -/
def replayWrites {τ : Type} (P : Platform τ) : τ → List UsbCall → τ
  | u, [] => u
  | u, UsbCall.usb_write bytes _ _ :: rest => replayWrites P (P.bulk_write_nxt u bytes).2.2 rest
  | u, _ :: rest => replayWrites P u rest

/-- What the output path leaves alone: the input side, the flags and the
handle; the only calls it adds are bulk writes, which account for the device
state. -/
def WriteOnly {τ : Type} (P : Platform τ) (s s' : State τ) : Prop :=
  s'.inBuf = s.inBuf ∧ s'.inCount = s.inCount ∧ s'.readOffset = s.readOffset ∧
  ∃ new, s'.calls = s.calls ++ new ∧ s'.usb = replayWrites P s.usb new

/-- The transport hands over the stream `ρ u` held by the device in non-empty
chunks, without error: a bulk read for `n > 0` bytes while the stream is not
used up returns `LIBUSB_SUCCESS` with between 1 and `n` bytes, the head of the
stream, and leaves the rest. -/
def Delivers {τ : Type} (P : Platform τ) (ρ : τ → List Nat) : Prop :=
  ∀ (u : τ) (n : Nat), 0 < n → ρ u ≠ [] →
    (P.bulk_read_nxt u n).1 = 0 ∧ (P.bulk_read_nxt u n).2.1 ≠ [] ∧
    (P.bulk_read_nxt u n).2.1.length ≤ n ∧
    ρ u = (P.bulk_read_nxt u n).2.1 ++ ρ (P.bulk_read_nxt u n).2.2

/-- The bytes still to be read: the unread part of the input buffer, then the
stream held by the device. -/
def pending {τ : Type} (ρ : τ → List Nat) (s : State τ) : List Nat :=
  (s.inBuf.take s.inCount).drop s.readOffset ++ ρ s.usb

/-- The handle is held and the valid part of the input buffer lies inside the
block, or the buffer is exhausted. -/
def InputOk {τ : Type} (s : State τ) : Prop :=
  s.handle = true ∧ (s.inCount ≤ s.inBuf.length ∨ s.inCount ≤ s.readOffset)

/-! ## Platforms, runs and states for the raw-layer and failure-path statements -/

/-- A device that follows two scripts: every bulk read takes the next entry
(result code and bytes) of the first script and times out with nothing once
that script is used up; every bulk write takes the next entry (result code and
count reported) of the second script and is taken whole once that script is
used up; opening always works. -/
def replay (charSigned : Bool) : Platform (List (Int × List Nat) × List (Int × Nat)) where
  libusb_init := fun u => (0, u)
  find_nxt := fun u => (0, u)
  open_nxt := fun u => (0, u)
  close_handle := fun u => u
  bulk_read_nxt := fun u _ =>
    match u.1 with
    | [] => (LIBUSB_ERROR_TIMEOUT, [], u)
    | r :: rest => (r.1, r.2, (rest, u.2))
  bulk_write_nxt := fun u bytes =>
    match u.2 with
    | [] => (0, bytes.length, u)
    | r :: rest => (r.1, r.2, (u.1, rest))
  char_signed := charSigned
  size_bits := 64

/-- The loop variables and the state after `j` passes through the body of the
loop of `raw_write`, started from `s` and `v`. -/
def raw_write_after {τ : Type} (P : Platform τ) (buf : List Nat) (offset length : Nat) :
    Nat → State τ → WriteVars → WriteVars × State τ
  | 0, s, v => (v, s)
  | j + 1, s, v =>
    raw_write_after P buf offset length j (raw_write_body P buf offset length s v).2
      (raw_write_body P buf offset length s v).1

/-- The values the loop variables of `raw_write` have when the loop is
entered; `errorCode` is not initialised and is assigned before it is read. -/
def WriteVars.start : WriteVars := { errorCode := 0, total := 0, ioError := false }

/-- An open session whose device takes 2 bytes of the first bulk write and
reports device loss on the second. -/
def writeLossDemo : State (List (Int × List Nat) × List (Int × Nat)) :=
  State.opened ([], [((0 : Int), 2), (LIBUSB_ERROR_NO_DEVICE, 0)])

/-- An open session whose device answers the first bulk read with 3 bytes and a
timeout, reports an I/O error on the second and answers the third with
`LIBUSB_SUCCESS` and nothing. -/
def readErrorDemo : State (List (Int × List Nat) × List (Int × Nat)) :=
  State.opened ([(LIBUSB_ERROR_TIMEOUT, [1, 2, 3]), ( LIBUSB_ERROR_IO, []), ((0 : Int), [])], [])

/-- An open session whose device answers the first bulk read with 3 bytes and a
timeout, reports device loss on the second and answers the third with
`LIBUSB_SUCCESS` and nothing. -/
def readLossDemo : State (List (Int × List Nat) × List (Int × Nat)) :=
  State.opened
    ([(LIBUSB_ERROR_TIMEOUT, [1, 2, 3]), (LIBUSB_ERROR_NO_DEVICE, []), ((0 : Int), [])], [])

/-- An open session whose device answers the first bulk read with 3 bytes and a
timeout and is lost from then on: every later bulk read reports device loss. -/
def readLostDemo : State (List (Int × List Nat)) :=
  State.opened [(LIBUSB_ERROR_TIMEOUT, [1, 2, 3])]

/-- An open session whose device answers the first bulk read with 3 bytes and a
timeout and has nothing more to send: every later bulk read times out with
nothing. -/
def readPartialDemo : State (List (Int × List Nat) × List (Int × Nat)) :=
  State.opened ([(LIBUSB_ERROR_TIMEOUT, [1, 2, 3])], [])

/-- As `readPartialDemo`, but the third bulk read is answered with
`LIBUSB_SUCCESS` and nothing. -/
def readResumedDemo : State (List (Int × List Nat) × List (Int × Nat)) :=
  State.opened
    ([(LIBUSB_ERROR_TIMEOUT, [1, 2, 3]), (LIBUSB_ERROR_TIMEOUT, []), ((0 : Int), [])], [])

/-- An open session with the timeout flag set whose device takes 1 byte of the
first bulk write and reports a timeout, and takes every later write whole. -/
def partialFlushDemo : State (List (Int × List Nat) × List (Int × Nat)) :=
  { State.opened ([], [(LIBUSB_ERROR_TIMEOUT, 1)]) with timeout := 1 }

/-- On `partialFlushDemo`: three `write_byte` calls, for `0xA`, `0xB` and `0xC`,
then two `flush_buffer` calls.  The result lists the five outcomes, the bytes
the transport took and the final `outCount`. -/
def partialFlushRun :
    Option (libnxt_error × libnxt_error × libnxt_error × libnxt_error × libnxt_error ×
      List Nat × Nat) :=
  (write_byte (replay true) 1 partialFlushDemo 0xA).bind fun r1 =>
  (write_byte (replay true) 1 r1.2 0xB).bind fun r2 =>
  (write_byte (replay true) 1 r2.2 0xC).bind fun r3 =>
  (flush_buffer (replay true) 1 r3.2).bind fun r4 =>
  (flush_buffer (replay true) 1 r4.2).map fun r5 =>
    (r1.1, r2.1, r3.1, r4.1, r5.1, accepted r5.2.calls, r5.2.outCount)

/-- On `partialFlushDemo`: `send` of the one-byte message `0xA`, then `send` of
the one-byte message `0xB`.  The result lists the two outcomes and the bytes
the transport took. -/
def partialFlushSends : Option (libnxt_error × libnxt_error × List Nat) :=
  (send (replay true) 1 partialFlushDemo [0xA] 1).bind fun r1 =>
  (send (replay true) 1 r1.2 [0xB] 1).map fun r2 =>
    (r1.1, r2.1, accepted r2.2.calls)

/-- An open session whose device reports an I/O error on the first two bulk
writes and takes every later write whole. -/
def droppedMsbDemo : State (List (Int × List Nat) × List (Int × Nat)) :=
  State.opened ([], [( LIBUSB_ERROR_IO, 0), ( LIBUSB_ERROR_IO, 0)])

/-- A message of 509 bytes, each `0x55`. -/
def message509 : List Nat := List.replicate 509 0x55

/-- The state `send` of `message509` leaves `droppedMsbDemo` in: the final flush
failed, the 511 bytes of the frame are still queued, and the device will report
an I/O error on the next bulk write as well. -/
def droppedMsbQueued : State (List (Int × List Nat) × List (Int × Nat)) :=
  { State.opened ([], [( LIBUSB_ERROR_IO, 0)]) with
      outBuf := 0xFD :: 0x01 :: message509 ++ [0],
      outCount := 511,
      calls := [UsbCall.usb_write (0xFD :: 0x01 :: message509) LIBUSB_ERROR_IO 0] }

/-- On `droppedMsbQueued`: the two `write_byte` calls that `send` of the
one-byte message `0x07` starts with, for the length LSB and for the length MSB,
and that `send` itself.  The result lists the three outcomes and the bytes the
transport took since the session was opened. -/
def droppedMsbRun : Option (libnxt_error × libnxt_error × libnxt_error × List Nat) :=
  (write_byte (replay true) 1 droppedMsbQueued ((1 &&& 0xFF) % 256)).bind fun lsb =>
  (write_byte (replay true) 1 lsb.2 ((1 >>> 8) % 256)).bind fun msb =>
  (send (replay true) 1 droppedMsbQueued [0x07] 1).map fun r2 =>
    (lsb.1, msb.1, r2.1, accepted r2.2.calls)

/-- Every bulk read stores at most the number of bytes it was asked for. -/
def ReadsBounded {τ : Type} (P : Platform τ) : Prop :=
  ∀ (u : τ) (n : Nat), (P.bulk_read_nxt u n).2.1.length ≤ n

/-- Every bulk write reports at most the number of bytes it was offered. -/
def WritesBounded {τ : Type} (P : Platform τ) : Prop :=
  ∀ (u : τ) (bytes : List Nat), (P.bulk_write_nxt u bytes).2.1 ≤ bytes.length

/-- Every transport chunk call reports a byte count between 0 and the length it
was asked for. -/
def CountsBounded {τ : Type} (P : Platform τ) : Prop :=
  ReadsBounded P ∧ WritesBounded P

/-- No bulk write reports an error other than a timeout. -/
def WritesWithoutError {τ : Type} (P : Platform τ) : Prop :=
  ∀ (u : τ) (bytes : List Nat),
    (P.bulk_write_nxt u bytes).1 = 0 ∨ (P.bulk_write_nxt u bytes).1 = LIBUSB_ERROR_TIMEOUT

/-- The buffer predicate: `readOffset <= inCount <= BUFFER_SIZE` and
`outCount <= BUFFER_SIZE`. -/
def BufferInv {τ : Type} (s : State τ) : Prop :=
  s.readOffset ≤ s.inCount ∧ s.inCount ≤ BUFFER_SIZE ∧ s.outCount ≤ BUFFER_SIZE

/-- The bytes the transport handed over, in order: for every bulk read in the
record, the bytes it stored. -/
def delivered : List UsbCall → List Nat
  | [] => []
  | UsbCall.usb_read _ _ data :: rest => data ++ delivered rest
  | _ :: rest => delivered rest

/-- The count of bytes the transport reported as written, summed over the bulk
writes of the record. -/
def movedBy : List UsbCall → Nat
  | [] => 0
  | UsbCall.usb_write _ _ written :: rest => written + movedBy rest
  | _ :: rest => movedBy rest

/-- The record consists of bulk writes only, each offering the bytes of `buf`
from `offset` plus the count moved so far up to `offset + n`; `moved` is the
count moved before the first of them. -/
def ChunkTrace (buf : List Nat) (offset n : Nat) : Nat → List UsbCall → Prop
  | _, [] => True
  | moved, UsbCall.usb_write bytes _ written :: rest =>
    bytes = (buf.drop (offset + moved)).take (n - moved) ∧
      ChunkTrace buf offset n (moved + written) rest
  | _, _ :: _ => False

/-- The result code of the last bulk transfer of the record. -/
def lastCode : List UsbCall → Option Int
  | [] => none
  | [UsbCall.usb_write _ code _] => some code
  | [UsbCall.usb_read _ code _] => some code
  | [_] => none
  | _ :: c :: rest => lastCode (c :: rest)

/-- The unread part of the input buffer: `inBuf[readOffset .. inCount)`. -/
def unread {τ : Type} (s : State τ) : List Nat :=
  (s.inBuf.take s.inCount).drop s.readOffset

/-- Once the stream `ρ u` held by the device is used up, a bulk read hands over
nothing and reports success or a timeout, and the stream stays used up. -/
def Starves {τ : Type} (P : Platform τ) (ρ : τ → List Nat) : Prop :=
  ∀ (u : τ) (n : Nat), ρ u = [] →
    ((P.bulk_read_nxt u n).1 = 0 ∨ (P.bulk_read_nxt u n).1 = LIBUSB_ERROR_TIMEOUT) ∧
    (P.bulk_read_nxt u n).2.1 = [] ∧ ρ (P.bulk_read_nxt u n).2.2 = []

/-- A device whose every bulk write moves all the bytes offered and reports a
timeout all the same. -/
def lateTimeout : Platform Unit where
  libusb_init := fun u => (0, u)
  find_nxt := fun u => (0, u)
  open_nxt := fun u => (0, u)
  close_handle := fun u => u
  bulk_read_nxt := fun u _ => (LIBUSB_ERROR_TIMEOUT, [], u)
  bulk_write_nxt := fun u bytes => (LIBUSB_ERROR_TIMEOUT, bytes.length, u)
  char_signed := true
  size_bits := 64

/-- A loss-free device that hands over the bytes in flight one at a time: a
bulk write appends all its bytes to the queue; a bulk read for at least one
byte hands back the head of the queue, and times out with nothing while the
queue is empty. -/
def trickle (charSigned : Bool) : Platform (List Nat) where
  libusb_init := fun u => (0, u)
  find_nxt := fun u => (0, u)
  open_nxt := fun u => (0, u)
  close_handle := fun u => u
  bulk_read_nxt := fun u n =>
    if u.isEmpty then (LIBUSB_ERROR_TIMEOUT, [], u) else (0, u.take (min n 1), u.drop (min n 1))
  bulk_write_nxt := fun u bytes => (0, bytes.length, u ++ bytes)
  char_signed := charSigned
  size_bits := 64

/-- The results of `k` successive `receive` calls: for each call its outcome
and the values of `*length` and `*message` after it.  Every call is entered
with `*message` and `*length` as the previous call left them. -/
def receive_calls {τ : Type} (P : Platform τ) (fuel : Nat) :
    Nat → State τ → Option (List Nat) → Nat →
      Option (List (libnxt_error × Nat × Option (List Nat)) × State τ)
  | 0, s, _, _ => some ([], s)
  | k + 1, s, message, length =>
    match receive P fuel s message length with
    | none => none
    | some (e, message1, length1, s1) =>
      match receive_calls P fuel k s1 message1 length1 with
      | none => none
      | some (rs, s2) => some ((e, length1, message1) :: rs, s2)

/-- The results of `k` successive `read_byte` calls: for each call its outcome
and the value of `*byte` after it.  Every call is entered with `*byte` as the
previous call left it. -/
def read_calls {τ : Type} (P : Platform τ) (fuel : Nat) :
    Nat → State τ → Nat → Option (List (libnxt_error × Nat) × State τ)
  | 0, s, _ => some ([], s)
  | k + 1, s, byte =>
    match read_byte P fuel s byte with
    | none => none
    | some (e, byte1, s1) =>
      match read_calls P fuel k s1 byte1 with
      | none => none
      | some (rs, s2) => some ((e, byte1) :: rs, s2)

/-- The bytes stored by the successful calls of a list of `read_byte` results,
in order. -/
def bytesRead : List (libnxt_error × Nat) → List Nat
  | [] => []
  | (e, b) :: rest => if e = LIBNXT_SUCCESS then b :: bytesRead rest else bytesRead rest

/-- An open session whose device has nothing to send: every bulk read times
out with nothing. -/
def readIdleDemo : State (List (Int × List Nat) × List (Int × Nat)) :=
  State.opened ([], [])

/-- The values the loop variables of `raw_read` have when the loop is entered,
with `buf` the block to fill; `errorCode` and `read` are not initialised and are
assigned before they are read. -/
def ReadVars.start (buf : List Nat) : ReadVars :=
  { buf := buf, unfinished := false, errorCode := 0, total := 0, read := 0, ioError := false }

/-- The count of bytes the transport reported as read, summed over the bulk
reads of the record. -/
def readCount : List UsbCall → Nat
  | [] => 0
  | UsbCall.usb_read _ _ data :: rest => data.length + readCount rest
  | _ :: rest => readCount rest

/-- An open session whose device answers the first bulk read with a timeout
and nothing, the second with a timeout and the bytes 1, 2, 3 and the third with
`LIBUSB_SUCCESS` and the bytes 4, 5. -/
def readBlockingDemo : State (List (Int × List Nat) × List (Int × Nat)) :=
  State.opened
    ([(LIBUSB_ERROR_TIMEOUT, []), (LIBUSB_ERROR_TIMEOUT, [1, 2, 3]), ((0 : Int), [4, 5])], [])

/-- A device that answers every other bulk write with a timeout and nothing
moved, and takes up to 2 bytes of the writes in between; the device state says
whether the next write times out. -/
def stutter : Platform Bool where
  libusb_init := fun u => (0, u)
  find_nxt := fun u => (0, u)
  open_nxt := fun u => (0, u)
  close_handle := fun u => u
  bulk_read_nxt := fun u _ => (LIBUSB_ERROR_TIMEOUT, [], u)
  bulk_write_nxt := fun u bytes =>
    if u then (LIBUSB_ERROR_TIMEOUT, 0, false) else (0, min 2 bytes.length, true)
  char_signed := true
  size_bits := 64

/-- The buffers and their counters are the same in both states. -/
def SameBuffers {τ : Type} (s s' : State τ) : Prop :=
  s'.inBuf = s.inBuf ∧ s'.outBuf = s.outBuf ∧ s'.inCount = s.inCount ∧
    s'.readOffset = s.readOffset ∧ s'.outCount = s.outCount

/-- An open session with the timeout flag set and the bytes `0xA`, `0xB`, `0xC`
queued for output, whose device takes 1 byte of the first bulk write and
reports a timeout. -/
def queuedDemo : State (List (Int × List Nat) × List (Int × Nat)) :=
  { State.opened ([], [(LIBUSB_ERROR_TIMEOUT, 1)]) with
      timeout := 1, outBuf := [0xA, 0xB, 0xC] ++ List.replicate 509 0, outCount := 3 }

/-- An open session with the bytes `0xA`, `0xB`, `0xC` queued for output, whose
device answers the first bulk write with `LIBUSB_SUCCESS` and a count of 5, two
more than it was offered. -/
def overshootDemo : State (List (Int × List Nat) × List (Int × Nat)) :=
  { State.opened ([], [((0 : Int), 5)]) with
      outBuf := [0xA, 0xB, 0xC] ++ List.replicate 509 0, outCount := 3 }

/-- The counters `inCount`, `readOffset` and `outCount` are the same in both
states. -/
def SameCounters {τ : Type} (s s' : State τ) : Prop :=
  s'.inCount = s.inCount ∧ s'.readOffset = s.readOffset ∧ s'.outCount = s.outCount

/-- A closed session at program start whose device answers the bulk reads with
the mode-switch confirmation, a chunk holding the two frames `01 00 07` and
`01 00 09`, and the mode-switch confirmation again, and the bulk writes with
success for 2 bytes, an I/O error twice, and success for 2 bytes; every later
read times out with nothing and every later write is taken whole. -/
def reopenDemo : State (List (Int × List Nat) × List (Int × Nat)) :=
  State.initial
    ([((0 : Int), [0x02, 0xfe, 0xef]), ((0 : Int), [1, 0, 7, 1, 0, 9]),
      ((0 : Int), [0x02, 0xfe, 0xef])],
     [((0 : Int), 2), ( LIBUSB_ERROR_IO, 0), ( LIBUSB_ERROR_IO, 0), ((0 : Int), 2)])

/-- On `reopenDemo`: `init_messaging`, one `receive`, `send` of the one-byte
message `0x05`, `exit_messaging` and `init_messaging` again.  The result lists
the outcomes of the four calls that have one, and the state reached. -/
def reopenRun :
    Option ((libnxt_error × libnxt_error × libnxt_error × libnxt_error) ×
      State (List (Int × List Nat) × List (Int × Nat))) :=
  (init_messaging (replay true) 1 reopenDemo (List.replicate BUFFER_SIZE 0)).bind fun r1 =>
  (receive (replay true) 1 r1.2 none 0).bind fun r2 =>
  (send (replay true) 1 r2.2.2.2 [0x05] 1).bind fun r3 =>
  (exit_messaging (replay true) 1 r3.2).bind fun s4 =>
  (init_messaging (replay true) 1 s4 (List.replicate BUFFER_SIZE 0)).map fun r5 =>
    ((r1.1, r2.1, r3.1, r5.1), r5.2)

/-- The state `reopenRun` ends in: the session is Open again with fresh zeroed
blocks, and the counters are those the first session left. -/
def reopened : State (List (Int × List Nat) × List (Int × Nat)) :=
  { usb := ([], []), handle := true,
    inBuf := List.replicate BUFFER_SIZE 0, outBuf := List.replicate BUFFER_SIZE 0,
    inCount := 6, readOffset := 3, outCount := 3, timeout := 0, eof := false,
    calls := [UsbCall.usb_init 0, UsbCall.usb_find 0, UsbCall.usb_open 0,
              UsbCall.usb_write [0x01, 0xFF] 0 2, UsbCall.usb_read 512 0 [0x02, 0xfe, 0xef],
              UsbCall.usb_read 512 0 [1, 0, 7, 1, 0, 9],
              UsbCall.usb_write [1, 0, 5] LIBUSB_ERROR_IO 0,
              UsbCall.usb_write [1, 0, 5] LIBUSB_ERROR_IO 0, UsbCall.usb_close,
              UsbCall.usb_init 0, UsbCall.usb_find 0, UsbCall.usb_open 0,
              UsbCall.usb_write [0x01, 0xFF] 0 2, UsbCall.usb_read 512 0 [0x02, 0xfe, 0xef]],
    payloads := [1] }

/-- An open session over the loopback with the timeout flag set and the bytes
1, 2, 3 in flight. -/
def fifoDemo : State (List Nat) :=
  { State.opened [1, 2, 3] with timeout := 1 }

/-- The frame at the head of a byte stream as `receive` decodes it, with what
follows it: the two header bytes, then as many payload bytes as the decoded
length says; the values of `*length` and `*message` after the call.  There is
none when the stream ends inside the frame. -/
def head_frame (charSigned : Bool) (stream : List Nat) :
    Option ((Nat × Option (List Nat)) × List Nat) :=
  match stream with
  | b0 :: b1 :: rest =>
    if header_length charSigned b0 b1 == 0 then some ((0, none), rest)
    else if header_length charSigned b0 b1 ≤ rest.length then
      some ((header_length charSigned b0 b1,
             some (rest.take (header_length charSigned b0 b1))),
            rest.drop (header_length charSigned b0 b1))
    else none
  | _ => none

/-- The first `k` frames of a byte stream, each with the outcome
`LIBNXT_SUCCESS`; there is none when the stream ends before the `k`-th frame is
complete. -/
def frames (charSigned : Bool) :
    Nat → List Nat → Option (List (libnxt_error × Nat × Option (List Nat)))
  | 0, _ => some []
  | k + 1, stream =>
    match head_frame charSigned stream with
    | none => none
    | some (f, rest) =>
      match frames charSigned k rest with
      | none => none
      | some fs => some ((LIBNXT_SUCCESS, f.1, f.2) :: fs)

/-! ## Frame lemmas: what the I/O layers leave alone -/

theorem steady_refl {τ : Type} (s : State τ) : Steady s s :=
  ⟨rfl, rfl, rfl, rfl, rfl⟩

theorem steady_trans {τ : Type} {a b c : State τ} (h1 : Steady a b) (h2 : Steady b c) :
    Steady a c := by
  obtain ⟨h11, h12, h13, h14, h15⟩ := h1
  obtain ⟨h21, h22, h23, h24, h25⟩ := h2
  exact ⟨h21.trans h11, h22.trans h12, h23.trans h13, h24.trans h14, h25.trans h15⟩

theorem closeCount_append (a b : List UsbCall) :
    closeCount (a ++ b) = closeCount a + closeCount b := by
  induction a with
  | nil => simp [closeCount]
  | cons c rest ih =>
    cases c <;> simp [closeCount, ih]
    omega

theorem raw_read_body_steady {τ : Type} (P : Platform τ) (offset maxLength : Nat)
    (s : State τ) (v : ReadVars) : Steady s (raw_read_body P offset maxLength s v).2 := by
  unfold raw_read_body
  dsimp only
  split <;> exact ⟨rfl, rfl, rfl, rfl, by simp [closeCount_append, closeCount]⟩

theorem raw_read_loop_steady {τ : Type} (P : Platform τ) (offset maxLength : Nat)
    (w : Bool) (fuel : Nat) :
    ∀ (s : State τ) (v : ReadVars) (v' : ReadVars) (s' : State τ),
      raw_read_loop P offset maxLength w fuel s v = some (v', s') → Steady s s' := by
  induction fuel with
  | zero => intro s v v' s' h; simp [raw_read_loop] at h
  | succ k ih =>
    intro s v v' s' h
    rw [raw_read_loop] at h
    split at h
    · exact steady_trans (raw_read_body_steady P offset maxLength s v) (ih _ _ _ _ h)
    · have h2 := raw_read_body_steady P offset maxLength s v
      simp only [Option.some.injEq] at h
      rw [h] at h2
      exact h2

theorem raw_write_body_steady {τ : Type} (P : Platform τ) (buf : List Nat)
    (offset length : Nat) (s : State τ) (v : WriteVars) :
    Steady s (raw_write_body P buf offset length s v).2 := by
  unfold raw_write_body
  dsimp only
  split <;> exact ⟨rfl, rfl, rfl, rfl, by simp [closeCount_append, closeCount]⟩

theorem raw_write_loop_steady {τ : Type} (P : Platform τ) (buf : List Nat)
    (offset length : Nat) (w : Bool) (fuel : Nat) :
    ∀ (s : State τ) (v : WriteVars) (v' : WriteVars) (s' : State τ),
      raw_write_loop P buf offset length w fuel s v = some (v', s') → Steady s s' := by
  induction fuel with
  | zero => intro s v v' s' h; simp [raw_write_loop] at h
  | succ k ih =>
    intro s v v' s' h
    rw [raw_write_loop] at h
    split at h
    · exact steady_trans (raw_write_body_steady P buf offset length s v) (ih _ _ _ _ h)
    · have h2 := raw_write_body_steady P buf offset length s v
      simp only [Option.some.injEq] at h
      rw [h] at h2
      exact h2

theorem raw_read_steady {τ : Type} {P : Platform τ} {fuel : Nat} {s s' : State τ}
    {buf buf' : List Nat} {offset maxLength transferred transferred' : Nat} {timeout : Int}
    {e : libnxt_error}
    (h : raw_read P fuel s buf offset maxLength timeout transferred
          = some (e, buf', transferred', s')) : Steady s s' := by
  unfold raw_read at h
  split at h
  · simp only [Option.some.injEq, Prod.mk.injEq] at h
    obtain ⟨-, -, -, rfl⟩ := h
    exact steady_refl _
  · split at h
    · simp only [Option.some.injEq, Prod.mk.injEq] at h
      obtain ⟨-, -, -, rfl⟩ := h
      exact steady_refl _
    · split at h
      · exact absurd h (by simp)
      · rename_i v s1 hloop
        have hs := raw_read_loop_steady P _ _ _ _ _ _ _ _ hloop
        split at h <;>
          · simp only [Option.some.injEq, Prod.mk.injEq] at h
            obtain ⟨-, -, -, rfl⟩ := h
            exact hs

theorem raw_write_steady {τ : Type} {P : Platform τ} {fuel : Nat} {s s' : State τ}
    {buf : List Nat} {offset length transferred transferred' : Nat} {timeout : Int}
    {e : libnxt_error}
    (h : raw_write P fuel s buf offset length timeout transferred
          = some (e, transferred', s')) : Steady s s' := by
  unfold raw_write at h
  split at h
  · simp only [Option.some.injEq, Prod.mk.injEq] at h
    obtain ⟨-, -, rfl⟩ := h
    exact steady_refl _
  · split at h
    · simp only [Option.some.injEq, Prod.mk.injEq] at h
      obtain ⟨-, -, rfl⟩ := h
      exact steady_refl _
    · split at h
      · exact absurd h (by simp)
      · rename_i v s1 hloop
        have hs := raw_write_loop_steady P _ _ _ _ _ _ _ _ _ hloop
        split at h <;>
          · simp only [Option.some.injEq, Prod.mk.injEq] at h
            obtain ⟨-, -, rfl⟩ := h
            exact hs

theorem fill_buffer_steady {τ : Type} {P : Platform τ} {fuel : Nat} {s s' : State τ}
    {e : libnxt_error} (h : fill_buffer P fuel s = some (e, s')) : Steady s s' := by
  unfold fill_buffer at h
  dsimp only at h
  split at h
  · exact absurd h (by simp)
  · rename_i e1 buf tr s1 hr
    have hs := raw_read_steady hr
    simp only [Option.some.injEq, Prod.mk.injEq] at h
    obtain ⟨-, rfl⟩ := h
    exact hs

theorem flush_buffer_steady {τ : Type} {P : Platform τ} {fuel : Nat} {s s' : State τ}
    {e : libnxt_error} (h : flush_buffer P fuel s = some (e, s')) : Steady s s' := by
  unfold flush_buffer at h
  split at h
  · simp only [Option.some.injEq, Prod.mk.injEq] at h
    obtain ⟨-, rfl⟩ := h
    exact steady_refl _
  · split at h
    · exact absurd h (by simp)
    · rename_i e1 w s1 hr
      have hs := raw_write_steady hr
      simp only [Option.some.injEq, Prod.mk.injEq] at h
      obtain ⟨-, rfl⟩ := h
      exact hs

theorem read_byte_steady {τ : Type} {P : Platform τ} {fuel : Nat} {s s' : State τ}
    {byte b : Nat} {e : libnxt_error} (h : read_byte P fuel s byte = some (e, b, s')) :
    Steady s s' := by
  unfold read_byte at h
  split at h
  · exact absurd h (by simp)
  · rename_i e1 s1 hf
    have hs : Steady s s1 := by
      split at hf
      · exact fill_buffer_steady hf
      · simp only [Option.some.injEq, Prod.mk.injEq] at hf
        obtain ⟨-, rfl⟩ := hf
        exact steady_refl _
    dsimp only at h
    split at h
    · split at h <;>
        · simp only [Option.some.injEq, Prod.mk.injEq] at h
          obtain ⟨-, -, rfl⟩ := h
          exact hs
    · simp only [Option.some.injEq, Prod.mk.injEq] at h
      obtain ⟨-, -, rfl⟩ := h
      exact hs

theorem write_byte_steady {τ : Type} {P : Platform τ} {fuel : Nat} {s s' : State τ}
    {byte : Nat} {e : libnxt_error} (h : write_byte P fuel s byte = some (e, s')) :
    Steady s s' := by
  unfold write_byte at h
  split at h
  · exact absurd h (by simp)
  · rename_i e1 s1 hf
    have hs : Steady s s1 := by
      split at hf
      · exact flush_buffer_steady hf
      · simp only [Option.some.injEq, Prod.mk.injEq] at hf
        obtain ⟨-, rfl⟩ := hf
        exact steady_refl _
    dsimp only at h
    split at h
    · split at h <;>
        · simp only [Option.some.injEq, Prod.mk.injEq] at h
          obtain ⟨-, rfl⟩ := h
          exact hs
    · simp only [Option.some.injEq, Prod.mk.injEq] at h
      obtain ⟨-, rfl⟩ := h
      exact hs

theorem send_eof_steady {τ : Type} {P : Platform τ} {fuel : Nat} {s s' : State τ}
    {e : libnxt_error} (h : send_eof P fuel s = some (e, s')) : Steady s s' := by
  unfold send_eof at h
  split at h
  · exact absurd h (by simp)
  · rename_i e1 w s1 hr
    simp only [Option.some.injEq, Prod.mk.injEq] at h
    obtain ⟨-, rfl⟩ := h
    exact raw_write_steady hr

theorem receive_loop_steady {τ : Type} (P : Platform τ) (fuel : Nat) (k : Nat) :
    ∀ (i : Nat) (s : State τ) (ret : List Nat) (e : libnxt_error) (ret' : List Nat)
      (s' : State τ), receive_loop P fuel k i s ret = some (e, ret', s') → Steady s s' := by
  induction k with
  | zero =>
    intro i s ret e ret' s' h
    simp only [receive_loop, Option.some.injEq, Prod.mk.injEq] at h
    obtain ⟨-, -, rfl⟩ := h
    exact steady_refl _
  | succ k ih =>
    intro i s ret e ret' s' h
    rw [receive_loop] at h
    split at h
    · exact absurd h (by simp)
    · rename_i e1 b s1 hr
      have hs := read_byte_steady hr
      split at h
      · simp only [Option.some.injEq, Prod.mk.injEq] at h
        obtain ⟨-, -, rfl⟩ := h
        exact hs
      · exact steady_trans hs (ih _ _ _ _ _ _ h)

theorem steady_held {τ : Type} {s s' : State τ} (h : Steady s s') : Held s s' :=
  ⟨h.1, h.2.1, h.2.2.1, h.2.2.2.2⟩

theorem held_refl {τ : Type} (s : State τ) : Held s s := ⟨rfl, rfl, rfl, rfl⟩

theorem held_trans {τ : Type} {a b c : State τ} (h1 : Held a b) (h2 : Held b c) :
    Held a c := by
  obtain ⟨h11, h12, h13, h15⟩ := h1
  obtain ⟨h21, h22, h23, h25⟩ := h2
  exact ⟨h21.trans h11, h22.trans h12, h23.trans h13, h25.trans h15⟩

theorem receive_held {τ : Type} {P : Platform τ} {fuel : Nat} {s s' : State τ}
    {message message' : Option (List Nat)} {length length' : Nat} {e : libnxt_error}
    (h : receive P fuel s message length = some (e, message', length', s')) : Held s s' := by
  unfold receive at h
  split at h
  · simp only [Option.some.injEq, Prod.mk.injEq] at h
    obtain ⟨-, -, -, rfl⟩ := h
    exact held_refl _
  · split at h
    · exact absurd h (by simp)
    · rename_i e1 b0 s1 h1
      have hs1 := steady_held (read_byte_steady h1)
      split at h
      · simp only [Option.some.injEq, Prod.mk.injEq] at h
        obtain ⟨-, -, -, rfl⟩ := h
        exact hs1
      · split at h
        · exact absurd h (by simp)
        · rename_i e2 b1 s2 h2
          have hs2 := held_trans hs1 (steady_held (read_byte_steady h2))
          split at h
          · simp only [Option.some.injEq, Prod.mk.injEq] at h
            obtain ⟨-, -, -, rfl⟩ := h
            exact hs2
          · dsimp only at h
            split at h
            · simp only [Option.some.injEq, Prod.mk.injEq] at h
              obtain ⟨-, -, -, rfl⟩ := h
              exact hs2
            · split at h
              · exact absurd h (by simp)
              · rename_i e3 ret s4 h3
                have hs3 := steady_held (receive_loop_steady P fuel _ _ _ _ _ _ _ h3)
                have hs4 : Held s s4 := held_trans hs2 hs3
                split at h <;>
                  · simp only [Option.some.injEq, Prod.mk.injEq] at h
                    obtain ⟨-, -, -, rfl⟩ := h
                    exact hs4

theorem exit_loop_held {τ : Type} (P : Platform τ) (fuel : Nat) (k : Nat) :
    ∀ (s : State τ) (dataIn : Option (List Nat)) (length : Nat) (s' : State τ),
      exit_loop P fuel k s dataIn length = some s' → Held s s' := by
  induction k with
  | zero => intro s d l s' h; simp [exit_loop] at h
  | succ k ih =>
    intro s d l s' h
    rw [exit_loop] at h
    split at h
    · exact absurd h (by simp)
    · rename_i e1 d1 l1 s1 hr
      have hs := receive_held hr
      split at h
      · simp only [Option.some.injEq] at h
        subst h
        exact hs
      · split at h
        · exact held_trans hs (ih _ _ _ _ h)
        · simp only [Option.some.injEq] at h
          subst h
          exact hs

/-! ## Opening and closing the device -/

theorem open_comm_of_handle {τ : Type} (P : Platform τ) (s : State τ) (h : s.handle = true) :
    open_comm P s = (LIBNXT_NO_EFFECT, s) := by
  simp [open_comm, h]

theorem open_comm_of_no_handle {τ : Type} (P : Platform τ) (s : State τ)
    (h : s.handle = false) :
    (open_comm P s).1 ≠ LIBNXT_NO_EFFECT ∧
    ((open_comm P s).2.handle = true ↔ (open_comm P s).1 = LIBNXT_SUCCESS) ∧
    (open_comm P s).2.eof = s.eof ∧ (open_comm P s).2.timeout = s.timeout ∧
    closeCount (open_comm P s).2.calls = closeCount s.calls := by
  unfold open_comm
  simp only [h, Bool.false_eq_true, if_false]
  split
  · simp [closeCount_append, closeCount, h]
  · split
    · split <;> simp [closeCount_append, closeCount, h]
    · split
      · split <;> simp [closeCount_append, closeCount, h]
      · simp [closeCount_append, closeCount]

theorem close_comm_handle {τ : Type} (P : Platform τ) (s : State τ) :
    (close_comm P s).handle = false := by
  unfold close_comm
  split
  · rfl
  · rename_i h
    simpa using h

theorem close_comm_calls {τ : Type} (P : Platform τ) (s : State τ) :
    closeCount (close_comm P s).calls
      = closeCount s.calls + (if s.handle then 1 else 0) := by
  unfold close_comm
  split <;> simp [closeCount_append, closeCount]

theorem close_comm_eof_timeout {τ : Type} (P : Platform τ) (s : State τ) :
    (close_comm P s).eof = s.eof ∧ (close_comm P s).timeout = s.timeout := by
  unfold close_comm
  split <;> exact ⟨rfl, rfl⟩

theorem reply_valid_iff (reply : List Nat) (t : Nat) :
    reply_valid reply t = true ↔ t = 3 ∧ reply.take t = [0x02, 0xFE, 0xEF] := by
  unfold reply_valid CONFIRM_PACKET_MODE_REPLY
  by_cases ht : t = 3
  · subst ht
    rcases reply with _ | ⟨a, _ | ⟨b, _ | ⟨c, r⟩⟩⟩ <;>
      simp [List.range_succ, List.getD]
  · simp [ht]

/-! ## Session layer -/

/-- C5: while the session is Closed (`eof` set), `send` and `receive` return
`LIBNXT_NOT_OPENED` and hand back the very state they were given, record of USB
calls included, together with the caller's `*message` and `*length` as they
were. -/
theorem closed_send_receive_not_opened {τ : Type} (P : Platform τ) (fuel : Nat)
    (s : State τ) (h : s.eof = true) (payload : List Nat) (n : Nat)
    (message : Option (List Nat)) (length : Nat) :
    send P fuel s payload n = some (LIBNXT_NOT_OPENED, s) ∧
    receive P fuel s message length = some (LIBNXT_NOT_OPENED, message, length, s) := by
  simp [send, receive, h]

/-- C5, exercised at program start with a pending caller message. -/
theorem closed_send_receive_not_opened_witness :
    (State.initial ([] : List Nat)).eof = true ∧
    send (loopback true) 0 (State.initial []) [1, 2, 3] 3
      = some (LIBNXT_NOT_OPENED, State.initial []) ∧
    receive (loopback true) 0 (State.initial []) (some [9]) 1
      = some (LIBNXT_NOT_OPENED, some [9], 1, State.initial []) :=
  ⟨rfl, closed_send_receive_not_opened (loopback true) 0 (State.initial []) rfl [1, 2, 3] 3
    (some [9]) 1⟩

/-- C8: while the session is Open (`eof` clear), `init_messaging` returns
`LIBNXT_NO_EFFECT` and hands back the very state it was given, record of USB
calls included. -/
theorem init_messaging_open_no_effect {τ : Type} (P : Platform τ) (fuel : Nat)
    (s : State τ) (reply : List Nat) (h : s.eof = false) :
    init_messaging P fuel s reply = some (LIBNXT_NO_EFFECT, s) := by
  simp [init_messaging, h]

/-- C8, exercised on a freshly opened session. -/
theorem init_messaging_open_no_effect_witness :
    (State.opened ([] : List Nat)).eof = false ∧
    init_messaging (loopback true) 0 (State.opened []) []
      = some (LIBNXT_NO_EFFECT, State.opened []) :=
  ⟨rfl, init_messaging_open_no_effect (loopback true) 0 (State.opened []) [] rfl⟩

/-- What the first part of `exit_messaging` (flush, exit frame, draining) leaves
alone, whenever it returns. -/
theorem exit_drain_held {τ : Type} {P : Platform τ} {fuel : Nat} {s0 s3 : State τ}
    (h : (match flush_buffer P fuel s0 with
          | none => none
          | some (e1, s1) =>
            if !e1.nonzero then
              match send_eof P fuel s1 with
              | none => none
              | some (e2, s2) =>
                if !e2.nonzero then exit_loop P fuel fuel s2 none 0 else some s2
            else some s1) = some s3) : Held s0 s3 := by
  split at h
  · exact absurd h (by simp)
  · rename_i e1 s1 hf
    have h1 := steady_held (flush_buffer_steady hf)
    split at h
    · split at h
      · exact absurd h (by simp)
      · rename_i e2 s2 he
        have h2 := held_trans h1 (steady_held (send_eof_steady he))
        split at h
        · exact held_trans h2 (exit_loop_held P fuel fuel _ _ _ _ h)
        · simp only [Option.some.injEq] at h
          subst h
          exact h2
    · simp only [Option.some.injEq] at h
      subst h
      exact h1

/-- C9: calling `exit_messaging` while Closed changes nothing; from every Open
state (`eof` clear, handle held), whatever the timeout flag and whatever the
transport does, whenever `exit_messaging` returns the session is Closed, the
handle is NULL, the device handle was closed exactly once during the call, and
the timeout flag has its value from before the call. -/
theorem exit_messaging_always_releases {τ : Type} (P : Platform τ) (fuel : Nat)
    (s : State τ) :
    (s.eof = true → exit_messaging P fuel s = some s) ∧
    (s.eof = false → s.handle = true →
      ∀ s', exit_messaging P fuel s = some s' →
        s'.eof = true ∧ s'.handle = false ∧
        closeCount s'.calls = closeCount s.calls + 1 ∧ s'.timeout = s.timeout) := by
  constructor
  · intro h
    simp [exit_messaging, h]
  · intro he hh s' h
    unfold exit_messaging at h
    simp only [he, Bool.not_false, if_true] at h
    split at h
    · exact absurd h (by simp)
    · rename_i s3 hd
      have hheld : Held (set_timeout s 0) s3 := exit_drain_held hd
      obtain ⟨h1, -, -, h4⟩ := hheld
      simp only [Option.some.injEq] at h
      subst h
      have hh3 : s3.handle = true := by rw [h1]; exact hh
      refine ⟨rfl, ?_, ?_, rfl⟩
      · exact close_comm_handle P s3
      · show closeCount (close_comm P s3).calls = _
        rw [close_comm_calls, hh3, h4]
        rfl

/-- C9, exercised on a session with one byte queued and the timeout flag set to
7, whose peer answers the exit frame with its own. -/
theorem exit_messaging_always_releases_witness :
    exitDemo.eof = false ∧ exitDemo.handle = true ∧
    exit_messaging (scripted true) 1 exitDemo = some exitDemoAfter ∧
    (exitDemoAfter.eof = true ∧ exitDemoAfter.handle = false ∧
      closeCount exitDemoAfter.calls = closeCount exitDemo.calls + 1 ∧
      exitDemoAfter.timeout = exitDemo.timeout) :=
  ⟨rfl, rfl, by decide,
    (exit_messaging_always_releases (scripted true) 1 exitDemo).2 rfl rfl exitDemoAfter
      (by decide)⟩

/-- With nothing queued for output, `exit_messaging` goes straight to closing
the device: the idle flush returns `LIBNXT_NO_EFFECT`, which is non-zero, so the
branch that sends the exit frame is skipped. -/
theorem exit_messaging_idle {τ : Type} (P : Platform τ) (fuel : Nat) (s : State τ)
    (he : s.eof = false) (ho : s.outCount = 0) :
    exit_messaging P fuel s
      = some { close_comm P (set_timeout s 0) with
                 eof := true, inBuf := [], outBuf := [], timeout := s.timeout } := by
  simp [exit_messaging, he, flush_buffer, set_timeout, ho, libnxt_error.nonzero,
    libnxt_error.toInt]

/-- C10: on a freshly opened session (output buffer empty) whose transport
takes every write, `exit_messaging` returns having made a single call on the USB
stack, the closing of the handle; no byte is written, so the exit frame
`0x00 0x00` is not transmitted. -/
theorem exit_messaging_skips_exit_frame :
    ∃ s', exit_messaging (loopback false) 1 (State.opened []) = some s' ∧
      s'.calls = [UsbCall.usb_close] ∧ offered s'.calls = [] ∧ s'.usb = [] := by
  refine ⟨_, exit_messaging_idle (loopback false) 1 (State.opened []) rfl rfl, ?_, ?_, ?_⟩ <;>
    rfl

theorem nonzero_iff (e : libnxt_error) : e.nonzero = true ↔ e ≠ LIBNXT_SUCCESS := by
  cases e <;> simp [libnxt_error.nonzero, libnxt_error.toInt]

theorem nonzero_success : LIBNXT_SUCCESS.nonzero = false := rfl

/-- C6: starting Closed, when the device opens, the mode-switch command
`[0x01, 0xFF]` is written with outcome Success and the reply read returns
Success with `t` bytes, `init_messaging` returns `LIBNXT_SUCCESS` with the
session Open if `t = 3` and the reply is `[0x02, 0xFE, 0xEF]`, and returns
`LIBNXT_OTHER_ERROR` with the session Closed for every other reply. -/
theorem init_messaging_handshake {τ : Type} (P : Platform τ) (fuel : Nat) (s s1 s2 s3 : State τ)
    (reply reply2 : List Nat) (w t : Nat)
    (hc : s.eof = true)
    (hopen : open_comm P s = (LIBNXT_SUCCESS, s1))
    (hw : raw_write P fuel
            { s1 with eof := false, inBuf := List.replicate BUFFER_SIZE 0,
                      outBuf := List.replicate BUFFER_SIZE 0 }
            [SYSTEM_COMMAND_REPLY, NXJ_PACKET_MODE] 0 2 0 0 = some (LIBNXT_SUCCESS, w, s2))
    (hr : raw_read P fuel s2 reply 0 BUFFER_SIZE 0 w = some (LIBNXT_SUCCESS, reply2, t, s3)) :
    (t = 3 ∧ reply2.take t = [0x02, 0xFE, 0xEF] →
      init_messaging P fuel s reply = some (LIBNXT_SUCCESS, s3) ∧ s3.eof = false) ∧
    (¬ (t = 3 ∧ reply2.take t = [0x02, 0xFE, 0xEF]) →
      ∃ s', init_messaging P fuel s reply = some (LIBNXT_OTHER_ERROR, s') ∧ s'.eof = true) := by
  have he3 : s3.eof = false := by
    have h1 := (raw_write_steady hw).2.1
    have h2 := (raw_read_steady hr).2.1
    rw [h2, h1]
  have hlen : [SYSTEM_COMMAND_REPLY, NXJ_PACKET_MODE].length = 2 := rfl
  unfold init_messaging
  simp only [hc, hopen, Bool.not_true, Bool.false_eq_true, if_false, nonzero_success, hlen, hw,
    hr, Bool.not_false, if_true]
  constructor
  · intro hv
    have := (reply_valid_iff reply2 t).2 hv
    simp [this, nonzero_success, he3]
  · intro hv
    have : reply_valid reply2 t = false := by
      rw [← Bool.not_eq_true, reply_valid_iff]
      exact hv
    simp [this, libnxt_error.nonzero, libnxt_error.toInt]

/-- C6, exercised on a device that answers with the confirmation sequence. -/
theorem init_messaging_handshake_witness :
    init_messaging (scripted true) 1 (handshakeStart [0x02, 0xFE, 0xEF])
        (List.replicate BUFFER_SIZE 0)
      = some (LIBNXT_SUCCESS, handshakeAnswered [0x02, 0xFE, 0xEF]) ∧
    (handshakeAnswered [0x02, 0xFE, 0xEF]).eof = false :=
  (init_messaging_handshake (scripted true) 1 (handshakeStart [0x02, 0xFE, 0xEF])
    (handshakeOpened [0x02, 0xFE, 0xEF]) (handshakeAsked [0x02, 0xFE, 0xEF])
    (handshakeAnswered [0x02, 0xFE, 0xEF]) (List.replicate BUFFER_SIZE 0)
    ([0x02, 0xFE, 0xEF] ++ List.replicate 509 0) 2 3 rfl (by decide) rfl rfl).1
    ⟨rfl, by decide⟩

/-- C7: starting Closed, whenever `init_messaging` returns an outcome other
than `LIBNXT_SUCCESS` and `LIBNXT_NO_EFFECT`, the session is Closed, the handle
is NULL, the device handle was closed at most once during the call, and every
following `send` or `receive` returns `LIBNXT_NOT_OPENED`. -/
theorem init_messaging_rollback {τ : Type} (P : Platform τ) (fuel : Nat) (s s' : State τ)
    (reply : List Nat) (e : libnxt_error)
    (hc : s.eof = true)
    (h : init_messaging P fuel s reply = some (e, s'))
    (h1 : e ≠ LIBNXT_SUCCESS) (h2 : e ≠ LIBNXT_NO_EFFECT) :
    s'.eof = true ∧ s'.handle = false ∧ closeCount s'.calls ≤ closeCount s.calls + 1 ∧
    (∀ (fuel2 : Nat) (payload : List Nat) (n : Nat),
      send P fuel2 s' payload n = some (LIBNXT_NOT_OPENED, s')) ∧
    (∀ (fuel2 : Nat) (message : Option (List Nat)) (length : Nat),
      receive P fuel2 s' message length = some (LIBNXT_NOT_OPENED, message, length, s')) := by
  have key : s'.eof = true ∧ s'.handle = false ∧ closeCount s'.calls ≤ closeCount s.calls + 1 := by
    unfold init_messaging at h
    simp only [hc, Bool.not_true, Bool.false_eq_true, if_false] at h
    by_cases hh : s.handle = true
    · rw [open_comm_of_handle P s hh] at h
      simp only [show LIBNXT_NO_EFFECT.nonzero = true from rfl, if_true, Option.some.injEq,
        Prod.mk.injEq] at h
      exact absurd h.1.symm h2
    · have hh' : s.handle = false := by simpa using hh
      obtain ⟨-, o2, o3, o4, o5⟩ := open_comm_of_no_handle P s hh'
      split at h
      · simp only [Option.some.injEq, Prod.mk.injEq] at h
        obtain ⟨rfl, rfl⟩ := h
        refine ⟨o3.trans hc, ?_, by omega⟩
        cases hq : (open_comm P s).2.handle
        · rfl
        · exact absurd (o2.1 hq) h1
      · rename_i hz
        have hok : (open_comm P s).1 = LIBNXT_SUCCESS := by
          by_contra hne
          exact hz ((nonzero_iff _).2 hne)
        split at h
        · exact absurd h (by simp)
        · rename_i e1 t1 sw hw
          have hsw := steady_held (raw_write_steady hw)
          split at h
          · exact absurd h (by simp)
          · rename_i ec s4 hhs
            have h4 : Held sw s4 := by
              split at hhs
              · split at hhs
                · exact absurd hhs (by simp)
                · rename_i e2 r2 t2 s3 hr
                  have h3 := steady_held (raw_read_steady hr)
                  split at hhs <;>
                    · simp only [Option.some.injEq, Prod.mk.injEq] at hhs
                      obtain ⟨-, rfl⟩ := hhs
                      exact h3
              · simp only [Option.some.injEq, Prod.mk.injEq] at hhs
                obtain ⟨-, rfl⟩ := hhs
                exact held_refl _
            have h5 := (held_trans hsw h4).2.2.2
            split at h
            · simp only [Option.some.injEq, Prod.mk.injEq] at h
              obtain ⟨rfl, rfl⟩ := h
              refine ⟨rfl, close_comm_handle P s4, ?_⟩
              show closeCount (close_comm P s4).calls ≤ _
              rw [close_comm_calls, h5]
              show closeCount (open_comm P s).2.calls + _ ≤ _
              rw [o5]
              split <;> omega
            · simp only [Option.some.injEq, Prod.mk.injEq] at h
              exact absurd h.1.symm h1
  refine ⟨key.1, key.2.1, key.2.2, ?_, ?_⟩
  · intro fuel2 payload n
    simp [send, key.1]
  · intro fuel2 message length
    simp [receive, key.1]

/-- C7, exercised on a device whose reply differs in its last byte. -/
theorem init_messaging_rollback_witness :
    (handshakeStart [0x02, 0xFE, 0xEE]).eof = true ∧
    init_messaging (scripted true) 1 (handshakeStart [0x02, 0xFE, 0xEE])
        (List.replicate BUFFER_SIZE 0)
      = some (LIBNXT_OTHER_ERROR, handshakeRolledBack [0x02, 0xFE, 0xEE]) ∧
    ((handshakeRolledBack [0x02, 0xFE, 0xEE]).eof = true ∧
      (handshakeRolledBack [0x02, 0xFE, 0xEE]).handle = false ∧
      closeCount (handshakeRolledBack [0x02, 0xFE, 0xEE]).calls
        ≤ closeCount (handshakeStart [0x02, 0xFE, 0xEE]).calls + 1 ∧
      (∀ (fuel2 : Nat) (payload : List Nat) (n : Nat),
        send (scripted true) fuel2 (handshakeRolledBack [0x02, 0xFE, 0xEE]) payload n
          = some (LIBNXT_NOT_OPENED, handshakeRolledBack [0x02, 0xFE, 0xEE])) ∧
      (∀ (fuel2 : Nat) (message : Option (List Nat)) (length : Nat),
        receive (scripted true) fuel2 (handshakeRolledBack [0x02, 0xFE, 0xEE]) message length
          = some (LIBNXT_NOT_OPENED, message, length,
                  handshakeRolledBack [0x02, 0xFE, 0xEE]))) :=
  ⟨rfl, by decide,
    init_messaging_rollback (scripted true) 1 (handshakeStart [0x02, 0xFE, 0xEE])
      (handshakeRolledBack [0x02, 0xFE, 0xEE]) (List.replicate BUFFER_SIZE 0)
      LIBNXT_OTHER_ERROR rfl (by decide) (by decide) (by decide)⟩


/-! ## Framing layer: receive -/

theorem receive_loop_length {τ : Type} (P : Platform τ) (fuel : Nat) (k : Nat) :
    ∀ (i : Nat) (s : State τ) (ret : List Nat) (e : libnxt_error) (ret' : List Nat)
      (s' : State τ), receive_loop P fuel k i s ret = some (e, ret', s') →
        ret'.length = ret.length := by
  induction k with
  | zero =>
    intro i s ret e ret' s' h
    simp only [receive_loop, Option.some.injEq, Prod.mk.injEq] at h
    obtain ⟨-, rfl, -⟩ := h
    rfl
  | succ k ih =>
    intro i s ret e ret' s' h
    rw [receive_loop] at h
    split at h
    · exact absurd h (by simp)
    · rename_i e1 b s1 hr
      split at h
      · simp only [Option.some.injEq, Prod.mk.injEq] at h
        obtain ⟨-, rfl, -⟩ := h
        simp
      · rw [ih _ _ _ _ _ _ h]
        simp

/-- The header part of `receive` on an Open session: whenever both header
reads succeed and `receive` returns, the value left in `*length` is
`header_length` of the two bytes, whatever the final outcome. -/
theorem receive_stores_header_length {τ : Type} (P : Platform τ) (fuel : Nat)
    (s s1 s2 s' : State τ) (b0 b1 : Nat) (message message' : Option (List Nat))
    (length length' : Nat) (e : libnxt_error)
    (ho : s.eof = false)
    (h1 : read_byte P fuel s 0 = some (LIBNXT_SUCCESS, b0, s1))
    (h2 : read_byte P fuel s1 0 = some (LIBNXT_SUCCESS, b1, s2))
    (h : receive P fuel s message length = some (e, message', length', s')) :
    length' = header_length P.char_signed b0 b1 := by
  unfold receive at h
  simp only [ho, Bool.false_eq_true, if_false, h1, h2, nonzero_success] at h
  split at h
  · simp only [Option.some.injEq, Prod.mk.injEq] at h
    exact h.2.2.1.symm
  · split at h
    · exact absurd h (by simp)
    · split at h <;>
        · simp only [Option.some.injEq, Prod.mk.injEq] at h
          exact h.2.2.1.symm

/-- C4: whenever `receive` returns `LIBNXT_SUCCESS`, `*length` is 0 exactly when
`*message` is `REQUEST_EXIT`; in that case no payload block was requested and
the state is the one reached by exactly two successful `read_byte` calls; and
when `*length` is positive, `*message` addresses a payload of exactly
`*length` bytes, the one block requested during the call. -/
theorem receive_exit_sentinel {τ : Type} (P : Platform τ) (fuel : Nat) (s s' : State τ)
    (message message' : Option (List Nat)) (length length' : Nat)
    (h : receive P fuel s message length = some (LIBNXT_SUCCESS, message', length', s')) :
    (length' = 0 ↔ message' = none) ∧
    (length' = 0 →
      s'.payloads = s.payloads ∧
      ∃ b0 b1 s1, read_byte P fuel s 0 = some (LIBNXT_SUCCESS, b0, s1) ∧
        read_byte P fuel s1 0 = some (LIBNXT_SUCCESS, b1, s')) ∧
    (0 < length' →
      ∃ p, message' = some p ∧ p.length = length' ∧
        s'.payloads = s.payloads ++ [length']) := by
  unfold receive at h
  split at h
  · simp at h
  · split at h
    · exact absurd h (by simp)
    · rename_i e1 b0 s1 h1
      split at h
      · rename_i hz
        simp only [Option.some.injEq, Prod.mk.injEq] at h
        rw [h.1] at hz
        exact absurd hz (by simp [nonzero_success])
      · rename_i hz1
        have he1 : e1 = LIBNXT_SUCCESS := by
          by_contra hne
          exact hz1 ((nonzero_iff _).2 hne)
        subst he1
        split at h
        · exact absurd h (by simp)
        · rename_i e2 b1 s2 h2
          split at h
          · rename_i hz
            simp only [Option.some.injEq, Prod.mk.injEq] at h
            rw [h.1] at hz
            exact absurd hz (by simp [nonzero_success])
          · rename_i hz2
            have he2 : e2 = LIBNXT_SUCCESS := by
              by_contra hne
              exact hz2 ((nonzero_iff _).2 hne)
            subst he2
            dsimp only at h
            split at h
            · rename_i hl
              simp only [Option.some.injEq, Prod.mk.injEq] at h
              obtain ⟨-, rfl, rfl, rfl⟩ := h
              have hl0 : header_length P.char_signed b0 b1 = 0 := by simpa using hl
              refine ⟨by simp [hl0], ?_, ?_⟩
              · intro _
                refine ⟨?_, b0, b1, s1, h1, h2⟩
                rw [(read_byte_steady h2).2.2.2.1, (read_byte_steady h1).2.2.2.1]
              · intro hpos
                omega
            · rename_i hl
              have hl0 : header_length P.char_signed b0 b1 ≠ 0 := by simpa using hl
              split at h
              · exact absurd h (by simp)
              · rename_i e3 ret s4 h3
                have hlen := receive_loop_length P fuel _ _ _ _ _ _ _ h3
                have hpay := (receive_loop_steady P fuel _ _ _ _ _ _ _ h3).2.2.2.1
                split at h
                · rename_i hz
                  simp only [Option.some.injEq, Prod.mk.injEq] at h
                  rw [h.1] at hz
                  exact absurd hz (by simp [nonzero_success])
                · simp only [Option.some.injEq, Prod.mk.injEq] at h
                  obtain ⟨-, rfl, rfl, rfl⟩ := h
                  refine ⟨by simp [hl0], ?_, ?_⟩
                  · intro h0
                    exact absurd h0 hl0
                  · intro _
                    refine ⟨ret, rfl, by simpa using hlen, ?_⟩
                    rw [hpay]
                    show s2.payloads ++ _ = _
                    rw [(read_byte_steady h2).2.2.2.1, (read_byte_steady h1).2.2.2.1]


/-- C4, exercised on an exit frame and on a frame of three bytes. -/
theorem receive_exit_sentinel_witness :
    (∃ s', receive (scripted true) 1 (State.opened [((0 : Int), [0, 0, 5])]) (some [1]) 5
            = some (LIBNXT_SUCCESS, none, 0, s') ∧
      ((0 = 0 ↔ (none : Option (List Nat)) = none) ∧
       (0 = 0 →
          s'.payloads = (State.opened [((0 : Int), [0, 0, 5])]).payloads ∧
          ∃ b0 b1 s1,
            read_byte (scripted true) 1 (State.opened [((0 : Int), [0, 0, 5])]) 0
              = some (LIBNXT_SUCCESS, b0, s1) ∧
            read_byte (scripted true) 1 s1 0 = some (LIBNXT_SUCCESS, b1, s')) ∧
       (0 < 0 →
          ∃ p, (none : Option (List Nat)) = some p ∧ p.length = 0 ∧
            s'.payloads = (State.opened [((0 : Int), [0, 0, 5])]).payloads ++ [0]))) ∧
    (∃ s', receive (scripted true) 1 (State.opened [((0 : Int), [3, 0, 7, 8, 9])]) none 0
            = some (LIBNXT_SUCCESS, some [7, 8, 9], 3, s') ∧
      ((3 = 0 ↔ some [7, 8, 9] = none) ∧
       (3 = 0 →
          s'.payloads = (State.opened [((0 : Int), [3, 0, 7, 8, 9])]).payloads ∧
          ∃ b0 b1 s1,
            read_byte (scripted true) 1 (State.opened [((0 : Int), [3, 0, 7, 8, 9])]) 0
              = some (LIBNXT_SUCCESS, b0, s1) ∧
            read_byte (scripted true) 1 s1 0 = some (LIBNXT_SUCCESS, b1, s')) ∧
       (0 < 3 →
          ∃ p, some [7, 8, 9] = some p ∧ p.length = 3 ∧
            s'.payloads = (State.opened [((0 : Int), [3, 0, 7, 8, 9])]).payloads ++ [3]))) :=
  ⟨⟨_, rfl, receive_exit_sentinel (scripted true) 1 _ _ (some [1]) none 5 0 rfl⟩,
   ⟨_, rfl, receive_exit_sentinel (scripted true) 1 _ _ none (some [7, 8, 9]) 0 3 rfl⟩⟩


/-! ## Decoding the length header -/

theorem or_mod_two_pow_eq (a b n : Nat) : (a ||| b) % 2 ^ n = a % 2 ^ n ||| b % 2 ^ n := by
  apply Nat.eq_of_testBit_eq
  intro i
  simp only [Nat.testBit_mod_two_pow, Nat.testBit_or]
  by_cases h : i < n <;> simp [h]

theorem header_msb_part (cs : Bool) (b1 : Nat) (h : b1 < 256) :
    ((char_to_int cs b1 * 2 ^ 8) % 2 ^ 32) % 2 ^ 16 = 2 ^ 8 * b1 := by
  unfold char_to_int
  split <;> omega

/-- A low byte below 128 is decoded as `b0 + 256 * b1` whatever the signedness
of `char`. -/
theorem header_length_low (cs : Bool) (b0 b1 : Nat) (h0 : b0 < 128) (h1 : b1 < 256) :
    header_length cs b0 b1 = b0 + 256 * b1 := by
  unfold header_length
  rw [or_mod_two_pow_eq, header_msb_part cs b1 h1]
  have : char_to_int cs b0 = b0 := by
    unfold char_to_int
    rw [if_neg]
    simp
    omega
  rw [this, Nat.mod_eq_of_lt (by omega : b0 < 2 ^ 16), ← Nat.mul_add_lt_is_or (by omega : b0 < 2 ^ 8)]
  omega

/-- Where plain `char` is unsigned the header is decoded as `b0 + 256 * b1`. -/
theorem header_length_unsigned (b0 b1 : Nat) (h0 : b0 < 256) (h1 : b1 < 256) :
    header_length false b0 b1 = b0 + 256 * b1 := by
  unfold header_length
  rw [or_mod_two_pow_eq, header_msb_part false b1 h1]
  have : char_to_int false b0 = b0 := by simp [char_to_int]
  rw [this, Nat.mod_eq_of_lt (by omega : b0 < 2 ^ 16), ← Nat.mul_add_lt_is_or (by omega : b0 < 2 ^ 8)]
  omega

theorem or_255 (b1 : Nat) (h : b1 < 256) : b1 ||| 255 = 255 := by
  interval_cases b1 <;> rfl

/-- Where plain `char` is signed, a low byte of 128 or more is sign-extended
and fills the high byte with ones, whatever `b1` is. -/
theorem header_length_signed_high (b0 b1 : Nat) (h0 : 128 ≤ b0) (h0' : b0 < 256) (h1 : b1 < 256) :
    header_length true b0 b1 = 0xFF00 + b0 := by
  unfold header_length
  rw [or_mod_two_pow_eq, header_msb_part true b1 h1]
  have : char_to_int true b0 % 2 ^ 16 = 2 ^ 8 * 255 + b0 := by
    unfold char_to_int
    rw [if_pos (by simpa using h0)]
    omega
  rw [this, Nat.mul_add_lt_is_or (by omega : b0 < 2 ^ 8), ← Nat.or_assoc]
  have h2 : 2 ^ 8 * b1 ||| 2 ^ 8 * 255 = 2 ^ 8 * 255 := by
    have := Nat.shiftLeft_eq b1 8
    have e1 : 2 ^ 8 * b1 = b1 <<< 8 := by rw [Nat.shiftLeft_eq]; ring
    have e2 : 2 ^ 8 * 255 = 255 <<< 8 := by rfl
    rw [e1, e2]
    apply Nat.eq_of_testBit_eq
    intro i
    simp only [Nat.testBit_or, Nat.testBit_shiftLeft]
    by_cases hi : 8 ≤ i
    · have := congrArg (fun x => x.testBit (i - 8)) (or_255 b1 h1)
      simp only [Nat.testBit_or] at this
      simp [hi, this]
    · simp [hi]
  rw [h2, ← Nat.mul_add_lt_is_or (by omega : b0 < 2 ^ 8)]

/-- C3: on a target where plain `char` is signed, `receive` reading the header
bytes `0x80 0x00` leaves 65408 (`0xFF80`) in `*length`, not
`0x80 + 256 * 0x00 = 128`; the same input on a target with unsigned `char`
leaves 128. -/
theorem receive_sign_extends_length :
    (∃ s1 s2 s',
      read_byte (scripted true) 1 signedDemo 0 = some (LIBNXT_SUCCESS, 0x80, s1) ∧
      read_byte (scripted true) 1 s1 0 = some (LIBNXT_SUCCESS, 0x00, s2) ∧
      receive (scripted true) 1 signedDemo none 0
        = some (LIBNXT_DISCONNECTED, none, 65408, s')) ∧
    (∃ s', receive (scripted false) 1 signedDemo none 0
        = some (LIBNXT_DISCONNECTED, none, 128, s')) ∧
    header_length true 0x80 0x00 = 65408 ∧ header_length false 0x80 0x00 = 128 :=
  ⟨⟨_, _, _, rfl, rfl, rfl⟩, ⟨_, rfl⟩, rfl, rfl⟩


/-! ## Framing layer: send -/

theorem offered_append (a b : List UsbCall) : offered (a ++ b) = offered a ++ offered b := by
  induction a with
  | nil => simp [offered]
  | cons c rest ih => cases c <;> simp [offered, ih]

theorem accepted_append (a b : List UsbCall) :
    accepted (a ++ b) = accepted a ++ accepted b := by
  induction a with
  | nil => simp [accepted]
  | cons c rest ih => cases c <;> simp [accepted, ih]

theorem take_set_succ (l : List Nat) (i b : Nat) (h : i < l.length) :
    (l.set i b).take (i + 1) = l.take i ++ [b] := by
  induction l generalizing i with
  | nil => simp at h
  | cons a rest ih =>
    cases i with
    | zero => simp
    | succ j =>
      simp only [List.set_cons_succ, List.take_succ_cons, List.cons_append, List.cons.injEq,
        true_and]
      exact ih j (by simpa using h)

theorem size_t_sub_self (bits a : Nat) : size_t_sub bits a a = 0 := by
  unfold size_t_sub
  have hle : a % 2 ^ bits ≤ a := Nat.mod_le _ _
  have hsplit : a + 2 ^ bits - a % 2 ^ bits = 2 ^ bits * (a / 2 ^ bits + 1) := by
    have := Nat.div_add_mod a (2 ^ bits)
    rw [Nat.mul_add, Nat.mul_one]
    omega
  rw [hsplit, Nat.mul_mod_right]

theorem size_t_sub_le (bits a b : Nat) (h : b ≤ a) : size_t_sub bits a b ≤ a := by
  unfold size_t_sub
  have hle : b % 2 ^ bits ≤ b := Nat.mod_le _ _
  have hsplit : a + 2 ^ bits - b % 2 ^ bits = (a - b % 2 ^ bits) + 2 ^ bits := by omega
  rw [hsplit, Nat.add_mod_right]
  exact Nat.le_trans (Nat.mod_le _ _) (Nat.sub_le _ _)

theorem size_t_sub_exact (bits a b : Nat) (h : b ≤ a) (ha : a < 2 ^ bits) :
    size_t_sub bits a b = a - b := by
  unfold size_t_sub
  have hb : b % 2 ^ bits = b := Nat.mod_eq_of_lt (by omega)
  have hsplit : a + 2 ^ bits - b = (a - b) + 2 ^ bits := by omega
  rw [hb, hsplit, Nat.add_mod_right, Nat.mod_eq_of_lt (by omega)]

/-- On a transport that takes every write whole, `raw_write` of `length > 0`
bytes lying inside `buf` makes one bulk write of exactly these bytes and
returns Success with `*transferred = length`. -/
theorem raw_write_accepts_all {τ : Type} (P : Platform τ) (hP : AcceptsAll P) (k : Nat)
    (s : State τ) (buf : List Nat) (offset length : Nat) (timeout : Int) (transferred : Nat)
    (hh : s.handle = true) (hl : 0 < length) (hb : offset + length ≤ buf.length) :
    raw_write P (k + 1) s buf offset length timeout transferred
      = some (LIBNXT_SUCCESS, length,
          { s with usb := (P.bulk_write_nxt s.usb ((buf.drop offset).take length)).2.2,
                   calls := s.calls ++
                     [UsbCall.usb_write ((buf.drop offset).take length) 0 length] }) := by
  have hchunk : ((buf.drop offset).take length).length = length := by
    simp only [List.length_take, List.length_drop]
    omega
  obtain ⟨hc, hw⟩ := hP s.usb ((buf.drop offset).take length)
  rw [hchunk] at hw
  have hbody : raw_write_body P buf offset length s { errorCode := 0, total := 0, ioError := false }
      = ({ errorCode := 0, total := length, ioError := false },
          { s with usb := (P.bulk_write_nxt s.usb ((buf.drop offset).take length)).2.2,
                   calls := s.calls ++
                     [UsbCall.usb_write ((buf.drop offset).take length) 0 length] }) := by
    unfold raw_write_body
    simp [hc, hw]
  unfold raw_write
  have hl' : (length == 0) = false := by simpa using (by omega : length ≠ 0)
  simp only [hh, Bool.not_true, Bool.false_eq_true, if_false, hl']
  rw [raw_write_loop]
  simp [hbody, raw_write_again, LIBUSB_ERROR_TIMEOUT, hh]


theorem flush_buffer_accepts_all {τ : Type} (P : Platform τ) (hP : AcceptsAll P) (k : Nat)
    (s0 s : State τ) (stream : List Nat) (hs : Sent s0 s stream) (hpos : 0 < s.outCount) :
    ∃ s', flush_buffer P (k + 1) s = some (LIBNXT_SUCCESS, s') ∧ s'.outCount = 0 ∧
      Sent s0 s' stream := by
  obtain ⟨hh, he, hb, hc, new, hcalls, hacc, hstream⟩ := hs
  have hne : (s.outCount == 0) = false := by simpa using (by omega : s.outCount ≠ 0)
  have hw := raw_write_accepts_all P hP k s s.outBuf 0 s.outCount s.timeout 0 hh hpos
    (by omega)
  have hf : flush_buffer P (k + 1) s = some (LIBNXT_SUCCESS,
      { s with usb := (P.bulk_write_nxt s.usb ((s.outBuf.drop 0).take s.outCount)).2.2,
               calls := s.calls ++
                 [UsbCall.usb_write ((s.outBuf.drop 0).take s.outCount) 0 s.outCount],
               outCount := 0 }) := by
    unfold flush_buffer
    simp only [hne, Bool.false_eq_true, if_false, hw, size_t_sub_self]
  refine ⟨_, hf, rfl, ?_⟩
  · refine ⟨hh, he, hb, by simp, new ++ [UsbCall.usb_write (s.outBuf.take s.outCount) 0 s.outCount],
      ?_, ?_, ?_⟩
    · simp [hcalls]
    · have hlen : (s.outBuf.take s.outCount).length = s.outCount := by
        simp only [List.length_take]
        omega
      simp only [accepted_append, offered_append, hacc, accepted, offered,
        List.append_nil]
      rw [List.take_of_length_le (by omega)]
    · simp only [offered_append, offered, List.append_nil, Nat.sub_self, List.take_zero]
      simpa using hstream

theorem write_byte_accepts_all {τ : Type} (P : Platform τ) (hP : AcceptsAll P) (k : Nat)
    (s0 s : State τ) (stream : List Nat) (b : Nat) (hs : Sent s0 s stream) :
    ∃ s', write_byte P (k + 1) s b = some (LIBNXT_SUCCESS, s') ∧ 0 < s'.outCount ∧
      Sent s0 s' (stream ++ [b]) := by
  have step : ∀ s1 : State τ, Sent s0 s1 stream → s1.outCount < BUFFER_SIZE →
      Sent s0 { s1 with outBuf := s1.outBuf.set s1.outCount b, outCount := s1.outCount + 1 }
        (stream ++ [b]) := by
    intro s1 h1 hlt
    obtain ⟨hh, he, hb, hc, new, hcalls, hacc, hstream⟩ := h1
    refine ⟨hh, he, by simpa using hb, by simp only; omega, new, hcalls, hacc, ?_⟩
    simp only
    rw [take_set_succ _ _ _ (by omega), ← List.append_assoc, hstream]
  unfold write_byte
  by_cases hfull : out_buffer_full s = true
  · have hfull' : s.outCount ≥ BUFFER_SIZE := by simpa [out_buffer_full] using hfull
    obtain ⟨s1, hf, h0, hs1⟩ :=
      flush_buffer_accepts_all P hP k s0 s stream hs (by unfold BUFFER_SIZE at hfull'; omega)
    simp only [hfull, if_true, hf]
    have hnf : out_buffer_full s1 = false := by simp [out_buffer_full, h0, BUFFER_SIZE]
    simp only [nonzero_success, Bool.false_and, Bool.not_false, if_true, hnf,
      Bool.false_eq_true, if_false]
    exact ⟨_, rfl, by simp, step s1 hs1 (by rw [h0]; decide)⟩
  · have hnf : out_buffer_full s = false := by simpa using hfull
    have hlt : s.outCount < BUFFER_SIZE := by simpa [out_buffer_full] using hnf
    simp only [hnf, Bool.false_eq_true, if_false, nonzero_success, Bool.false_and,
      Bool.not_false, if_true]
    exact ⟨_, rfl, by simp, step s hs hlt⟩

theorem send_loop_accepts_all {τ : Type} (P : Platform τ) (hP : AcceptsAll P) (k : Nat)
    (s0 : State τ) (message : List Nat) (r : Nat) :
    ∀ (i : Nat) (s : State τ) (stream : List Nat), Sent s0 s stream → 0 < s.outCount →
      i + r ≤ message.length →
      ∃ s', send_loop P (k + 1) message r i s = some (LIBNXT_SUCCESS, s') ∧ 0 < s'.outCount ∧
        Sent s0 s' (stream ++ (message.drop i).take r) := by
  induction r with
  | zero =>
    intro i s stream hs hpos _
    exact ⟨s, rfl, hpos, by simpa using hs⟩
  | succ r ih =>
    intro i s stream hs hpos hlen
    obtain ⟨s1, hw, hpos1, hs1⟩ := write_byte_accepts_all P hP k s0 s stream (message.getD i 0) hs
    obtain ⟨s2, hl, hpos2, hs2⟩ := ih (i + 1) s1 _ hs1 hpos1 (by omega)
    refine ⟨s2, ?_, hpos2, ?_⟩
    · rw [send_loop]
      simp only [hw, nonzero_success, Bool.false_eq_true, if_false]
      exact hl
    · have hi : i < message.length := by omega
      have hsplit : (message.drop i).take (r + 1)
          = [message.getD i 0] ++ (message.drop (i + 1)).take r := by
        have hd : message.getD i 0 = message[i] := by
          simp [List.getD_eq_getElem?_getD, List.getElem?_eq_getElem hi]
        rw [List.drop_eq_getElem_cons hi, hd]
        rfl
      rw [hsplit, ← List.append_assoc]
      exact hs2

/-- On a transport that takes every write whole, `send` on an Open session with
an empty output buffer returns Success with everything flushed, and what the
transport was offered, and took, during the call is the frame. -/
theorem send_sent {τ : Type} (P : Platform τ) (hP : AcceptsAll P) (fuel : Nat)
    (s : State τ) (message : List Nat) (n : Nat)
    (hfuel : 0 < fuel) (he : s.eof = false) (hh : s.handle = true)
    (hb : s.outBuf.length = BUFFER_SIZE) (ho : s.outCount = 0)
    (hn : n ≤ 65535) (hm : n ≤ message.length) :
    ∃ s', send P fuel s message n = some (LIBNXT_SUCCESS, s') ∧ s'.outCount = 0 ∧
      Sent s s' ([n % 256, n / 256] ++ message.take n) := by
  obtain ⟨k, rfl⟩ : ∃ k, fuel = k + 1 := ⟨fuel - 1, by omega⟩
  have hs0 : Sent s s [] := by
    refine ⟨hh, he, hb, by rw [ho]; exact Nat.zero_le _, [], by simp, rfl, ?_⟩
    simp [offered, ho]
  have hlsb : (n &&& 0xFF) % 256 = n % 256 := by
    have := Nat.and_pow_two_sub_one_eq_mod n 8
    simp only [Nat.reducePow, Nat.add_one_sub_one] at this
    rw [this]
    omega
  have hmsb : (n >>> 8) % 256 = n / 256 := by
    rw [Nat.shiftRight_eq_div_pow]
    omega
  obtain ⟨s1, hw1, -, hs1⟩ := write_byte_accepts_all P hP k s s [] (n % 256) hs0
  obtain ⟨s2, hw2, hpos2, hs2⟩ := write_byte_accepts_all P hP k s s1 _ (n / 256) hs1
  obtain ⟨s3, hl, hpos3, hs3⟩ :=
    send_loop_accepts_all P hP k s message n 0 s2 _ hs2 hpos2 (by omega)
  obtain ⟨s4, hf, h0, hs4⟩ := flush_buffer_accepts_all P hP k s s3 _ hs3 hpos3
  refine ⟨s4, ?_, h0, ?_⟩
  · unfold send
    simp only [he, Bool.false_eq_true, if_false, hlsb, hmsb, hw1, hw2, hl, nonzero_success]
    exact hf
  · simpa using hs4

/-- C2: on an Open session (handle held, output block allocated) with an empty
output buffer, over a transport that takes every write whole and without error,
for every length `n` in [0, 65535] and every payload of at least `n` bytes,
whatever the timeout flag, `send` returns `LIBNXT_SUCCESS` with any positive
fuel, the bytes handed to the transport during the call, all of them taken, are
exactly `n mod 256`, `n div 256` and then the first `n` payload bytes, and
`outCount` is 0 afterwards. -/
theorem send_wire_format {τ : Type} (P : Platform τ) (hP : AcceptsAll P) (fuel : Nat)
    (s : State τ) (message : List Nat) (n : Nat)
    (hfuel : 0 < fuel) (he : s.eof = false) (hh : s.handle = true)
    (hb : s.outBuf.length = BUFFER_SIZE) (ho : s.outCount = 0)
    (hn : n ≤ 65535) (hm : n ≤ message.length) :
    ∃ s', send P fuel s message n = some (LIBNXT_SUCCESS, s') ∧ s'.outCount = 0 ∧
      ∃ new, s'.calls = s.calls ++ new ∧
        offered new = [n % 256, n / 256] ++ message.take n ∧ accepted new = offered new := by
  obtain ⟨s', hsend, h0, hsent⟩ := send_sent P hP fuel s message n hfuel he hh hb ho hn hm
  obtain ⟨-, -, -, -, new, hcalls, hacc, hstream⟩ := hsent
  refine ⟨s', hsend, h0, new, hcalls, ?_, hacc⟩
  rw [h0] at hstream
  simpa using hstream

/-- C2, exercised on the loopback with the two-byte message of `demo.c`. -/
theorem send_wire_format_witness :
    ∃ s', send (loopback true) 1 (State.opened []) [0, 8] 2 = some (LIBNXT_SUCCESS, s') ∧
      s'.outCount = 0 ∧
      ∃ new, s'.calls = (State.opened ([] : List Nat)).calls ++ new ∧
        offered new = [2 % 256, 2 / 256] ++ [0, 8].take 2 ∧ accepted new = offered new :=
  send_wire_format (loopback true) (fun _ _ => ⟨rfl, rfl⟩) 1 (State.opened []) [0, 8] 2
    (by decide) rfl rfl (List.length_replicate _ _) rfl (by decide) (by decide)

/-! ## The output path leaves the input side alone -/

theorem replayWrites_append {τ : Type} (P : Platform τ) (a b : List UsbCall) :
    ∀ u : τ, replayWrites P u (a ++ b) = replayWrites P (replayWrites P u a) b := by
  induction a with
  | nil => intro u; rfl
  | cons c rest ih =>
    intro u
    cases c <;> simp [replayWrites, ih]

theorem writeOnly_refl {τ : Type} (P : Platform τ) (s : State τ) : WriteOnly P s s :=
  ⟨rfl, rfl, rfl, [], by simp, rfl⟩

theorem writeOnly_trans {τ : Type} {P : Platform τ} {a b c : State τ}
    (h1 : WriteOnly P a b) (h2 : WriteOnly P b c) : WriteOnly P a c := by
  obtain ⟨h11, h12, h13, n1, hc1, hu1⟩ := h1
  obtain ⟨h21, h22, h23, n2, hc2, hu2⟩ := h2
  refine ⟨h21.trans h11, h22.trans h12, h23.trans h13, n1 ++ n2, ?_, ?_⟩
  · rw [hc2, hc1, List.append_assoc]
  · rw [hu2, hu1, replayWrites_append]

theorem raw_write_body_writeOnly {τ : Type} (P : Platform τ) (buf : List Nat)
    (offset length : Nat) (s : State τ) (v : WriteVars) :
    WriteOnly P s (raw_write_body P buf offset length s v).2 := by
  unfold raw_write_body
  dsimp only
  split <;> exact ⟨rfl, rfl, rfl, _, rfl, rfl⟩

theorem raw_write_loop_writeOnly {τ : Type} (P : Platform τ) (buf : List Nat)
    (offset length : Nat) (w : Bool) (fuel : Nat) :
    ∀ (s : State τ) (v : WriteVars) (v' : WriteVars) (s' : State τ),
      raw_write_loop P buf offset length w fuel s v = some (v', s') → WriteOnly P s s' := by
  induction fuel with
  | zero => intro s v v' s' h; simp [raw_write_loop] at h
  | succ k ih =>
    intro s v v' s' h
    rw [raw_write_loop] at h
    split at h
    · exact writeOnly_trans (raw_write_body_writeOnly P buf offset length s v) (ih _ _ _ _ h)
    · have h2 := raw_write_body_writeOnly P buf offset length s v
      simp only [Option.some.injEq] at h
      rw [h] at h2
      exact h2

theorem raw_write_writeOnly {τ : Type} {P : Platform τ} {fuel : Nat} {s s' : State τ}
    {buf : List Nat} {offset length transferred transferred' : Nat} {timeout : Int}
    {e : libnxt_error}
    (h : raw_write P fuel s buf offset length timeout transferred
          = some (e, transferred', s')) : WriteOnly P s s' := by
  unfold raw_write at h
  split at h
  · simp only [Option.some.injEq, Prod.mk.injEq] at h
    obtain ⟨-, -, rfl⟩ := h
    exact writeOnly_refl P _
  · split at h
    · simp only [Option.some.injEq, Prod.mk.injEq] at h
      obtain ⟨-, -, rfl⟩ := h
      exact writeOnly_refl P _
    · split at h
      · exact absurd h (by simp)
      · rename_i v s1 hloop
        have hs := raw_write_loop_writeOnly P _ _ _ _ _ _ _ _ _ hloop
        split at h <;>
          · simp only [Option.some.injEq, Prod.mk.injEq] at h
            obtain ⟨-, -, rfl⟩ := h
            exact hs

theorem flush_buffer_writeOnly {τ : Type} {P : Platform τ} {fuel : Nat} {s s' : State τ}
    {e : libnxt_error} (h : flush_buffer P fuel s = some (e, s')) : WriteOnly P s s' := by
  unfold flush_buffer at h
  split at h
  · simp only [Option.some.injEq, Prod.mk.injEq] at h
    obtain ⟨-, rfl⟩ := h
    exact writeOnly_refl P _
  · split at h
    · exact absurd h (by simp)
    · rename_i e1 w s1 hr
      have hs := raw_write_writeOnly hr
      simp only [Option.some.injEq, Prod.mk.injEq] at h
      obtain ⟨-, rfl⟩ := h
      exact hs

theorem write_byte_writeOnly {τ : Type} {P : Platform τ} {fuel : Nat} {s s' : State τ}
    {byte : Nat} {e : libnxt_error} (h : write_byte P fuel s byte = some (e, s')) :
    WriteOnly P s s' := by
  unfold write_byte at h
  split at h
  · exact absurd h (by simp)
  · rename_i e1 s1 hf
    have hs : WriteOnly P s s1 := by
      split at hf
      · exact flush_buffer_writeOnly hf
      · simp only [Option.some.injEq, Prod.mk.injEq] at hf
        obtain ⟨-, rfl⟩ := hf
        exact writeOnly_refl P _
    dsimp only at h
    split at h
    · split at h <;>
        · simp only [Option.some.injEq, Prod.mk.injEq] at h
          obtain ⟨-, rfl⟩ := h
          exact hs
    · simp only [Option.some.injEq, Prod.mk.injEq] at h
      obtain ⟨-, rfl⟩ := h
      exact hs

theorem send_loop_writeOnly {τ : Type} (P : Platform τ) (fuel : Nat) (message : List Nat)
    (k : Nat) :
    ∀ (i : Nat) (s : State τ) (e : libnxt_error) (s' : State τ),
      send_loop P fuel message k i s = some (e, s') → WriteOnly P s s' := by
  induction k with
  | zero =>
    intro i s e s' h
    simp only [send_loop, Option.some.injEq, Prod.mk.injEq] at h
    obtain ⟨-, rfl⟩ := h
    exact writeOnly_refl P _
  | succ k ih =>
    intro i s e s' h
    rw [send_loop] at h
    split at h
    · exact absurd h (by simp)
    · rename_i e1 s1 hr
      have hs := write_byte_writeOnly hr
      split at h
      · simp only [Option.some.injEq, Prod.mk.injEq] at h
        obtain ⟨-, rfl⟩ := h
        exact hs
      · exact writeOnly_trans hs (ih _ _ _ _ h)

/-- `send` never touches the input buffer or its counters, and the only calls
it makes on the USB stack are bulk writes. -/
theorem send_writeOnly {τ : Type} {P : Platform τ} {fuel : Nat} {s s' : State τ}
    {message : List Nat} {n : Nat} {e : libnxt_error}
    (h : send P fuel s message n = some (e, s')) : WriteOnly P s s' := by
  unfold send at h
  split at h
  · simp only [Option.some.injEq, Prod.mk.injEq] at h
    obtain ⟨-, rfl⟩ := h
    exact writeOnly_refl P _
  · split at h
    · exact absurd h (by simp)
    · rename_i e1 s1 h1
      have hs1 := write_byte_writeOnly h1
      split at h
      · simp only [Option.some.injEq, Prod.mk.injEq] at h
        obtain ⟨-, rfl⟩ := h
        exact hs1
      · split at h
        · exact absurd h (by simp)
        · rename_i e2 s2 h2
          have hs2 := writeOnly_trans hs1 (write_byte_writeOnly h2)
          split at h
          · exact absurd h (by simp)
          · rename_i e3 s3 h3
            have hs3 := writeOnly_trans hs2 (send_loop_writeOnly P fuel _ _ _ _ _ _ h3)
            split at h
            · simp only [Option.some.injEq, Prod.mk.injEq] at h
              obtain ⟨-, rfl⟩ := h
              exact hs3
            · exact writeOnly_trans hs3 (flush_buffer_writeOnly h)

theorem replayWrites_loopback (cs : Bool) (calls : List UsbCall) :
    ∀ u : List Nat, replayWrites (loopback cs) u calls = u ++ offered calls := by
  induction calls with
  | nil => intro u; simp [replayWrites, offered]
  | cons c rest ih =>
    intro u
    cases c with
    | usb_write bytes code written =>
      simp only [replayWrites, offered]
      rw [ih]
      show (u ++ bytes) ++ _ = _
      rw [List.append_assoc]
    | _ => simp only [replayWrites, offered, ih]

/-! ## Reading a delivered stream -/

theorem raw_read_delivers {τ : Type} (P : Platform τ) (ρ : τ → List Nat)
    (hP : Delivers P ρ) (k : Nat) (s : State τ) (buf : List Nat) (offset maxLength : Nat)
    (timeout : Int) (transferred : Nat) (hh : s.handle = true) (hl : 0 < maxLength)
    (hne : ρ s.usb ≠ []) :
    raw_read P (k + 1) s buf offset maxLength timeout transferred
      = some (LIBNXT_SUCCESS, blit buf offset (P.bulk_read_nxt s.usb maxLength).2.1,
          (P.bulk_read_nxt s.usb maxLength).2.1.length,
          { s with usb := (P.bulk_read_nxt s.usb maxLength).2.2,
                   calls := s.calls ++
                     [UsbCall.usb_read maxLength 0 (P.bulk_read_nxt s.usb maxLength).2.1] }) := by
  obtain ⟨hc, hd, -, -⟩ := hP s.usb maxLength hl hne
  have hlen : (P.bulk_read_nxt s.usb maxLength).2.1.length ≠ 0 := by
    intro h0
    exact hd (List.length_eq_zero.1 h0)
  have hbody : raw_read_body P offset maxLength s
        { buf := buf, unfinished := false, errorCode := 0, total := 0, read := 0,
          ioError := false }
      = ({ buf := blit buf offset (P.bulk_read_nxt s.usb maxLength).2.1, unfinished := false,
           errorCode := 0, total := (P.bulk_read_nxt s.usb maxLength).2.1.length,
           read := (P.bulk_read_nxt s.usb maxLength).2.1.length, ioError := false },
         { s with usb := (P.bulk_read_nxt s.usb maxLength).2.2,
                  calls := s.calls ++
                    [UsbCall.usb_read maxLength 0 (P.bulk_read_nxt s.usb maxLength).2.1] }) := by
    unfold raw_read_body
    simp [hc, LIBUSB_ERROR_TIMEOUT]
  unfold raw_read
  have hl' : (maxLength == 0) = false := by simpa using (by omega : maxLength ≠ 0)
  simp only [hh, Bool.not_true, Bool.false_eq_true, if_false, hl']
  rw [raw_read_loop]
  simp [hbody, raw_read_again, LIBUSB_ERROR_TIMEOUT, hh, hlen]

theorem read_byte_delivers {τ : Type} (P : Platform τ) (ρ : τ → List Nat)
    (hP : Delivers P ρ) (k : Nat) (s : State τ) (byte b : Nat) (rest : List Nat)
    (hs : InputOk s) (hp : pending ρ s = b :: rest) :
    ∃ s', read_byte P (k + 1) s byte = some (LIBNXT_SUCCESS, b, s') ∧ InputOk s' ∧
      pending ρ s' = rest := by
  obtain ⟨hh, hin⟩ := hs
  by_cases hempty : s.inCount ≤ s.readOffset
  · have hemp : in_buffer_empty s = true := by simpa [in_buffer_empty] using hempty
    have hnil : (s.inBuf.take s.inCount).drop s.readOffset = [] := by
      apply List.drop_of_length_le
      simp only [List.length_take]
      omega
    have hρ : ρ s.usb = b :: rest := by
      unfold pending at hp
      rw [hnil] at hp
      simpa using hp
    have hne : ρ s.usb ≠ [] := by rw [hρ]; simp
    obtain ⟨-, hd, -, hsplit⟩ := hP s.usb BUFFER_SIZE (by decide) hne
    have hr := raw_read_delivers P ρ hP k { s with inCount := 0, readOffset := 0 } s.inBuf 0
      BUFFER_SIZE s.timeout 0 hh (by decide) hne
    have hfill : fill_buffer P (k + 1) s = some (LIBNXT_SUCCESS,
        { s with usb := (P.bulk_read_nxt s.usb BUFFER_SIZE).2.2,
                 calls := s.calls ++
                   [UsbCall.usb_read BUFFER_SIZE 0 (P.bulk_read_nxt s.usb BUFFER_SIZE).2.1],
                 inBuf := blit s.inBuf 0 (P.bulk_read_nxt s.usb BUFFER_SIZE).2.1,
                 inCount := (P.bulk_read_nxt s.usb BUFFER_SIZE).2.1.length,
                 readOffset := 0 }) := by
      unfold fill_buffer
      simp only [hr]
    generalize (P.bulk_read_nxt s.usb BUFFER_SIZE).2.1 = d at hd hsplit hfill
    generalize (P.bulk_read_nxt s.usb BUFFER_SIZE).2.2 = u' at hsplit hfill
    obtain ⟨d0, d', rfl⟩ : ∃ d0 d', d = d0 :: d' := by
      cases d with
      | nil => exact absurd rfl hd
      | cons d0 d' => exact ⟨d0, d', rfl⟩
    rw [hρ] at hsplit
    simp only [List.cons_append, List.cons.injEq] at hsplit
    obtain ⟨rfl, hrest⟩ := hsplit
    refine ⟨{ s with usb := u',
                     calls := s.calls ++ [UsbCall.usb_read BUFFER_SIZE 0 (b :: d')],
                     inBuf := blit s.inBuf 0 (b :: d'),
                     inCount := (b :: d').length, readOffset := 1 }, ?_, ?_, ?_⟩
    · unfold read_byte
      simp only [hemp, if_true, hfill]
      simp [nonzero_success, in_buffer_empty, blit]
    · exact ⟨hh, Or.inl (by simp [blit])⟩
    · unfold pending
      simp [blit, hrest]
  · have hnot : in_buffer_empty s = false := by simpa [in_buffer_empty] using hempty
    have hlen : s.inCount ≤ s.inBuf.length := by
      rcases hin with h | h
      · exact h
      · exact absurd h hempty
    have hlt : s.readOffset < (s.inBuf.take s.inCount).length := by
      simp only [List.length_take]
      omega
    have hget : s.inBuf.getD s.readOffset 0 = b ∧
        (s.inBuf.take s.inCount).drop (s.readOffset + 1) ++ ρ s.usb = rest := by
      unfold pending at hp
      rw [List.drop_eq_getElem_cons hlt] at hp
      simp only [List.cons_append, List.cons.injEq] at hp
      refine ⟨?_, hp.2⟩
      rw [← hp.1, List.getElem_take]
      have : s.readOffset < s.inBuf.length := by omega
      simp [List.getD_eq_getElem?_getD, List.getElem?_eq_getElem this]
    refine ⟨{ s with readOffset := s.readOffset + 1 }, ?_, ⟨hh, Or.inl hlen⟩, hget.2⟩
    unfold read_byte
    simp only [hnot, Bool.false_eq_true, if_false, nonzero_success, Bool.false_and,
      Bool.not_false, if_true, hget.1]

theorem drop_set_succ (l : List Nat) (i b j : Nat) (h : i < j) :
    (l.set i b).drop j = l.drop j := by
  induction l generalizing i j with
  | nil => simp
  | cons a rest ih =>
    cases j with
    | zero => omega
    | succ j =>
      cases i with
      | zero => simp
      | succ i => simpa using ih i j (by omega)

theorem take_set_ge (l : List Nat) (i b j : Nat) (h : j ≤ i) :
    (l.set i b).take j = l.take j := by
  induction l generalizing i j with
  | nil => simp
  | cons a rest ih =>
    cases j with
    | zero => simp
    | succ j =>
      cases i with
      | zero => omega
      | succ i => simpa using ih i j (by omega)

theorem receive_loop_delivers {τ : Type} (P : Platform τ) (ρ : τ → List Nat)
    (hP : Delivers P ρ) (k : Nat) (r : Nat) :
    ∀ (i : Nat) (s : State τ) (ret data tail : List Nat), InputOk s →
      pending ρ s = data ++ tail → data.length = r → i + r ≤ ret.length →
      ∃ s', receive_loop P (k + 1) r i s ret
              = some (LIBNXT_SUCCESS, ret.take i ++ data ++ ret.drop (i + r), s') ∧
        InputOk s' ∧ pending ρ s' = tail := by
  induction r with
  | zero =>
    intro i s ret data tail hs hp hd _
    have : data = [] := List.length_eq_zero.1 hd
    subst this
    refine ⟨s, ?_, hs, by simpa using hp⟩
    simp [receive_loop]
  | succ r ih =>
    intro i s ret data tail hs hp hd hlen
    obtain ⟨b, data', rfl⟩ : ∃ b data', data = b :: data' := by
      cases data with
      | nil => simp at hd
      | cons b data' => exact ⟨b, data', rfl⟩
    obtain ⟨s1, hr, hs1, hp1⟩ :=
      read_byte_delivers P ρ hP k s (ret.getD i 0) b (data' ++ tail) hs (by simpa using hp)
    obtain ⟨s2, hl, hs2, hp2⟩ := ih (i + 1) s1 (ret.set i b) data' tail hs1 hp1
      (by simpa using hd) (by simp only [List.length_set]; omega)
    refine ⟨s2, ?_, hs2, hp2⟩
    rw [receive_loop]
    simp only [hr, nonzero_success, Bool.false_eq_true, if_false, hl]
    rw [take_set_succ _ _ _ (by omega), drop_set_succ _ _ _ _ (by omega)]
    simp [Nat.add_assoc, Nat.add_comm 1 r]

/-- Over a transport that delivers the device's stream in non-empty chunks,
`receive` on an Open session whose pending bytes start with a header decoded as
`payload.length > 0` followed by `payload` returns `LIBNXT_SUCCESS` with that
length and that payload, with any positive fuel, and leaves what follows the
frame pending. -/
theorem receive_delivers {τ : Type} (P : Platform τ) (ρ : τ → List Nat)
    (hP : Delivers P ρ) (k : Nat) (s : State τ) (b0 b1 : Nat) (payload tail : List Nat)
    (message : Option (List Nat)) (length : Nat)
    (he : s.eof = false) (hs : InputOk s)
    (hp : pending ρ s = b0 :: b1 :: (payload ++ tail))
    (hlen : header_length P.char_signed b0 b1 = payload.length) (hpos : 0 < payload.length) :
    ∃ s', receive P (k + 1) s message length
            = some (LIBNXT_SUCCESS, some payload, payload.length, s') ∧
      InputOk s' ∧ pending ρ s' = tail := by
  obtain ⟨s1, h1, hs1, hp1⟩ := read_byte_delivers P ρ hP k s 0 b0 _ hs hp
  obtain ⟨s2, h2, hs2, hp2⟩ := read_byte_delivers P ρ hP k s1 0 b1 _ hs1 hp1
  have hs3 : InputOk { s2 with payloads := s2.payloads ++ [payload.length] } := hs2
  have hp3 : pending ρ { s2 with payloads := s2.payloads ++ [payload.length] }
      = payload ++ tail := hp2
  obtain ⟨s4, h4, hs4, hp4⟩ := receive_loop_delivers P ρ hP k payload.length 0 _
    (List.replicate payload.length 0) payload tail hs3 hp3 rfl (by simp)
  have hl0 : (payload.length == 0) = false := by simpa using (by omega : payload.length ≠ 0)
  refine ⟨s4, ?_, hs4, hp4⟩
  unfold receive
  rw [if_neg (by rw [he]; decide)]
  simp only [h1, h2, nonzero_success, Bool.false_eq_true, if_false, hlen, hl0, h4]
  simp

theorem loopback_delivers (cs : Bool) : Delivers (loopback cs) (fun u => u) := by
  intro u n hn hu
  have hne : u.isEmpty = false := by
    cases u with
    | nil => exact absurd rfl hu
    | cons a rest => rfl
  have hr : (loopback cs).bulk_read_nxt u n = (0, u.take n, u.drop n) := by
    show (if u.isEmpty then (LIBUSB_ERROR_TIMEOUT, [], u) else (0, u.take n, u.drop n)) = _
    rw [hne]
    rfl
  rw [hr]
  refine ⟨rfl, ?_, ?_, ?_⟩
  · cases u with
    | nil => exact absurd rfl hu
    | cons a rest =>
      cases n with
      | zero => omega
      | succ n => simp
  · simp only [List.length_take]
    omega
  · simp

/-! ## Round trip over the loopback -/

theorem raw_read_loop_starved (cs : Bool) (offset maxLength : Nat) (fuel : Nat) :
    ∀ (s : State (List Nat)) (v : ReadVars), s.usb = [] → v.unfinished = false →
      v.ioError = false →
      raw_read_loop (loopback cs) offset maxLength true fuel s v = none := by
  induction fuel with
  | zero => intro s v _ _ _; rfl
  | succ k ih =>
    intro s v hu hv hi
    rw [raw_read_loop]
    have hbody : raw_read_body (loopback cs) offset maxLength s v
        = ({ v with buf := blit v.buf (offset + v.total) [],
                    errorCode := LIBUSB_ERROR_TIMEOUT, read := 0, total := v.total + 0,
                    unfinished := false },
           { s with usb := [],
                    calls := s.calls ++
                      [UsbCall.usb_read (maxLength - v.total) LIBUSB_ERROR_TIMEOUT []] }) := by
      unfold raw_read_body
      simp [loopback, hu, hv, LIBUSB_ERROR_TIMEOUT]
    simp only [hbody, raw_read_again, hi]
    simp only [Bool.not_false, Bool.and_self, beq_self_eq_true, Bool.or_false, if_true]
    exact ih _ _ rfl rfl rfl

theorem raw_read_starved (cs : Bool) (fuel : Nat) (s : State (List Nat)) (buf : List Nat)
    (offset maxLength transferred : Nat) (hh : s.handle = true) (hu : s.usb = [])
    (hm : maxLength ≠ 0) :
    raw_read (loopback cs) fuel s buf offset maxLength 0 transferred = none := by
  unfold raw_read
  have hm' : (maxLength == 0) = false := by simpa using hm
  simp only [hh, Bool.not_true, Bool.false_eq_true, if_false, hm', beq_self_eq_true]
  rw [raw_read_loop_starved cs offset maxLength fuel s _ hu rfl rfl]

theorem read_byte_starved (cs : Bool) (fuel : Nat) (s : State (List Nat)) (byte : Nat)
    (hh : s.handle = true) (ht : s.timeout = 0) (hu : s.usb = [])
    (hempty : s.inCount ≤ s.readOffset) :
    read_byte (loopback cs) fuel s byte = none := by
  have hfill : fill_buffer (loopback cs) fuel s = none := by
    have h0 : raw_read (loopback cs) fuel { s with inCount := 0, readOffset := 0 } s.inBuf 0
        BUFFER_SIZE s.timeout 0 = none := by
      rw [ht]
      exact raw_read_starved cs fuel _ _ _ _ _ hh hu (by decide)
    unfold fill_buffer
    simp only [h0]
  unfold read_byte
  have : in_buffer_empty s = true := by simpa [in_buffer_empty] using hempty
  simp only [this, if_true, hfill]

theorem receive_loop_starved (cs : Bool) (fuel : Nat) (k : Nat) :
    ∀ (i : Nat) (s : State (List Nat)) (ret : List Nat), s.handle = true → s.timeout = 0 →
      s.usb = [] → s.inCount - s.readOffset < k →
      receive_loop (loopback cs) fuel k i s ret = none := by
  induction k with
  | zero => intro i s ret _ _ _ h; omega
  | succ k ih =>
    intro i s ret hh ht hu hk
    rw [receive_loop]
    by_cases hempty : s.inCount ≤ s.readOffset
    · rw [read_byte_starved cs fuel s _ hh ht hu hempty]
    · have hne : in_buffer_empty s = false := by simpa [in_buffer_empty] using hempty
      have hr : read_byte (loopback cs) fuel s (ret.getD i 0)
          = some (LIBNXT_SUCCESS, s.inBuf.getD s.readOffset 0,
                  { s with readOffset := s.readOffset + 1 }) := by
        unfold read_byte
        simp [hne, nonzero_success]
      simp only [hr, nonzero_success, Bool.false_eq_true, if_false]
      exact ih _ _ _ hh ht hu (by simp only; omega)

/-- Over the loopback, a frame whose decoded header announces more bytes than
are in flight is never received: `receive` takes the header, starts filling the
payload and then waits for bytes that were never sent, at every fuel. -/
theorem receive_starved (cs : Bool) (s : State (List Nat)) (b0 b1 : Nat) (rest : List Nat)
    (he : s.eof = false) (hh : s.handle = true) (ht : s.timeout = 0)
    (hempty : s.inCount ≤ s.readOffset) (hu : s.usb = b0 :: b1 :: rest)
    (hfit : rest.length + 2 ≤ BUFFER_SIZE) (hlong : rest.length < header_length cs b0 b1)
    (fuel : Nat) (message : Option (List Nat)) (length : Nat) :
    receive (loopback cs) fuel s message length = none := by
  have hemp : in_buffer_empty s = true := by simpa [in_buffer_empty] using hempty
  cases fuel with
  | zero =>
    unfold receive read_byte fill_buffer raw_read
    simp [he, hh, hemp, BUFFER_SIZE, raw_read_loop]
  | succ k =>
    have hfit' : rest.length + 2 ≤ 512 := hfit
    have htake : List.take 512 (b0 :: b1 :: rest) = b0 :: b1 :: rest :=
      List.take_of_length_le (by simp only [List.length_cons]; omega)
    have hdrop : List.drop 512 (b0 :: b1 :: rest) = [] :=
      List.drop_of_length_le (by simp only [List.length_cons]; omega)
    have hfill : fill_buffer (loopback cs) (k + 1) s
        = some (LIBNXT_SUCCESS,
            { s with usb := [], calls := s.calls ++ [UsbCall.usb_read 512 0 (b0 :: b1 :: rest)],
                     inBuf := blit s.inBuf 0 (b0 :: b1 :: rest),
                     inCount := rest.length + 2, readOffset := 0 }) := by
      unfold fill_buffer raw_read
      simp only [hh, Bool.not_true, Bool.false_eq_true, if_false, ht]
      rw [raw_read_loop]
      simp [BUFFER_SIZE, raw_read_body, raw_read_again, loopback, hu, htake, hdrop,
        LIBUSB_ERROR_TIMEOUT, LIBUSB_SUCCESS, hh, ht]
    have hr1 : read_byte (loopback cs) (k + 1) s 0
        = some (LIBNXT_SUCCESS, b0,
            { s with usb := [], calls := s.calls ++ [UsbCall.usb_read 512 0 (b0 :: b1 :: rest)],
                     inBuf := blit s.inBuf 0 (b0 :: b1 :: rest),
                     inCount := rest.length + 2, readOffset := 1 }) := by
      unfold read_byte
      simp only [hemp, if_true, hfill]
      simp [nonzero_success, in_buffer_empty, blit]
    have hr2 : read_byte (loopback cs) (k + 1)
          { s with usb := [], calls := s.calls ++ [UsbCall.usb_read 512 0 (b0 :: b1 :: rest)],
                   inBuf := blit s.inBuf 0 (b0 :: b1 :: rest),
                   inCount := rest.length + 2, readOffset := 1 } 0
        = some (LIBNXT_SUCCESS, b1,
            { s with usb := [], calls := s.calls ++ [UsbCall.usb_read 512 0 (b0 :: b1 :: rest)],
                     inBuf := blit s.inBuf 0 (b0 :: b1 :: rest),
                     inCount := rest.length + 2, readOffset := 2 }) := by
      unfold read_byte
      simp [nonzero_success, in_buffer_empty, blit]
    have hl0 : (header_length cs b0 b1 == 0) = false := by
      simpa using (by omega : header_length cs b0 b1 ≠ 0)
    have hloop := receive_loop_starved cs (k + 1) (header_length cs b0 b1) 0
      { s with usb := [], calls := s.calls ++ [UsbCall.usb_read 512 0 (b0 :: b1 :: rest)],
               inBuf := blit s.inBuf 0 (b0 :: b1 :: rest),
               inCount := rest.length + 2, readOffset := 2,
               payloads := s.payloads ++ [header_length cs b0 b1] }
      (List.replicate (header_length cs b0 b1) 0) hh ht rfl (by simp only; omega)
    have hcs : (loopback cs).char_signed = cs := rfl
    unfold receive
    rw [if_neg (by rw [he]; decide)]
    simp only [Bool.false_eq_true, if_false, hr1, hr2, nonzero_success, hcs, hl0, hloop]


/-- The round trip where the header is decoded right: over the loss-free
loopback, for every message of 1 to 65535 bytes whose length has a low byte
below 128, or of any such length where plain `char` is unsigned, on an Open
session with empty buffers and nothing in flight, `send` returns Success and the
following `receive` returns Success with `*length` the length of the message and
a payload equal to it, with any positive fuel. -/
theorem roundtrip_loopback (cs : Bool) (k1 k2 : Nat) (s : State (List Nat)) (m : List Nat)
    (message : Option (List Nat)) (length : Nat)
    (hm1 : 1 ≤ m.length) (hm2 : m.length ≤ 65535)
    (hcs : cs = false ∨ m.length % 256 < 128)
    (he : s.eof = false) (hh : s.handle = true) (hb : s.outBuf.length = BUFFER_SIZE)
    (ho : s.outCount = 0) (hi : s.inCount ≤ s.readOffset) (hu : s.usb = []) :
    ∃ s1 s2, send (loopback cs) (k1 + 1) s m m.length = some (LIBNXT_SUCCESS, s1) ∧
      receive (loopback cs) (k2 + 1) s1 message length
        = some (LIBNXT_SUCCESS, some m, m.length, s2) := by
  obtain ⟨s1, hsend, hout, hsent⟩ := send_sent (loopback cs) (fun _ _ => ⟨rfl, rfl⟩) (k1 + 1)
    s m m.length (by omega) he hh hb ho hm2 (Nat.le_refl _)
  obtain ⟨hh1, he1, -, -, new, hcalls, -, hstream⟩ := hsent
  obtain ⟨hib, hic, hir, new2, hcalls2, husb⟩ := send_writeOnly hsend
  have hnew : new2 = new := List.append_cancel_left (hcalls2.symm.trans hcalls)
  subst hnew
  rw [replayWrites_loopback, hu, List.nil_append] at husb
  rw [hout] at hstream
  simp only [List.take_zero, List.append_nil, List.take_length] at hstream
  have hok : InputOk s1 := ⟨hh1, Or.inr (by rw [hic, hir]; exact hi)⟩
  have hnil : (s1.inBuf.take s1.inCount).drop s1.readOffset = [] := by
    apply List.drop_of_length_le
    simp only [List.length_take]
    rw [hic, hir]
    omega
  have hpend : pending (fun u => u) s1
      = (m.length % 256) :: (m.length / 256) :: (m ++ []) := by
    unfold pending
    rw [hnil, husb, hstream]
    simp
  have hdec : header_length (loopback cs).char_signed (m.length % 256) (m.length / 256)
      = m.length := by
    show header_length cs _ _ = _
    rcases hcs with hc | hc
    · rw [hc, header_length_unsigned _ _ (by omega) (by omega)]
      omega
    · rw [header_length_low _ _ _ hc (by omega)]
      omega
  obtain ⟨s2, hrecv, -, -⟩ := receive_delivers (loopback cs) (fun u => u) (loopback_delivers cs)
    k2 s1 _ _ m [] message length he1 hok hpend hdec (by omega)
  exact ⟨s1, s2, hsend, hrecv⟩

set_option maxRecDepth 100000

/-- C1: over the loss-free loopback on a target where plain `char` is signed,
`send` of a 128-byte message on a freshly opened session returns
`LIBNXT_SUCCESS` and puts the frame `0x80 0x00 ...` in flight, and the
following `receive` never returns, with whatever fuel: it has decoded the
length 65408 and waits for bytes that were never sent.  The same frame is
received intact where `char` is unsigned. -/
theorem roundtrip_breaks_on_signed_char :
    send (loopback true) 1 (State.opened []) message128 128
      = some (LIBNXT_SUCCESS, roundtripSent) ∧
    (∀ (fuel : Nat) (message : Option (List Nat)) (length : Nat),
      receive (loopback true) fuel roundtripSent message length = none) ∧
    (∃ s', receive (loopback false) 1 roundtripSent none 0
      = some (LIBNXT_SUCCESS, some message128, 128, s')) := by
  refine ⟨by decide, ?_, ⟨_, rfl⟩⟩
  intro fuel message length
  have hlen : message128.length = 128 := List.length_replicate _ _
  exact receive_starved true roundtripSent 0x80 0x00 message128 rfl rfl rfl
    (Nat.le_refl 0) rfl (by rw [hlen]; decide)
    (by rw [hlen, show header_length true 0x80 0x00 = 65408 from rfl]; decide)
    fuel message length

/-! ## Raw I/O layer: guards and error outcomes -/

/-- C11: with the handle closed, `raw_read` and `raw_write` return
`LIBNXT_NOT_OPENED` for every requested length, 0 included, leaving
`*transferred`, the caller's block and the state, record of USB calls included,
as they were; with the handle open and a requested length of 0 they return
`LIBNXT_NO_EFFECT` with `*transferred = 0` and the same unchanged state. -/
theorem raw_guards {τ : Type} (P : Platform τ) (fuel : Nat) (s : State τ) (buf : List Nat)
    (offset n : Nat) (timeout : Int) (transferred : Nat) :
    (s.handle = false →
      raw_read P fuel s buf offset n timeout transferred
        = some (LIBNXT_NOT_OPENED, buf, transferred, s) ∧
      raw_write P fuel s buf offset n timeout transferred
        = some (LIBNXT_NOT_OPENED, transferred, s)) ∧
    (s.handle = true →
      raw_read P fuel s buf offset 0 timeout transferred = some (LIBNXT_NO_EFFECT, buf, 0, s) ∧
      raw_write P fuel s buf offset 0 timeout transferred = some (LIBNXT_NO_EFFECT, 0, s)) := by
  constructor
  · intro h
    simp [raw_read, raw_write, h]
  · intro h
    simp [raw_read, raw_write, h]

/-- C11, exercised at program start (handle closed, 5 bytes asked, 9 in
`*transferred`) and on an opened session (length 0). -/
theorem raw_guards_witness :
    ((State.initial ([] : List Nat)).handle = false ∧
      raw_read (loopback true) 0 (State.initial []) [7] 0 5 0 9
        = some (LIBNXT_NOT_OPENED, [7], 9, State.initial []) ∧
      raw_write (loopback true) 0 (State.initial []) [7] 0 5 0 9
        = some (LIBNXT_NOT_OPENED, 9, State.initial [])) ∧
    ((State.opened ([] : List Nat)).handle = true ∧
      raw_read (loopback true) 0 (State.opened []) [7] 0 0 0 9
        = some (LIBNXT_NO_EFFECT, [7], 0, State.opened []) ∧
      raw_write (loopback true) 0 (State.opened []) [7] 0 0 0 9
        = some (LIBNXT_NO_EFFECT, 0, State.opened [])) :=
  ⟨⟨rfl, (raw_guards (loopback true) 0 (State.initial []) [7] 0 5 0 9).1 rfl⟩,
   ⟨rfl, (raw_guards (loopback true) 0 (State.opened []) [7] 0 0 0 9).2 rfl⟩⟩

/-- C19: whenever `outCount` is 0, `flush_buffer` returns `LIBNXT_NO_EFFECT` and
hands back the very state it was given: no call on the USB stack, `outCount`
and the output block untouched. -/
theorem flush_buffer_idle {τ : Type} (P : Platform τ) (fuel : Nat) (s : State τ)
    (h : s.outCount = 0) : flush_buffer P fuel s = some (LIBNXT_NO_EFFECT, s) := by
  simp [flush_buffer, h]

/-- C19, exercised on a freshly opened session without fuel. -/
theorem flush_buffer_idle_witness :
    (State.opened ([] : List Nat)).outCount = 0 ∧
    flush_buffer (loopback true) 0 (State.opened []) = some (LIBNXT_NO_EFFECT, State.opened []) :=
  ⟨rfl, flush_buffer_idle (loopback true) 0 (State.opened []) rfl⟩

theorem raw_write_after_succ {τ : Type} (P : Platform τ) (buf : List Nat) (offset length : Nat)
    (j : Nat) :
    ∀ (s : State τ) (v : WriteVars),
      raw_write_after P buf offset length (j + 1) s v
        = raw_write_body P buf offset length (raw_write_after P buf offset length j s v).2
            (raw_write_after P buf offset length j s v).1 := by
  induction j with
  | zero => intro s v; rfl
  | succ j ih =>
    intro s v
    rw [raw_write_after, ih]
    rfl

theorem raw_write_after_calls {τ : Type} (P : Platform τ) (buf : List Nat)
    (offset length : Nat) (j : Nat) :
    ∀ (s : State τ) (v : WriteVars),
      (raw_write_after P buf offset length j s v).2.calls.length = s.calls.length + j := by
  induction j with
  | zero => intro s v; rfl
  | succ j ih =>
    intro s v
    rw [raw_write_after, ih]
    have : (raw_write_body P buf offset length s v).2.calls.length = s.calls.length + 1 := by
      unfold raw_write_body
      dsimp only
      split <;> simp
    omega

/-- As long as the loop condition holds after each of the first `j` passes, the
loop of `raw_write` goes through these passes. -/
theorem raw_write_loop_unroll {τ : Type} (P : Platform τ) (buf : List Nat)
    (offset length : Nat) (w : Bool) (f : Nat) (j : Nat) :
    ∀ (s : State τ) (v : WriteVars),
      (∀ i, i < j →
        raw_write_again w length (raw_write_after P buf offset length (i + 1) s v).1 = true) →
      raw_write_loop P buf offset length w (j + f) s v
        = raw_write_loop P buf offset length w f (raw_write_after P buf offset length j s v).2
            (raw_write_after P buf offset length j s v).1 := by
  induction j with
  | zero => intro s v _; simp [raw_write_after]
  | succ j ih =>
    intro s v hgo
    have h0 := hgo 0 (by omega)
    have e : j + 1 + f = (j + f) + 1 := by omega
    rw [e, raw_write_loop]
    simp only [raw_write_after] at h0
    simp only [h0, if_true]
    rw [ih]
    · rfl
    · intro i hi
      exact hgo (i + 1) (by omega)

/-- C13: for every length > 0 and either timeout flag, when the loop of
`raw_write` has gone on after each of its first `j` chunk attempts (so none of
them reported an error) and the next attempt reports a transport error `c`
other than timeout, then with any fuel above `j` the call returns right after
that attempt, having made exactly `j + 1` attempts, with `LIBNXT_DISCONNECTED`
if `c` is `LIBUSB_ERROR_NO_DEVICE` and `LIBNXT_IO_ERROR` otherwise, whatever
the earlier attempts moved. -/
theorem raw_write_error_classification {τ : Type} (P : Platform τ) (s : State τ)
    (buf : List Nat) (offset length : Nat) (timeout : Int) (transferred : Nat) (j k : Nat)
    (c : Int) (hh : s.handle = true) (hl : 0 < length)
    (hgo : ∀ i, i < j →
      raw_write_again (timeout == 0) length
        (raw_write_after P buf offset length (i + 1) s WriteVars.start).1 = true)
    (hc : (P.bulk_write_nxt (raw_write_after P buf offset length j s WriteVars.start).2.usb
            ((buf.drop (offset
                + (raw_write_after P buf offset length j s WriteVars.start).1.total)).take
              (length - (raw_write_after P buf offset length j s WriteVars.start).1.total))).1
          = c)
    (hc0 : c ≠ 0) (hct : c ≠ LIBUSB_ERROR_TIMEOUT) :
    raw_write P (j + (k + 1)) s buf offset length timeout transferred
      = some (if c = LIBUSB_ERROR_NO_DEVICE then LIBNXT_DISCONNECTED else LIBNXT_IO_ERROR,
              transferred, (raw_write_after P buf offset length (j + 1) s WriteVars.start).2) ∧
    (raw_write_after P buf offset length (j + 1) s WriteVars.start).2.calls.length
      = s.calls.length + (j + 1) := by
  refine ⟨?_, raw_write_after_calls P buf offset length (j + 1) s WriteVars.start⟩
  have hbody : raw_write_after P buf offset length (j + 1) s WriteVars.start
      = ({ (raw_write_after P buf offset length j s WriteVars.start).1 with
             errorCode := c, ioError := true },
         (raw_write_after P buf offset length (j + 1) s WriteVars.start).2) := by
    rw [raw_write_after_succ]
    unfold raw_write_body
    simp only [hc]
    have : (c != 0 && c != LIBUSB_ERROR_TIMEOUT) = true := by simp [hc0, hct]
    simp only [this, if_true]
  have hloop : raw_write_loop P buf offset length (timeout == 0) (j + (k + 1)) s WriteVars.start
      = some (raw_write_after P buf offset length (j + 1) s WriteVars.start) := by
    rw [raw_write_loop_unroll P buf offset length _ (k + 1) j s WriteVars.start hgo,
      raw_write_loop, ← raw_write_after_succ]
    have hag : raw_write_again (timeout == 0) length
        (raw_write_after P buf offset length (j + 1) s WriteVars.start).1 = false := by
      rw [hbody]
      simp [raw_write_again]
    simp only [hag, Bool.false_eq_true, if_false]
  unfold raw_write
  have hl' : (length == 0) = false := by simpa using (by omega : length ≠ 0)
  rw [if_neg (by simp [hh]), if_neg (by simp [hl'])]
  have hloop' : raw_write_loop P buf offset length (timeout == 0) (j + (k + 1)) s
      { errorCode := 0, total := 0, ioError := false }
      = some (raw_write_after P buf offset length (j + 1) s WriteVars.start) := hloop
  rw [hloop']
  have hio : (raw_write_after P buf offset length (j + 1) s WriteVars.start).1.ioError = true := by
    rw [hbody]
  have hec : (raw_write_after P buf offset length (j + 1) s WriteVars.start).1.errorCode = c := by
    rw [hbody]
  simp only [hio, if_true, hec]
  by_cases hd : c = LIBUSB_ERROR_NO_DEVICE <;> simp [hd]

/-- C13, exercised with the timeout disabled on a device that takes 2 of 4 bytes
and then reports device loss: two attempts, the second for the bytes left, and
the outcome is `LIBNXT_DISCONNECTED`. -/
theorem raw_write_error_classification_witness :
    writeLossDemo.handle = true ∧ 0 < 4 ∧
    (raw_write (replay true) (1 + (0 + 1)) writeLossDemo [1, 2, 3, 4] 0 4 0 9
      = some (if LIBUSB_ERROR_NO_DEVICE = LIBUSB_ERROR_NO_DEVICE then LIBNXT_DISCONNECTED
              else LIBNXT_IO_ERROR, 9,
              (raw_write_after (replay true) [1, 2, 3, 4] 0 4 (1 + 1) writeLossDemo
                WriteVars.start).2) ∧
     (raw_write_after (replay true) [1, 2, 3, 4] 0 4 (1 + 1) writeLossDemo
        WriteVars.start).2.calls.length = writeLossDemo.calls.length + (1 + 1)) ∧
    (raw_write_after (replay true) [1, 2, 3, 4] 0 4 (1 + 1) writeLossDemo WriteVars.start).2.calls
      = [UsbCall.usb_write [1, 2, 3, 4] 0 2, UsbCall.usb_write [3, 4] LIBUSB_ERROR_NO_DEVICE 0] :=
  ⟨rfl, by decide,
    raw_write_error_classification (replay true) writeLossDemo [1, 2, 3, 4] 0 4 0 9 1 0
      LIBUSB_ERROR_NO_DEVICE rfl (by decide)
      (fun i hi => by
        have h0 : i = 0 := by omega
        subst h0
        rfl)
      rfl (by decide) (by decide),
    rfl⟩

/-- C15, refuted: with the timeout disabled, on a device that takes 2 of 4 bytes
and then reports device loss, `raw_write` returns `LIBNXT_DISCONNECTED` after 2
bytes were moved, and `*transferred` still holds the 9 it held before the
call. -/
theorem raw_write_error_count_not_stored :
    (raw_write (replay true) 2 writeLossDemo [1, 2, 3, 4] 0 4 0 9).map
        (fun r => (r.1, r.2.1, accepted r.2.2.calls))
      = some (LIBNXT_DISCONNECTED, 9, [1, 2]) := by
  rfl

/-- C15, amended: every `raw_read` or `raw_write` call that returns
`LIBNXT_DISCONNECTED` or `LIBNXT_IO_ERROR` leaves `*transferred` as it was
before the call, whatever earlier chunk attempts moved. -/
theorem raw_error_keeps_transferred {τ : Type} (P : Platform τ) (fuel : Nat) (s : State τ)
    (buf : List Nat) (offset n : Nat) (timeout : Int) (transferred : Nat) :
    (∀ e buf' transferred' s',
      raw_read P fuel s buf offset n timeout transferred = some (e, buf', transferred', s') →
      e = LIBNXT_DISCONNECTED ∨ e = LIBNXT_IO_ERROR → transferred' = transferred) ∧
    (∀ e transferred' s',
      raw_write P fuel s buf offset n timeout transferred = some (e, transferred', s') →
      e = LIBNXT_DISCONNECTED ∨ e = LIBNXT_IO_ERROR → transferred' = transferred) := by
  constructor
  · intro e buf' transferred' s' h he
    unfold raw_read at h
    split at h
    · simp only [Option.some.injEq, Prod.mk.injEq] at h
      exact h.2.2.1.symm
    · split at h
      · simp only [Option.some.injEq, Prod.mk.injEq] at h
        rcases he with he | he <;> rw [he] at h <;> simp at h
      · split at h
        · exact absurd h (by simp)
        · split at h
          · simp only [Option.some.injEq, Prod.mk.injEq] at h
            exact h.2.2.1.symm
          · simp only [Option.some.injEq, Prod.mk.injEq] at h
            obtain ⟨h1, -⟩ := h
            split at h1 <;> rcases he with he | he <;> rw [he] at h1 <;> simp at h1
  · intro e transferred' s' h he
    unfold raw_write at h
    split at h
    · simp only [Option.some.injEq, Prod.mk.injEq] at h
      exact h.2.1.symm
    · split at h
      · simp only [Option.some.injEq, Prod.mk.injEq] at h
        rcases he with he | he <;> rw [he] at h <;> simp at h
      · split at h
        · exact absurd h (by simp)
        · split at h
          · simp only [Option.some.injEq, Prod.mk.injEq] at h
            exact h.2.1.symm
          · simp only [Option.some.injEq, Prod.mk.injEq] at h
            obtain ⟨h1, -⟩ := h
            split at h1 <;> rcases he with he | he <;> rw [he] at h1 <;> simp at h1

/-- C15 as amended, exercised on a read that meets an I/O error after 3 bytes
were moved and on a write that meets device loss after 2 bytes were moved. -/
theorem raw_error_keeps_transferred_witness :
    (∃ buf' t' s',
      raw_read (replay true) 3 readErrorDemo (List.replicate 8 0) 0 8 1 9
        = some (LIBNXT_IO_ERROR, buf', t', s') ∧ t' = 9) ∧
    (∃ t' s',
      raw_write (replay true) 2 writeLossDemo [1, 2, 3, 4] 0 4 0 9
        = some (LIBNXT_DISCONNECTED, t', s') ∧ t' = 9) :=
  ⟨⟨_, _, _, rfl,
      (raw_error_keeps_transferred (replay true) 3 readErrorDemo (List.replicate 8 0) 0 8 1
        9).1 _ _ _ _ rfl (Or.inr rfl)⟩,
   ⟨_, _, rfl,
      (raw_error_keeps_transferred (replay true) 2 writeLossDemo [1, 2, 3, 4] 0 4 0 9).2 _ _ _
        rfl (Or.inl rfl)⟩⟩

/-! ## Raw I/O layer: reading after a partial timeout -/

/-- Once `unfinished` is set, the loop of `raw_read` goes on for as long as no
chunk attempt reports `LIBUSB_SUCCESS`, errors included. -/
theorem raw_read_loop_unfinished_stuck {τ : Type} (P : Platform τ) (Inv : τ → Prop)
    (hInv : ∀ (u : τ) (n : Nat), Inv u →
      (P.bulk_read_nxt u n).1 ≠ LIBUSB_SUCCESS ∧ Inv (P.bulk_read_nxt u n).2.2)
    (offset maxLength : Nat) (w : Bool) (fuel : Nat) :
    ∀ (s : State τ) (v : ReadVars), Inv s.usb → v.unfinished = true →
      raw_read_loop P offset maxLength w fuel s v = none := by
  induction fuel with
  | zero => intro s v _ _; rfl
  | succ k ih =>
    intro s v hu hv
    obtain ⟨hne, hnext⟩ := hInv s.usb (maxLength - v.total) hu
    have hb : (raw_read_body P offset maxLength s v).1.unfinished = true ∧
        Inv (raw_read_body P offset maxLength s v).2.usb := by
      unfold raw_read_body
      dsimp only
      split
      · exact ⟨hv, hnext⟩
      · refine ⟨?_, hnext⟩
        have : ((P.bulk_read_nxt s.usb (maxLength - v.total)).1 == LIBUSB_SUCCESS) = false := by
          simpa using hne
        simp [hv, this]
    rw [raw_read_loop]
    have hag : raw_read_again w (raw_read_body P offset maxLength s v).1 = true := by
      simp [raw_read_again, hb.1]
    simp only [hag, if_true]
    exact ih _ _ hb.2 hb.1

/-- When the first chunk attempt of `raw_read` reports a timeout with at least
one byte and no later attempt reports `LIBUSB_SUCCESS`, the call never returns,
whatever the timeout flag. -/
theorem raw_read_partial_timeout_hangs {τ : Type} (P : Platform τ) (Inv : τ → Prop)
    (hInv : ∀ (u : τ) (n : Nat), Inv u →
      (P.bulk_read_nxt u n).1 ≠ LIBUSB_SUCCESS ∧ Inv (P.bulk_read_nxt u n).2.2)
    (s : State τ) (buf : List Nat) (offset maxLength : Nat) (timeout : Int)
    (transferred : Nat) (hh : s.handle = true) (hl : 0 < maxLength)
    (hc : (P.bulk_read_nxt s.usb maxLength).1 = LIBUSB_ERROR_TIMEOUT)
    (hd : 0 < (P.bulk_read_nxt s.usb maxLength).2.1.length)
    (hn : Inv (P.bulk_read_nxt s.usb maxLength).2.2) (fuel : Nat) :
    raw_read P fuel s buf offset maxLength timeout transferred = none := by
  have hl' : (maxLength == 0) = false := by simpa using (by omega : maxLength ≠ 0)
  unfold raw_read
  rw [if_neg (by simp [hh]), if_neg (by simp [hl'])]
  cases fuel with
  | zero => rfl
  | succ k =>
    rw [raw_read_loop]
    have hb : (raw_read_body P offset maxLength s
          { buf := buf, unfinished := false, errorCode := 0, total := 0, read := 0,
            ioError := false }).1.unfinished = true ∧
        Inv (raw_read_body P offset maxLength s
          { buf := buf, unfinished := false, errorCode := 0, total := 0, read := 0,
            ioError := false }).2.usb := by
      unfold raw_read_body
      simp [hc, hd, hn, LIBUSB_ERROR_TIMEOUT]
    have hag : raw_read_again (timeout == 0) (raw_read_body P offset maxLength s
          { buf := buf, unfinished := false, errorCode := 0, total := 0, read := 0,
            ioError := false }).1 = true := by
      simp [raw_read_again, hb.1]
    simp only [hag, if_true]
    rw [raw_read_loop_unfinished_stuck P Inv hInv offset maxLength _ k _ _ hb.2 hb.1]

/-- C12: a chunk attempt of `raw_read` that reports device loss right after an
attempt that moved 3 bytes under a timeout does not end the loop.  When the next
attempt reports `LIBUSB_SUCCESS` the call returns `LIBNXT_IO_ERROR`, with the
timeout flag disabled or enabled; when the device stays lost the call never
returns, with whatever fuel and flag. -/
theorem raw_read_device_loss_not_reported :
    (raw_read (replay true) 3 readLossDemo (List.replicate 8 0) 0 8 0 0).map (fun r => r.1)
      = some LIBNXT_IO_ERROR ∧
    (raw_read (replay true) 3 readLossDemo (List.replicate 8 0) 0 8 1 0).map (fun r => r.1)
      = some LIBNXT_IO_ERROR ∧
    ((raw_read (replay true) 3 readLossDemo (List.replicate 8 0) 0 8 1 0).map
        (fun r => r.2.2.2.calls))
      = some [UsbCall.usb_read 8 LIBUSB_ERROR_TIMEOUT [1, 2, 3],
              UsbCall.usb_read 5 LIBUSB_ERROR_NO_DEVICE [],
              UsbCall.usb_read 5 0 []] ∧
    (∀ (fuel : Nat) (timeout : Int),
      raw_read (scripted true) fuel readLostDemo (List.replicate 8 0) 0 8 timeout 0 = none) := by
  refine ⟨rfl, rfl, rfl, ?_⟩
  intro fuel timeout
  refine raw_read_partial_timeout_hangs (scripted true) (fun u => u = []) ?_ readLostDemo _ 0 8
    timeout 0 rfl (by decide) rfl (by decide) rfl fuel
  intro u n hu
  subst hu
  refine ⟨?_, rfl⟩
  show LIBUSB_ERROR_NO_DEVICE ≠ LIBUSB_SUCCESS
  decide

/-- C14: with the timeout flag enabled and 8 bytes asked for, on a device that
answers the first chunk attempt with 3 bytes and a timeout and every later one
with a timeout and nothing, `raw_read` never returns, with whatever fuel; and
when a later attempt is answered with `LIBUSB_SUCCESS` the outcome is
`LIBNXT_SUCCESS` with `*transferred = 3`, not `LIBNXT_TIMEOUT`. -/
theorem raw_read_partial_timeout_never_reported :
    (∀ fuel : Nat,
      raw_read (replay true) fuel readPartialDemo (List.replicate 8 0) 0 8 1 0 = none) ∧
    (raw_read (replay true) 3 readResumedDemo (List.replicate 8 0) 0 8 1 0).map
        (fun r => (r.1, r.2.2.1))
      = some (LIBNXT_SUCCESS, 3) := by
  refine ⟨?_, rfl⟩
  intro fuel
  refine raw_read_partial_timeout_hangs (replay true) (fun u => u.1 = []) ?_ readPartialDemo _ 0 8
    1 0 rfl (by decide) rfl (by decide) rfl fuel
  intro u n hu
  have hr : (replay true).bulk_read_nxt u n = (LIBUSB_ERROR_TIMEOUT, [], u) := by
    show (match u.1 with
      | [] => (LIBUSB_ERROR_TIMEOUT, [], u)
      | r :: rest => (r.1, r.2, (rest, u.2))) = _
    rw [hu]
  rw [hr]
  refine ⟨?_, hu⟩
  show LIBUSB_ERROR_TIMEOUT ≠ LIBUSB_SUCCESS
  decide

/-! ## Buffered stream layer: output after a partial flush -/

/-- C16: with the timeout flag set, on a device that takes 1 byte of the first
bulk write and every later write whole, the bytes `0xA 0xB 0xC` are queued by
three successful `write_byte` calls; the first `flush_buffer` returns
`LIBNXT_TIMEOUT` having moved `0xA` and the second returns `LIBNXT_SUCCESS`
leaving `outCount = 0`, and the transport took `0xA 0xA 0xB`: `0xA` twice and
`0xC` never, which is no prefix of `0xA 0xB 0xC`.  The same happens through
`send`: of the frames `01 00 0A` and `01 00 0B` the transport took
`01 01 00 01 00 0B`. -/
theorem partial_flush_breaks_fifo :
    partialFlushRun
      = some (LIBNXT_SUCCESS, LIBNXT_SUCCESS, LIBNXT_SUCCESS, LIBNXT_TIMEOUT, LIBNXT_SUCCESS,
              [0xA, 0xA, 0xB], 0) ∧
    ¬ List.IsPrefix [0xA, 0xA, 0xB] [0xA, 0xB, 0xC] ∧
    partialFlushSends
      = some (LIBNXT_TIMEOUT, LIBNXT_SUCCESS, [0x01, 0x01, 0x00, 0x01, 0x00, 0x0B]) ∧
    ¬ List.IsPrefix [0x01, 0x01, 0x00, 0x01, 0x00, 0x0B] [0x01, 0x00, 0x0A, 0x01, 0x00, 0x0B] := by
  refine ⟨by rfl, by decide, by rfl, by decide⟩

/-! ## Framing layer: failures inside send and receive -/

/-- While there is room in the output buffer `write_byte` queues the byte and
calls nothing. -/
theorem write_byte_room {τ : Type} (P : Platform τ) (fuel : Nat) (s : State τ) (b : Nat)
    (h : s.outCount < BUFFER_SIZE) :
    write_byte P fuel s b
      = some (LIBNXT_SUCCESS,
          { s with outBuf := s.outBuf.set s.outCount b, outCount := s.outCount + 1 }) := by
  have hnf : out_buffer_full s = false := by simpa [out_buffer_full] using h
  unfold write_byte
  simp only [hnf, Bool.false_eq_true, if_false, nonzero_success, Bool.false_and,
    Bool.not_false, if_true]

/-- While there is room in the output buffer for all of them, the payload loop
of `send` queues its bytes and calls nothing. -/
theorem send_loop_room {τ : Type} (P : Platform τ) (fuel : Nat) (message : List Nat) (k : Nat) :
    ∀ (i : Nat) (s : State τ), s.outCount + k ≤ BUFFER_SIZE → s.outBuf.length = BUFFER_SIZE →
      i + k ≤ message.length →
      send_loop P fuel message k i s
        = some (LIBNXT_SUCCESS,
            { s with outBuf := s.outBuf.take s.outCount ++ (message.drop i).take k
                                 ++ s.outBuf.drop (s.outCount + k),
                     outCount := s.outCount + k }) := by
  induction k with
  | zero =>
    intro i s _ _ _
    simp [send_loop]
  | succ k ih =>
    intro i s hc hb hm
    rw [send_loop, write_byte_room P fuel s _ (by omega)]
    simp only [nonzero_success, Bool.false_eq_true, if_false]
    rw [ih (i + 1) _ (by simp only; omega) (by simpa using hb) (by omega)]
    have hi : i < message.length := by omega
    have hsplit : (message.drop i).take (k + 1)
        = [message.getD i 0] ++ (message.drop (i + 1)).take k := by
      have hd : message.getD i 0 = message[i] := by
        simp [List.getD_eq_getElem?_getD, List.getElem?_eq_getElem hi]
      rw [List.drop_eq_getElem_cons hi, hd]
      rfl
    simp only
    rw [take_set_succ _ _ _ (by omega), drop_set_succ _ _ _ _ (by omega), hsplit]
    simp only [List.append_assoc, Nat.add_assoc, Nat.add_comm 1 k]

/-- On an Open session with room in the output buffer for the whole frame,
`send` queues the two length bytes and the payload and ends with the
`flush_buffer` call on the buffer so filled. -/
theorem send_room {τ : Type} (P : Platform τ) (fuel : Nat) (s : State τ) (message : List Nat)
    (n : Nat) (he : s.eof = false) (hb : s.outBuf.length = BUFFER_SIZE)
    (hc : s.outCount + (n + 2) ≤ BUFFER_SIZE) (hm : n ≤ message.length) :
    send P fuel s message n
      = flush_buffer P fuel
          { s with outBuf := s.outBuf.take s.outCount
                               ++ ((n &&& 0xFF) % 256 :: (n >>> 8) % 256 :: message.take n)
                               ++ s.outBuf.drop (s.outCount + (n + 2)),
                   outCount := s.outCount + (n + 2) } := by
  unfold send
  simp only [he, Bool.false_eq_true, if_false]
  rw [write_byte_room P fuel s _ (by omega)]
  simp only [nonzero_success, Bool.false_eq_true, if_false]
  rw [write_byte_room P fuel _ _ (by simp only; omega)]
  simp only
  rw [send_loop_room P fuel message n 0 _ (by simp only; omega) (by simpa using hb)
    (by omega)]
  simp only [nonzero_success, Bool.false_eq_true, if_false, List.drop_zero]
  have e : s.outCount + 1 + 1 + n = s.outCount + (n + 2) := by omega
  congr 2
  · rw [take_set_succ _ _ _ (by simp only [List.length_set]; omega),
      take_set_succ _ _ _ (by omega), drop_set_succ _ _ _ _ (by omega),
      drop_set_succ _ _ _ _ (by omega), e]
    simp only [List.append_assoc, List.cons_append, List.nil_append, List.singleton_append]

/-- On `droppedMsbDemo`, `send` of `message509` returns `LIBNXT_IO_ERROR` from
its final flush and leaves the session in `droppedMsbQueued`. -/
theorem droppedMsbQueued_reached :
    send (replay true) 1 droppedMsbDemo message509 509
      = some (LIBNXT_IO_ERROR, droppedMsbQueued) := by
  rw [send_room (replay true) 1 droppedMsbDemo message509 509 rfl (List.length_replicate _ _)
    (by decide) (by decide)]
  rfl

/-- C17: `send` of a 509-byte message whose final flush fails returns
`LIBNXT_IO_ERROR` and leaves the session Open with the 511 bytes of the frame
queued (`droppedMsbQueued`).  On that session `send` of the one-byte message
`0x07` queues the length LSB, gets `LIBNXT_IO_ERROR` from the `write_byte` call
for the length MSB, goes on to the payload all the same and returns
`LIBNXT_SUCCESS`: the transport took the 511 queued bytes, the LSB `0x01` and
the payload `0x07`, and never the MSB. -/
theorem send_ignores_failed_msb :
    send (replay true) 1 droppedMsbDemo message509 509
      = some (LIBNXT_IO_ERROR, droppedMsbQueued) ∧
    droppedMsbRun
      = some (LIBNXT_SUCCESS, LIBNXT_IO_ERROR, LIBNXT_SUCCESS,
              [0xFD, 0x01] ++ message509 ++ [0x01, 0x07]) :=
  ⟨droppedMsbQueued_reached, by decide!⟩

/-- The payload loop of `receive` ends at the first `read_byte` call that
fails, with the outcome of that call. -/
theorem receive_loop_first_failure {τ : Type} (P : Platform τ) (fuel k i : Nat) (s s1 : State τ)
    (ret : List Nat) (e : libnxt_error) (b : Nat)
    (h : read_byte P fuel s (ret.getD i 0) = some (e, b, s1)) (he : e ≠ LIBNXT_SUCCESS) :
    receive_loop P fuel (k + 1) i s ret = some (e, ret.set i b, s1) := by
  rw [receive_loop]
  simp only [h, (nonzero_iff e).2 he, if_true]

/-- C20: on an Open session with an empty output buffer, over a transport that
takes every write whole, `send` with length 0 returns `LIBNXT_SUCCESS` and the
bytes handed to the transport during the call, all taken, are `0x00 0x00`
whatever the message block holds; these are the bytes of `EOF_HEADER`, which
`send_eof` hands to the transport in one bulk write. -/
theorem send_zero_length {τ : Type} (P : Platform τ) (hP : AcceptsAll P) (fuel : Nat)
    (s : State τ) (message : List Nat)
    (hfuel : 0 < fuel) (he : s.eof = false) (hh : s.handle = true)
    (hb : s.outBuf.length = BUFFER_SIZE) (ho : s.outCount = 0) :
    (∃ s' new, send P fuel s message 0 = some (LIBNXT_SUCCESS, s') ∧
      s'.calls = s.calls ++ new ∧ offered new = [0x00, 0x00] ∧ accepted new = [0x00, 0x00]) ∧
    (∃ s'', send_eof P fuel s = some (LIBNXT_SUCCESS, s'') ∧
      s''.calls = s.calls ++ [UsbCall.usb_write [0x00, 0x00] 0 2]) ∧
    EOF_HEADER = [0x00, 0x00] := by
  refine ⟨?_, ?_, rfl⟩
  · obtain ⟨s', hsend, h0, hsent⟩ :=
      send_sent P hP fuel s message 0 hfuel he hh hb ho (by decide) (Nat.zero_le _)
    obtain ⟨-, -, -, -, new, hcalls, hacc, hstream⟩ := hsent
    rw [h0] at hstream
    have hoff : offered new = [0x00, 0x00] := by simpa using hstream
    exact ⟨s', new, hsend, hcalls, hoff, hacc.trans hoff⟩
  · obtain ⟨k, rfl⟩ : ∃ k, fuel = k + 1 := ⟨fuel - 1, by omega⟩
    have hw := raw_write_accepts_all P hP k s EOF_HEADER 0 EOF_HEADER.length 0 0 hh
      (by decide) (by decide)
    have hs : send_eof P (k + 1) s = some (LIBNXT_SUCCESS,
        { s with usb := (P.bulk_write_nxt s.usb ((EOF_HEADER.drop 0).take EOF_HEADER.length)).2.2,
                 calls := s.calls ++
                   [UsbCall.usb_write ((EOF_HEADER.drop 0).take EOF_HEADER.length) 0
                     EOF_HEADER.length] }) := by
      unfold send_eof
      simp only [hw]
    exact ⟨_, hs, rfl⟩

/-- C20, exercised on the loopback with a message block of three bytes. -/
theorem send_zero_length_witness :
    (∃ s' new, send (loopback true) 1 (State.opened []) [7, 8, 9] 0 = some (LIBNXT_SUCCESS, s') ∧
      s'.calls = (State.opened ([] : List Nat)).calls ++ new ∧ offered new = [0x00, 0x00] ∧
      accepted new = [0x00, 0x00]) ∧
    (∃ s'', send_eof (loopback true) 1 (State.opened []) = some (LIBNXT_SUCCESS, s'') ∧
      s''.calls = (State.opened ([] : List Nat)).calls ++ [UsbCall.usb_write [0x00, 0x00] 0 2]) ∧
    EOF_HEADER = [0x00, 0x00] :=
  send_zero_length (loopback true) (fun _ _ => ⟨rfl, rfl⟩) 1 (State.opened []) [7, 8, 9]
    (by decide) rfl rfl (List.length_replicate _ _) rfl

/-! ## The loops of the raw layer: what holds when they end -/

/-- Whatever holds at the loop entry of `raw_read` and is kept by every pass
that is followed by another one holds before the last pass; the loop ends with
its condition false. -/
theorem raw_read_loop_last {τ : Type} (P : Platform τ) (offset maxLength : Nat) (w : Bool)
    (Inv : State τ → ReadVars → Prop)
    (hstep : ∀ s v, Inv s v → raw_read_again w (raw_read_body P offset maxLength s v).1 = true →
      Inv (raw_read_body P offset maxLength s v).2 (raw_read_body P offset maxLength s v).1)
    (fuel : Nat) :
    ∀ (s : State τ) (v r : ReadVars) (s' : State τ), Inv s v →
      raw_read_loop P offset maxLength w fuel s v = some (r, s') →
      ∃ s0 v0, Inv s0 v0 ∧ raw_read_body P offset maxLength s0 v0 = (r, s') ∧
        raw_read_again w r = false := by
  induction fuel with
  | zero => intro s v r s' _ h; simp [raw_read_loop] at h
  | succ k ih =>
    intro s v r s' hi h
    rw [raw_read_loop] at h
    by_cases hag : raw_read_again w (raw_read_body P offset maxLength s v).1 = true
    · simp only [hag, if_true] at h
      exact ih _ _ _ _ (hstep s v hi hag) h
    · simp only [hag, Bool.false_eq_true, if_false, Option.some.injEq] at h
      refine ⟨s, v, hi, h, ?_⟩
      rw [h] at hag
      simpa using hag

/-- Whatever holds at the loop entry of `raw_write` and is kept by every pass
that is followed by another one holds before the last pass; the loop ends with
its condition false. -/
theorem raw_write_loop_last {τ : Type} (P : Platform τ) (buf : List Nat) (offset length : Nat)
    (w : Bool) (Inv : State τ → WriteVars → Prop)
    (hstep : ∀ s v, Inv s v →
      raw_write_again w length (raw_write_body P buf offset length s v).1 = true →
      Inv (raw_write_body P buf offset length s v).2 (raw_write_body P buf offset length s v).1)
    (fuel : Nat) :
    ∀ (s : State τ) (v r : WriteVars) (s' : State τ), Inv s v →
      raw_write_loop P buf offset length w fuel s v = some (r, s') →
      ∃ s0 v0, Inv s0 v0 ∧ raw_write_body P buf offset length s0 v0 = (r, s') ∧
        raw_write_again w length r = false := by
  induction fuel with
  | zero => intro s v r s' _ h; simp [raw_write_loop] at h
  | succ k ih =>
    intro s v r s' hi h
    rw [raw_write_loop] at h
    by_cases hag : raw_write_again w length (raw_write_body P buf offset length s v).1 = true
    · simp only [hag, if_true] at h
      exact ih _ _ _ _ (hstep s v hi hag) h
    · simp only [hag, Bool.false_eq_true, if_false, Option.some.injEq] at h
      refine ⟨s, v, hi, h, ?_⟩
      rw [h] at hag
      simpa using hag

/-! ## raw_read: timeouts and blocking reads -/

theorem raw_read_body_state {τ : Type} (P : Platform τ) (offset maxLength : Nat) (s : State τ)
    (v : ReadVars) :
    (raw_read_body P offset maxLength s v).2
      = { s with usb := (P.bulk_read_nxt s.usb (maxLength - v.total)).2.2,
                 calls := s.calls ++
                   [UsbCall.usb_read (maxLength - v.total)
                     (P.bulk_read_nxt s.usb (maxLength - v.total)).1
                     (P.bulk_read_nxt s.usb (maxLength - v.total)).2.1] } := by
  unfold raw_read_body
  dsimp only
  split <;> rfl

/-- A pass through the body of the loop of `raw_read` that meets an error other
than a timeout: only `ioError`, `errorCode`, `read` and the block change. -/
theorem raw_read_body_error {τ : Type} (P : Platform τ) (offset maxLength : Nat) (s : State τ)
    (v : ReadVars)
    (h : ((P.bulk_read_nxt s.usb (maxLength - v.total)).1 != 0 &&
          (P.bulk_read_nxt s.usb (maxLength - v.total)).1 != LIBUSB_ERROR_TIMEOUT) = true) :
    (raw_read_body P offset maxLength s v).1
      = { v with buf := blit v.buf (offset + v.total)
                          (P.bulk_read_nxt s.usb (maxLength - v.total)).2.1,
                 errorCode := (P.bulk_read_nxt s.usb (maxLength - v.total)).1,
                 read := (P.bulk_read_nxt s.usb (maxLength - v.total)).2.1.length,
                 ioError := true } := by
  unfold raw_read_body
  dsimp only
  rw [if_pos h]

/-- A pass through the body of the loop of `raw_read` that meets success or a
timeout. -/
theorem raw_read_body_ok {τ : Type} (P : Platform τ) (offset maxLength : Nat) (s : State τ)
    (v : ReadVars)
    (h : ((P.bulk_read_nxt s.usb (maxLength - v.total)).1 != 0 &&
          (P.bulk_read_nxt s.usb (maxLength - v.total)).1 != LIBUSB_ERROR_TIMEOUT) = false) :
    (raw_read_body P offset maxLength s v).1
      = { v with buf := blit v.buf (offset + v.total)
                          (P.bulk_read_nxt s.usb (maxLength - v.total)).2.1,
                 errorCode := (P.bulk_read_nxt s.usb (maxLength - v.total)).1,
                 read := (P.bulk_read_nxt s.usb (maxLength - v.total)).2.1.length,
                 total := v.total + (P.bulk_read_nxt s.usb (maxLength - v.total)).2.1.length,
                 unfinished :=
                   if !v.unfinished then
                     (P.bulk_read_nxt s.usb (maxLength - v.total)).1 == LIBUSB_ERROR_TIMEOUT &&
                       decide ((P.bulk_read_nxt s.usb (maxLength - v.total)).2.1.length > 0)
                   else if (P.bulk_read_nxt s.usb (maxLength - v.total)).1 == LIBUSB_SUCCESS
                     then false else v.unfinished } := by
  unfold raw_read_body
  dsimp only
  rw [if_neg (by rw [h]; decide)]

/-- While `unfinished` is set, a chunk attempt that reports a timeout with data
leaves it set: after every pass that met no error, `errorCode` a timeout and
`read > 0` imply `unfinished`. -/
theorem raw_read_body_timeout_data {τ : Type} (P : Platform τ) (offset maxLength : Nat)
    (s : State τ) (v : ReadVars)
    (hok : ((P.bulk_read_nxt s.usb (maxLength - v.total)).1 != 0 &&
          (P.bulk_read_nxt s.usb (maxLength - v.total)).1 != LIBUSB_ERROR_TIMEOUT) = false)
    (hc : (raw_read_body P offset maxLength s v).1.errorCode = LIBUSB_ERROR_TIMEOUT)
    (hr : (raw_read_body P offset maxLength s v).1.read ≠ 0) :
    (raw_read_body P offset maxLength s v).1.unfinished = true := by
  rw [raw_read_body_ok P offset maxLength s v hok] at hc hr ⊢
  simp only at hc hr ⊢
  rw [hc]
  cases hu : v.unfinished
  · simp only [Bool.not_false, if_true, beq_self_eq_true, Bool.true_and, decide_eq_true_eq]
    omega
  · simp [LIBUSB_ERROR_TIMEOUT, LIBUSB_SUCCESS]

/-- With the timeout flag enabled, a loop of `raw_read` entered with
`unfinished` set ends on a chunk attempt that reported `LIBUSB_SUCCESS`. -/
theorem raw_read_loop_unfinished_exit {τ : Type} (P : Platform τ) (offset maxLength : Nat)
    (fuel : Nat) (s : State τ) (v r : ReadVars) (s' : State τ) (hu : v.unfinished = true)
    (h : raw_read_loop P offset maxLength false fuel s v = some (r, s')) :
    r.errorCode = LIBUSB_SUCCESS := by
  obtain ⟨s0, v0, hu0, hb, hag⟩ := raw_read_loop_last P offset maxLength false
    (fun _ v => v.unfinished = true)
    (fun s v _ hag => by simpa [raw_read_again] using hag) fuel s v r s' hu h
  have hr : (raw_read_body P offset maxLength s0 v0).1 = r := by rw [hb]
  have hunf : r.unfinished = false := by simpa [raw_read_again] using hag
  by_cases hc : ((P.bulk_read_nxt s0.usb (maxLength - v0.total)).1 != 0 &&
          (P.bulk_read_nxt s0.usb (maxLength - v0.total)).1 != LIBUSB_ERROR_TIMEOUT) = true
  · rw [raw_read_body_error P offset maxLength s0 v0 hc] at hr
    rw [← hr] at hunf
    simp only at hunf
    rw [hu0] at hunf
    exact absurd hunf (by decide)
  · have hc' := raw_read_body_ok P offset maxLength s0 v0 (by simpa using hc)
    rw [hr] at hc'
    rw [hc'] at hunf ⊢
    simp only [hu0, Bool.not_true, Bool.false_eq_true, if_false] at hunf ⊢
    by_cases he : ((P.bulk_read_nxt s0.usb (maxLength - v0.total)).1 == LIBUSB_SUCCESS) = true
    · simpa using he
    · simp only [he, Bool.false_eq_true, if_false] at hunf
      exact absurd hunf (by decide)

/-- C27: whenever a `raw_read` call with the timeout flag enabled returns
`LIBNXT_TIMEOUT`, whatever the length asked for, the fuel and the transport, it
made exactly one chunk attempt, for `maxLength` bytes, that attempt reported
`LIBUSB_ERROR_TIMEOUT` with no byte stored, and `*transferred` is 0. -/
theorem raw_read_timeout_nothing_read {τ : Type} (P : Platform τ) (fuel : Nat) (s s' : State τ)
    (buf buf' : List Nat) (offset maxLength : Nat) (timeout : Int) (transferred transferred' : Nat)
    (ht : timeout ≠ 0)
    (h : raw_read P fuel s buf offset maxLength timeout transferred
          = some (LIBNXT_TIMEOUT, buf', transferred', s')) :
    transferred' = 0 ∧
      s'.calls = s.calls ++ [UsbCall.usb_read maxLength LIBUSB_ERROR_TIMEOUT []] := by
  have hw : (timeout == 0) = false := by simpa using ht
  unfold raw_read at h
  split at h
  · simp at h
  · split at h
    · simp at h
    · rw [hw] at h
      split at h
      · exact absurd h (by simp)
      · rename_i v s1 hloop
        split at h
        · split at h <;> simp at h
        · rename_i hio
          split at h
          · rename_i hcode
            simp only [Option.some.injEq, Prod.mk.injEq, true_and] at h
            obtain ⟨-, rfl, rfl⟩ := h
            cases fuel with
            | zero => simp [raw_read_loop] at hloop
            | succ k =>
              rw [raw_read_loop] at hloop
              have hcode' : v.errorCode = LIBUSB_ERROR_TIMEOUT := by simpa using hcode
              split at hloop
              · rename_i hag
                have hu : (raw_read_body P offset maxLength s
                    { buf := buf, unfinished := false, errorCode := 0, total := 0, read := 0,
                      ioError := false }).1.unfinished = true := by
                  simpa [raw_read_again] using hag
                have := raw_read_loop_unfinished_exit P offset maxLength k _ _ _ _ hu hloop
                rw [this] at hcode'
                exact absurd hcode' (by decide)
              · rename_i hag
                simp only [Option.some.injEq] at hloop
                have hunf : v.unfinished = false := by
                  rw [hloop] at hag
                  simpa [raw_read_again] using hag
                have hs1 := raw_read_body_state P offset maxLength s
                  { buf := buf, unfinished := false, errorCode := 0, total := 0, read := 0,
                    ioError := false }
                rw [hloop] at hs1
                simp only [Nat.sub_zero] at hs1
                by_cases hc : ((P.bulk_read_nxt s.usb (maxLength - 0)).1 != 0 &&
                    (P.bulk_read_nxt s.usb (maxLength - 0)).1 != LIBUSB_ERROR_TIMEOUT) = true
                · have hv := raw_read_body_error P offset maxLength s
                    { buf := buf, unfinished := false, errorCode := 0, total := 0, read := 0,
                      ioError := false } hc
                  rw [hloop] at hv
                  dsimp only at hv
                  rw [hv] at hio
                  simp at hio
                · have hv := raw_read_body_ok P offset maxLength s
                    { buf := buf, unfinished := false, errorCode := 0, total := 0, read := 0,
                      ioError := false } (by simpa using hc)
                  rw [hloop] at hv
                  dsimp only at hv
                  simp only [Nat.sub_zero, Bool.not_false, if_true, Nat.zero_add] at hv
                  rw [hv] at hcode' hunf ⊢
                  simp only at hcode' hunf ⊢
                  rw [hcode'] at hunf
                  simp only [beq_self_eq_true, Bool.true_and, decide_eq_false_iff_not,
                    gt_iff_lt, not_lt, Nat.le_zero_eq, List.length_eq_zero] at hunf
                  rw [hs1]
                  simp only [hcode', hunf, List.length_nil, true_and]
          · simp at h

/-- C27, exercised with the timeout flag enabled on a device that has nothing
to send: one attempt for the 8 bytes asked for, and the 9 held in
`*transferred` is replaced by 0. -/
theorem raw_read_timeout_nothing_read_witness :
    (1 : Int) ≠ 0 ∧
    ∃ buf' t' s',
      raw_read (replay true) 1 readIdleDemo (List.replicate 8 0) 0 8 1 9
        = some (LIBNXT_TIMEOUT, buf', t', s') ∧
      t' = 0 ∧
      s'.calls = readIdleDemo.calls ++ [UsbCall.usb_read 8 LIBUSB_ERROR_TIMEOUT []] :=
  ⟨by decide, _, _, _, rfl,
    raw_read_timeout_nothing_read (replay true) 1 readIdleDemo _ (List.replicate 8 0) _ 0 8 1 9 _
      (by decide) rfl⟩

theorem readCount_append (a b : List UsbCall) :
    readCount (a ++ b) = readCount a + readCount b := by
  induction a with
  | nil => simp [readCount]
  | cons c rest ih => cases c <;> simp [readCount, ih, Nat.add_assoc]

theorem delivered_append (a b : List UsbCall) :
    delivered (a ++ b) = delivered a ++ delivered b := by
  induction a with
  | nil => simp [delivered]
  | cons c rest ih => cases c <;> simp [delivered, ih]

theorem readCount_eq_delivered (a : List UsbCall) : readCount a = (delivered a).length := by
  induction a with
  | nil => rfl
  | cons c rest ih => cases c <;> simp [readCount, delivered, ih]

/-- With the handle held and a length other than 0, `raw_read` is its loop
followed by the classification of the outcome. -/
theorem raw_read_of_loop {τ : Type} (P : Platform τ) (fuel : Nat) (s : State τ) (buf : List Nat)
    (offset maxLength : Nat) (timeout : Int) (transferred : Nat) (hh : s.handle = true)
    (hl : maxLength ≠ 0) :
    raw_read P fuel s buf offset maxLength timeout transferred
      = (raw_read_loop P offset maxLength (timeout == 0) fuel s (ReadVars.start buf)).map
          fun r =>
            if r.1.ioError then
              (if r.1.errorCode == LIBUSB_ERROR_NO_DEVICE then LIBNXT_DISCONNECTED
                else LIBNXT_IO_ERROR, r.1.buf, transferred, r.2)
            else
              (if r.1.errorCode == LIBUSB_ERROR_TIMEOUT then LIBNXT_TIMEOUT
                else LIBNXT_SUCCESS, r.1.buf, r.1.total, r.2) := by
  unfold raw_read
  have hl' : (maxLength == 0) = false := by simpa using hl
  rw [if_neg (by simp [hh]), if_neg (by simp [hl'])]
  show (match raw_read_loop P offset maxLength (timeout == 0) fuel s (ReadVars.start buf) with
    | none => none
    | some (v, s1) => _) = _
  cases raw_read_loop P offset maxLength (timeout == 0) fuel s (ReadVars.start buf) with
  | none => rfl
  | some r =>
    obtain ⟨v, s1⟩ := r
    simp only [Option.map_some']
    split <;> rfl

/-- Since the loop of `raw_read` was entered: the calls made are bulk reads,
and as long as no attempt met an error `total` is the count they moved. -/
theorem raw_read_loop_counts {τ : Type} (P : Platform τ) (offset maxLength : Nat) (w : Bool)
    (fuel : Nat) (s : State τ) (v r : ReadVars) (s' : State τ)
    (h : raw_read_loop P offset maxLength w fuel s v = some (r, s')) :
    raw_read_again w r = false ∧
    ∃ new, s'.calls = s.calls ++ new ∧
      (r.ioError = false →
        v.ioError = false ∧ r.total = v.total + readCount new ∧ r.read ≤ readCount new ∧
        (r.errorCode = LIBUSB_ERROR_TIMEOUT → r.read ≠ 0 → r.unfinished = true)) := by
  obtain ⟨s0, v0, ⟨new, hcalls, hinv⟩, hb, hag⟩ := raw_read_loop_last P offset maxLength w
    (fun s0 v0 => ∃ new, s0.calls = s.calls ++ new ∧
      (v0.ioError = false → v.ioError = false ∧ v0.total = v.total + readCount new))
    (fun s0 v0 hi _ => by
      obtain ⟨new, hcalls, hinv⟩ := hi
      refine ⟨new ++ [UsbCall.usb_read (maxLength - v0.total)
        (P.bulk_read_nxt s0.usb (maxLength - v0.total)).1
        (P.bulk_read_nxt s0.usb (maxLength - v0.total)).2.1], ?_, ?_⟩
      · rw [raw_read_body_state, ← List.append_assoc, ← hcalls]
      · intro hio
        by_cases hc : ((P.bulk_read_nxt s0.usb (maxLength - v0.total)).1 != 0 &&
            (P.bulk_read_nxt s0.usb (maxLength - v0.total)).1 != LIBUSB_ERROR_TIMEOUT) = true
        · rw [raw_read_body_error P offset maxLength s0 v0 hc] at hio
          simp at hio
        · have hok := raw_read_body_ok P offset maxLength s0 v0 (by simpa using hc)
          rw [hok] at hio ⊢
          simp only at hio ⊢
          obtain ⟨h1, h2⟩ := hinv hio
          refine ⟨h1, ?_⟩
          rw [readCount_append, h2]
          simp [readCount, Nat.add_assoc])
    fuel s v r s' ⟨[], by simp, fun hio => ⟨hio, by simp [readCount]⟩⟩ h
  refine ⟨hag, new ++ [UsbCall.usb_read (maxLength - v0.total)
        (P.bulk_read_nxt s0.usb (maxLength - v0.total)).1
        (P.bulk_read_nxt s0.usb (maxLength - v0.total)).2.1], ?_, ?_⟩
  · have hs : (raw_read_body P offset maxLength s0 v0).2 = s' := by rw [hb]
    rw [← hs, raw_read_body_state, ← List.append_assoc, ← hcalls]
  · intro hio
    have hr : (raw_read_body P offset maxLength s0 v0).1 = r := by rw [hb]
    by_cases hc : ((P.bulk_read_nxt s0.usb (maxLength - v0.total)).1 != 0 &&
        (P.bulk_read_nxt s0.usb (maxLength - v0.total)).1 != LIBUSB_ERROR_TIMEOUT) = true
    · rw [← hr, raw_read_body_error P offset maxLength s0 v0 hc] at hio
      simp at hio
    · have hc' : ((P.bulk_read_nxt s0.usb (maxLength - v0.total)).1 != 0 &&
        (P.bulk_read_nxt s0.usb (maxLength - v0.total)).1 != LIBUSB_ERROR_TIMEOUT) = false := by
        simpa using hc
      have hdata := raw_read_body_timeout_data P offset maxLength s0 v0 hc'
      have hok := raw_read_body_ok P offset maxLength s0 v0 hc'
      rw [hr] at hdata hok
      have hio0 : v0.ioError = false := by
        rw [hok] at hio
        exact hio
      obtain ⟨h1, h2⟩ := hinv hio0
      refine ⟨h1, ?_, ?_, hdata⟩
      · rw [hok, readCount_append]
        simp only [h2, readCount, Nat.add_zero, Nat.add_assoc]
      · rw [hok, readCount_append]
        simp only [readCount, Nat.add_zero]
        omega

/-- C24: with the handle held, for every `maxLength > 0`, every transport and
every fuel, a `raw_read` call with the timeout flag disabled that returns does
not return `LIBNXT_TIMEOUT`: it returns `LIBNXT_SUCCESS`, `LIBNXT_DISCONNECTED`
or `LIBNXT_IO_ERROR`; and when it returns `LIBNXT_SUCCESS`, `*transferred` is
the sum of the byte counts reported by the bulk reads made during the call, and
it is at least 1. -/
theorem raw_read_blocking {τ : Type} (P : Platform τ) (fuel : Nat) (s s' : State τ)
    (buf buf' : List Nat) (offset maxLength : Nat) (transferred transferred' : Nat)
    (e : libnxt_error) (hh : s.handle = true) (hl : 0 < maxLength)
    (h : raw_read P fuel s buf offset maxLength 0 transferred
          = some (e, buf', transferred', s')) :
    e ≠ LIBNXT_TIMEOUT ∧
    (e = LIBNXT_SUCCESS ∨ e = LIBNXT_DISCONNECTED ∨ e = LIBNXT_IO_ERROR) ∧
    (e = LIBNXT_SUCCESS →
      1 ≤ transferred' ∧
      ∃ new, s'.calls = s.calls ++ new ∧ transferred' = readCount new) := by
  rw [raw_read_of_loop P fuel s buf offset maxLength 0 transferred hh (by omega)] at h
  cases hloop : raw_read_loop P offset maxLength ((0 : Int) == 0) fuel s (ReadVars.start buf) with
  | none => rw [hloop] at h; simp at h
  | some r =>
    obtain ⟨v, s1⟩ := r
    rw [hloop] at h
    obtain ⟨hag, new, hcalls, hinv⟩ := raw_read_loop_counts P offset maxLength _ fuel s _ v s1 hloop
    simp only [Option.map_some', Option.some.injEq] at h
    cases hio : v.ioError
    · obtain ⟨-, htot, hread, hdata⟩ := hinv hio
      have hag' : v.read ≠ 0 ∧ v.unfinished = false := by
        simpa [raw_read_again, hio] using hag
      have hne : ¬ v.errorCode = LIBUSB_ERROR_TIMEOUT := by
        intro hc
        have := hdata hc hag'.1
        rw [hag'.2] at this
        exact absurd this (by decide)
      have hne' : (v.errorCode == LIBUSB_ERROR_TIMEOUT) = false := by simpa using hne
      simp only [hio, Bool.false_eq_true, if_false, hne', Prod.mk.injEq] at h
      obtain ⟨rfl, -, rfl, rfl⟩ := h
      refine ⟨by decide, Or.inl rfl, fun _ => ⟨?_, new, hcalls, ?_⟩⟩
      · have h0 : (ReadVars.start buf).total = 0 := rfl
        omega
      · have h0 : (ReadVars.start buf).total = 0 := rfl
        omega
    · simp only [hio, if_true, Prod.mk.injEq] at h
      obtain ⟨rfl, -, -, -⟩ := h
      by_cases hd : (v.errorCode == LIBUSB_ERROR_NO_DEVICE) = true
      · rw [if_pos hd]
        exact ⟨by decide, Or.inr (Or.inl rfl), fun h => absurd h (by decide)⟩
      · rw [if_neg hd]
        exact ⟨by decide, Or.inr (Or.inr rfl), fun h => absurd h (by decide)⟩

/-- C24, exercised on a device that first has nothing, then hands over 3 bytes
with a timeout and then 2 bytes: three attempts, `LIBNXT_SUCCESS` and 5 bytes
counted. -/
theorem raw_read_blocking_witness :
    readBlockingDemo.handle = true ∧ 0 < 8 ∧
    ∃ buf' t' s',
      raw_read (replay true) 3 readBlockingDemo (List.replicate 8 0) 0 8 0 9
        = some (LIBNXT_SUCCESS, buf', t', s') ∧
      t' = 5 ∧
      (LIBNXT_SUCCESS ≠ LIBNXT_TIMEOUT ∧
       (LIBNXT_SUCCESS = LIBNXT_SUCCESS ∨ LIBNXT_SUCCESS = LIBNXT_DISCONNECTED ∨
          LIBNXT_SUCCESS = LIBNXT_IO_ERROR) ∧
       (LIBNXT_SUCCESS = LIBNXT_SUCCESS →
          1 ≤ t' ∧ ∃ new, s'.calls = readBlockingDemo.calls ++ new ∧ t' = readCount new)) :=
  ⟨rfl, by decide, _, _, _, rfl, rfl,
    raw_read_blocking (replay true) 3 readBlockingDemo _ (List.replicate 8 0) _ 0 8 9 _ _ rfl
      (by decide) rfl⟩

/-! ## raw_write: the whole length with the timeout disabled -/

theorem raw_write_body_state {τ : Type} (P : Platform τ) (buf : List Nat) (offset length : Nat)
    (s : State τ) (v : WriteVars) :
    (raw_write_body P buf offset length s v).2
      = { s with
            usb := (P.bulk_write_nxt s.usb
                      ((buf.drop (offset + v.total)).take (length - v.total))).2.2,
            calls := s.calls ++
              [UsbCall.usb_write ((buf.drop (offset + v.total)).take (length - v.total))
                (P.bulk_write_nxt s.usb
                  ((buf.drop (offset + v.total)).take (length - v.total))).1
                (P.bulk_write_nxt s.usb
                  ((buf.drop (offset + v.total)).take (length - v.total))).2.1] } := by
  unfold raw_write_body
  dsimp only
  split <;> rfl

/-- A pass through the body of the loop of `raw_write` that meets an error
other than a timeout. -/
theorem raw_write_body_error {τ : Type} (P : Platform τ) (buf : List Nat)
    (offset length : Nat) (s : State τ) (v : WriteVars)
    (h : ((P.bulk_write_nxt s.usb
              ((buf.drop (offset + v.total)).take (length - v.total))).1 != 0 &&
          (P.bulk_write_nxt s.usb
              ((buf.drop (offset + v.total)).take (length - v.total))).1
            != LIBUSB_ERROR_TIMEOUT) = true) :
    (raw_write_body P buf offset length s v).1
      = { v with
            errorCode := (P.bulk_write_nxt s.usb
                            ((buf.drop (offset + v.total)).take (length - v.total))).1,
            ioError := true } := by
  unfold raw_write_body
  dsimp only
  rw [if_pos h]

/-- A pass through the body of the loop of `raw_write` that meets success or a
timeout. -/
theorem raw_write_body_ok {τ : Type} (P : Platform τ) (buf : List Nat)
    (offset length : Nat) (s : State τ) (v : WriteVars)
    (h : ((P.bulk_write_nxt s.usb
              ((buf.drop (offset + v.total)).take (length - v.total))).1 != 0 &&
          (P.bulk_write_nxt s.usb
              ((buf.drop (offset + v.total)).take (length - v.total))).1
            != LIBUSB_ERROR_TIMEOUT) = false) :
    (raw_write_body P buf offset length s v).1
      = { v with
            errorCode := (P.bulk_write_nxt s.usb
                            ((buf.drop (offset + v.total)).take (length - v.total))).1,
            total := v.total + (P.bulk_write_nxt s.usb
                            ((buf.drop (offset + v.total)).take (length - v.total))).2.1 } := by
  unfold raw_write_body
  dsimp only
  rw [if_neg (by rw [h]; decide)]

/-- With the handle held and a length other than 0, `raw_write` is its loop
followed by the classification of the outcome. -/
theorem raw_write_of_loop {τ : Type} (P : Platform τ) (fuel : Nat) (s : State τ)
    (buf : List Nat) (offset length : Nat) (timeout : Int) (transferred : Nat)
    (hh : s.handle = true) (hl : length ≠ 0) :
    raw_write P fuel s buf offset length timeout transferred
      = (raw_write_loop P buf offset length (timeout == 0) fuel s WriteVars.start).map
          fun r =>
            if r.1.ioError then
              (if r.1.errorCode == LIBUSB_ERROR_NO_DEVICE then LIBNXT_DISCONNECTED
                else LIBNXT_IO_ERROR, transferred, r.2)
            else
              (if r.1.errorCode == LIBUSB_ERROR_TIMEOUT then LIBNXT_TIMEOUT
                else LIBNXT_SUCCESS, r.1.total, r.2) := by
  unfold raw_write
  have hl' : (length == 0) = false := by simpa using hl
  rw [if_neg (by simp [hh]), if_neg (by simp [hl'])]
  show (match raw_write_loop P buf offset length (timeout == 0) fuel s WriteVars.start with
    | none => none
    | some (v, s1) => _) = _
  cases raw_write_loop P buf offset length (timeout == 0) fuel s WriteVars.start with
  | none => rfl
  | some r =>
    obtain ⟨v, s1⟩ := r
    simp only [Option.map_some']
    split <;> rfl

theorem movedBy_append (a b : List UsbCall) : movedBy (a ++ b) = movedBy a + movedBy b := by
  induction a with
  | nil => simp [movedBy]
  | cons c rest ih => cases c <;> simp [movedBy, ih, Nat.add_assoc]

theorem chunkTrace_snoc (buf : List Nat) (offset n : Nat) (new : List UsbCall)
    (code : Int) (written : Nat) :
    ∀ moved, ChunkTrace buf offset n moved new →
      ChunkTrace buf offset n moved
        (new ++ [UsbCall.usb_write
          ((buf.drop (offset + (moved + movedBy new))).take (n - (moved + movedBy new)))
          code written]) := by
  induction new with
  | nil =>
    intro moved _
    simp [ChunkTrace, movedBy]
  | cons c rest ih =>
    intro moved h
    cases c with
    | usb_write bytes code1 w1 =>
      simp only [ChunkTrace, List.cons_append, movedBy] at h ⊢
      refine ⟨h.1, ?_⟩
      have := ih (moved + w1) h.2
      rwa [Nat.add_assoc] at this
    | _ => simp [ChunkTrace] at h

theorem lastCode_snoc_write (new : List UsbCall) (bytes : List Nat) (code : Int) (written : Nat) :
    lastCode (new ++ [UsbCall.usb_write bytes code written]) = some code := by
  induction new with
  | nil => rfl
  | cons c rest ih =>
    cases rest with
    | nil => cases c <;> rfl
    | cons d rest' =>
      simp only [List.cons_append] at ih ⊢
      rw [lastCode]
      exact ih


/-- With the timeout disabled, over a transport whose bulk writes report no
error but timeouts and never more than they were offered: when the loop of
`raw_write` ends, all `length` bytes were moved, every attempt was for the
bytes not moved yet, and no attempt met an error. -/
theorem raw_write_loop_moves_all {τ : Type} (P : Platform τ) (hE : WritesWithoutError P)
    (hB : WritesBounded P) (buf : List Nat) (offset length : Nat) (fuel : Nat) (s : State τ)
    (r : WriteVars) (s' : State τ)
    (h : raw_write_loop P buf offset length true fuel s WriteVars.start = some (r, s')) :
    r.ioError = false ∧ r.total = length ∧
    (r.errorCode = 0 ∨ r.errorCode = LIBUSB_ERROR_TIMEOUT) ∧
    ∃ new, s'.calls = s.calls ++ new ∧ ChunkTrace buf offset length 0 new ∧
      movedBy new = length ∧ lastCode new = some r.errorCode := by
  have hcond : ∀ (u : τ) (bytes : List Nat),
      ((P.bulk_write_nxt u bytes).1 != 0 &&
        (P.bulk_write_nxt u bytes).1 != LIBUSB_ERROR_TIMEOUT) = false := by
    intro u bytes
    rcases hE u bytes with h0 | h0 <;> rw [h0] <;> decide
  have hstep : ∀ (s0 : State τ) (v0 : WriteVars),
      (v0.ioError = false ∧ v0.total ≤ length ∧
        ∃ new, s0.calls = s.calls ++ new ∧ ChunkTrace buf offset length 0 new ∧
          v0.total = movedBy new) →
      (raw_write_body P buf offset length s0 v0).1.ioError = false ∧
      (raw_write_body P buf offset length s0 v0).1.total ≤ length ∧
      ((raw_write_body P buf offset length s0 v0).1.errorCode = 0 ∨
        (raw_write_body P buf offset length s0 v0).1.errorCode = LIBUSB_ERROR_TIMEOUT) ∧
      ∃ new, (raw_write_body P buf offset length s0 v0).2.calls = s.calls ++ new ∧
        ChunkTrace buf offset length 0 new ∧
        (raw_write_body P buf offset length s0 v0).1.total = movedBy new ∧
        lastCode new = some (raw_write_body P buf offset length s0 v0).1.errorCode := by
    intro s0 v0 ⟨hio, hle, new, hcalls, htrace, htot⟩
    rw [raw_write_body_ok P buf offset length s0 v0 (hcond _ _), raw_write_body_state]
    simp only
    have hw := hB s0.usb ((buf.drop (offset + v0.total)).take (length - v0.total))
    have hlen : ((buf.drop (offset + v0.total)).take (length - v0.total)).length
        ≤ length - v0.total := by
      simp only [List.length_take]
      exact Nat.min_le_left _ _
    refine ⟨hio, by omega, hE _ _, new ++ [UsbCall.usb_write
      ((buf.drop (offset + v0.total)).take (length - v0.total))
      (P.bulk_write_nxt s0.usb ((buf.drop (offset + v0.total)).take (length - v0.total))).1
      (P.bulk_write_nxt s0.usb ((buf.drop (offset + v0.total)).take (length - v0.total))).2.1],
      ?_, ?_, ?_, lastCode_snoc_write _ _ _ _⟩
    · rw [hcalls, List.append_assoc]
    · have := chunkTrace_snoc buf offset length new
        (P.bulk_write_nxt s0.usb ((buf.drop (offset + v0.total)).take (length - v0.total))).1
        (P.bulk_write_nxt s0.usb ((buf.drop (offset + v0.total)).take (length - v0.total))).2.1
        0 htrace
      rwa [Nat.zero_add, ← htot] at this
    · rw [movedBy_append, htot]
      simp [movedBy]
  obtain ⟨s0, v0, hinv, hb, hag⟩ := raw_write_loop_last P buf offset length true
    (fun s0 v0 => v0.ioError = false ∧ v0.total ≤ length ∧
        ∃ new, s0.calls = s.calls ++ new ∧ ChunkTrace buf offset length 0 new ∧
          v0.total = movedBy new)
    (fun s0 v0 hi _ => by
      obtain ⟨h1, h2, -, new, h3, h4, h5, -⟩ := hstep s0 v0 hi
      exact ⟨h1, h2, new, h3, h4, h5⟩)
    fuel s WriteVars.start r s'
    ⟨rfl, Nat.zero_le _, [], by simp, trivial, rfl⟩ h
  obtain ⟨h1, h2, h3, new, h4, h5, h6, h7⟩ := hstep s0 v0 hinv
  rw [hb] at h1 h2 h3 h4 h6 h7
  simp only at h1 h2 h3 h4 h6 h7
  have hge : ¬ r.total < length := by
    simpa [raw_write_again, h1] using hag
  have htot : r.total = length := by omega
  exact ⟨h1, htot, h3, new, h4, h5, by rw [← h6, htot], h7⟩

/-- C23: with the timeout disabled, on a device whose bulk writes report no
error but timeouts and never more than they were offered, `raw_write` of 4
bytes makes one attempt, which moves all 4 bytes and reports a timeout, and
returns `LIBNXT_TIMEOUT` with `*transferred = 4`, where a complete write is to
give `LIBNXT_SUCCESS`.  On the same device `send_eof` returns `LIBNXT_TIMEOUT`
although the two bytes of the exit frame went out, and `init_messaging` returns
`LIBNXT_TIMEOUT` and leaves the session Closed although the mode-switch command
went out whole. -/
theorem raw_write_full_length_timeout :
    WritesWithoutError lateTimeout ∧ WritesBounded lateTimeout ∧
    raw_write lateTimeout 1 (State.opened ()) [1, 2, 3, 4] 0 4 0 0
      = some (LIBNXT_TIMEOUT, 4,
          { State.opened () with
              calls := [UsbCall.usb_write [1, 2, 3, 4] LIBUSB_ERROR_TIMEOUT 4] }) ∧
    (send_eof lateTimeout 1 (State.opened ())).map (fun r => (r.1, accepted r.2.calls))
      = some (LIBNXT_TIMEOUT, [0x00, 0x00]) ∧
    (init_messaging lateTimeout 1 (State.initial ()) (List.replicate BUFFER_SIZE 0)).map
        (fun r => (r.1, r.2.eof, r.2.handle, accepted r.2.calls))
      = some (LIBNXT_TIMEOUT, true, false, [0x01, 0xFF]) :=
  ⟨fun _ _ => Or.inr rfl, fun _ _ => Nat.le_refl _, rfl, by decide, by decide⟩

/-- What `raw_write` does in full with the timeout flag disabled: for every
length `n > 0` and a transport whose bulk writes report no error but timeouts
and never more than they were offered, whenever `raw_write` returns,
`*transferred = n`, the calls it made are bulk writes, each offering the bytes
of `buf` from `offset` plus the count moved so far up to `offset + n`, the
counts they reported add up to `n`, and the outcome is `LIBNXT_TIMEOUT` when the
last of them reported a timeout and `LIBNXT_SUCCESS` when it reported success.  When moreover every bulk write of
at least one byte moves at least one and the block holds the `n` bytes,
`raw_write` returns with any fuel from `n` on. -/
theorem raw_write_moves_all {τ : Type} (P : Platform τ) (hE : WritesWithoutError P)
    (hB : WritesBounded P) (s : State τ) (buf : List Nat) (offset n : Nat) (transferred : Nat)
    (hh : s.handle = true) (hn : 0 < n) :
    (∀ (fuel : Nat) (e : libnxt_error) (transferred' : Nat) (s' : State τ),
      raw_write P fuel s buf offset n 0 transferred = some (e, transferred', s') →
      transferred' = n ∧
      ∃ new, s'.calls = s.calls ++ new ∧ ChunkTrace buf offset n 0 new ∧ movedBy new = n ∧
        ((lastCode new = some LIBUSB_ERROR_TIMEOUT ∧ e = LIBNXT_TIMEOUT) ∨
         (lastCode new = some LIBUSB_SUCCESS ∧ e = LIBNXT_SUCCESS))) ∧
    ((∀ (u : τ) (bytes : List Nat), bytes ≠ [] → 0 < (P.bulk_write_nxt u bytes).2.1) →
      offset + n ≤ buf.length →
      ∀ k, ∃ r, raw_write P (n + k) s buf offset n 0 transferred = some r) := by
  constructor
  · intro fuel e transferred' s' h
    rw [raw_write_of_loop P fuel s buf offset n 0 transferred hh (by omega)] at h
    cases hloop : raw_write_loop P buf offset n ((0 : Int) == 0) fuel s WriteVars.start with
    | none => rw [hloop] at h; simp at h
    | some r =>
      obtain ⟨v, s1⟩ := r
      rw [hloop] at h
      obtain ⟨hio, htot, hcode, new, hcalls, htrace, hmoved, hlast⟩ :=
        raw_write_loop_moves_all P hE hB buf offset n fuel s v s1 hloop
      simp only [Option.map_some', Option.some.injEq, hio, Bool.false_eq_true, if_false,
        Prod.mk.injEq] at h
      obtain ⟨he, ht, rfl⟩ := h
      refine ⟨by rw [← ht, htot], new, hcalls, htrace, hmoved, ?_⟩
      rcases hcode with hc | hc
      · right
        rw [hc] at he hlast
        exact ⟨hlast, he.symm⟩
      · left
        rw [hc] at he hlast
        exact ⟨hlast, he.symm⟩
  · intro hprog hfit k
    have hcond : ∀ (u : τ) (bytes : List Nat),
        ((P.bulk_write_nxt u bytes).1 != 0 &&
          (P.bulk_write_nxt u bytes).1 != LIBUSB_ERROR_TIMEOUT) = false := by
      intro u bytes
      rcases hE u bytes with h0 | h0 <;> rw [h0] <;> decide
    have hloop : ∀ (fuel : Nat) (s0 : State τ) (v0 : WriteVars), v0.ioError = false →
        v0.total < n → n - v0.total ≤ fuel →
        ∃ r, raw_write_loop P buf offset n true fuel s0 v0 = some r := by
      intro fuel
      induction fuel with
      | zero => intro s0 v0 _ h1 h2; omega
      | succ f ih =>
        intro s0 v0 hio hlt hfuel
        rw [raw_write_loop]
        by_cases hag : raw_write_again true n (raw_write_body P buf offset n s0 v0).1 = true
        · rw [if_pos hag]
          have hok := raw_write_body_ok P buf offset n s0 v0 (hcond _ _)
          have hne : (buf.drop (offset + v0.total)).take (n - v0.total) ≠ [] := by
            intro hnil
            have hlen : ((buf.drop (offset + v0.total)).take (n - v0.total)).length
                = n - v0.total := by
              simp only [List.length_take, List.length_drop]
              omega
            rw [hnil] at hlen
            simp only [List.length_nil] at hlen
            omega
          have hp := hprog s0.usb _ hne
          have hlt' : (raw_write_body P buf offset n s0 v0).1.total < n := by
            have := hag
            simp only [raw_write_again, Bool.true_and, Bool.and_eq_true, decide_eq_true_eq]
              at this
            exact this.2
          apply ih
          · rw [hok]
            exact hio
          · exact hlt'
          · rw [hok]
            simp only
            omega
        · rw [if_neg hag]
          exact ⟨_, rfl⟩
    rw [raw_write_of_loop P (n + k) s buf offset n 0 transferred hh (by omega)]
    obtain ⟨r, hr⟩ := hloop (n + k) s WriteVars.start rfl hn
      (by show n - 0 ≤ n + k; omega)
    have hr' : raw_write_loop P buf offset n ((0 : Int) == 0) (n + k) s WriteVars.start
        = some r := hr
    rw [hr']
    exact ⟨_, rfl⟩

theorem stutter_writes_without_error : WritesWithoutError stutter := by
  intro u bytes
  cases u
  · exact Or.inl rfl
  · exact Or.inr rfl

theorem stutter_writes_bounded : WritesBounded stutter := by
  intro u bytes
  cases u
  · exact Nat.min_le_right _ _
  · exact Nat.zero_le _

/-- The same, exercised on a device that answers every other bulk write
with a timeout and nothing moved and takes 2 bytes of the others: four attempts
for 4 bytes, the first and the third retried, and `LIBNXT_SUCCESS`. -/
theorem raw_write_moves_all_witness :
    WritesWithoutError stutter ∧ WritesBounded stutter ∧
    (State.opened true).handle = true ∧ 0 < 4 ∧
    ∃ t' s',
      raw_write stutter 4 (State.opened true) [1, 2, 3, 4] 0 4 0 9
        = some (LIBNXT_SUCCESS, t', s') ∧
      s'.calls = [UsbCall.usb_write [1, 2, 3, 4] LIBUSB_ERROR_TIMEOUT 0,
                  UsbCall.usb_write [1, 2, 3, 4] 0 2,
                  UsbCall.usb_write [3, 4] LIBUSB_ERROR_TIMEOUT 0,
                  UsbCall.usb_write [3, 4] 0 2] ∧
      t' = 4 :=
  ⟨stutter_writes_without_error, stutter_writes_bounded, rfl, by decide, _, _, rfl, rfl,
    ((raw_write_moves_all stutter stutter_writes_without_error stutter_writes_bounded
        (State.opened true) [1, 2, 3, 4] 0 4 9 rfl (by decide)).1 4 _ _ _ rfl).1⟩

/-! ## The raw layer leaves the buffers of messaging.c alone -/

theorem sameBuffers_refl {τ : Type} (s : State τ) : SameBuffers s s :=
  ⟨rfl, rfl, rfl, rfl, rfl⟩

theorem sameBuffers_trans {τ : Type} {a b c : State τ} (h1 : SameBuffers a b)
    (h2 : SameBuffers b c) : SameBuffers a c := by
  obtain ⟨h11, h12, h13, h14, h15⟩ := h1
  obtain ⟨h21, h22, h23, h24, h25⟩ := h2
  exact ⟨h21.trans h11, h22.trans h12, h23.trans h13, h24.trans h14, h25.trans h15⟩

theorem raw_read_loop_sameBuffers {τ : Type} (P : Platform τ) (offset maxLength : Nat)
    (w : Bool) (fuel : Nat) (s : State τ) (v r : ReadVars) (s' : State τ)
    (h : raw_read_loop P offset maxLength w fuel s v = some (r, s')) : SameBuffers s s' := by
  obtain ⟨s0, v0, hinv, hb, -⟩ := raw_read_loop_last P offset maxLength w
    (fun s0 _ => SameBuffers s s0)
    (fun s0 v0 hi _ => by
      rw [raw_read_body_state]
      exact hi)
    fuel s v r s' (sameBuffers_refl s) h
  have hs : (raw_read_body P offset maxLength s0 v0).2 = s' := by rw [hb]
  rw [raw_read_body_state] at hs
  rw [← hs]
  exact hinv

theorem raw_write_loop_sameBuffers {τ : Type} (P : Platform τ) (buf : List Nat)
    (offset length : Nat) (w : Bool) (fuel : Nat) (s : State τ) (v r : WriteVars)
    (s' : State τ)
    (h : raw_write_loop P buf offset length w fuel s v = some (r, s')) : SameBuffers s s' := by
  obtain ⟨s0, v0, hinv, hb, -⟩ := raw_write_loop_last P buf offset length w
    (fun s0 _ => SameBuffers s s0)
    (fun s0 v0 hi _ => by
      rw [raw_write_body_state]
      exact hi)
    fuel s v r s' (sameBuffers_refl s) h
  have hs : (raw_write_body P buf offset length s0 v0).2 = s' := by rw [hb]
  rw [raw_write_body_state] at hs
  rw [← hs]
  exact hinv

/-- Over a transport whose bulk writes never report more than they were
offered, the loop of `raw_write` keeps `total` within `length`. -/
theorem raw_write_loop_total_le {τ : Type} (P : Platform τ) (hB : WritesBounded P)
    (buf : List Nat) (offset length : Nat) (w : Bool) (fuel : Nat) (s : State τ)
    (v r : WriteVars) (s' : State τ) (hv : v.total ≤ length)
    (h : raw_write_loop P buf offset length w fuel s v = some (r, s')) :
    r.total ≤ length := by
  have hstep : ∀ (s0 : State τ) (v0 : WriteVars), v0.total ≤ length →
      (raw_write_body P buf offset length s0 v0).1.total ≤ length := by
    intro s0 v0 h0
    by_cases hc : ((P.bulk_write_nxt s0.usb
              ((buf.drop (offset + v0.total)).take (length - v0.total))).1 != 0 &&
          (P.bulk_write_nxt s0.usb
              ((buf.drop (offset + v0.total)).take (length - v0.total))).1
            != LIBUSB_ERROR_TIMEOUT) = true
    · rw [raw_write_body_error P buf offset length s0 v0 hc]
      exact h0
    · rw [raw_write_body_ok P buf offset length s0 v0 (by simpa using hc)]
      simp only
      have hw := hB s0.usb ((buf.drop (offset + v0.total)).take (length - v0.total))
      have hlen : ((buf.drop (offset + v0.total)).take (length - v0.total)).length
          ≤ length - v0.total := by
        simp only [List.length_take]
        exact Nat.min_le_left _ _
      omega
  obtain ⟨s0, v0, hinv, hb, -⟩ := raw_write_loop_last P buf offset length w
    (fun _ v0 => v0.total ≤ length) (fun s0 v0 hi _ => hstep s0 v0 hi) fuel s v r s' hv h
  have := hstep s0 v0 hinv
  rw [hb] at this
  exact this

/-- Over a transport whose bulk reads never store more than they were asked
for, the loop of `raw_read` keeps `total` within `maxLength`. -/
theorem raw_read_loop_total_le {τ : Type} (P : Platform τ) (hB : ReadsBounded P)
    (offset maxLength : Nat) (w : Bool) (fuel : Nat) (s : State τ)
    (v r : ReadVars) (s' : State τ) (hv : v.total ≤ maxLength)
    (h : raw_read_loop P offset maxLength w fuel s v = some (r, s')) :
    r.total ≤ maxLength := by
  have hstep : ∀ (s0 : State τ) (v0 : ReadVars), v0.total ≤ maxLength →
      (raw_read_body P offset maxLength s0 v0).1.total ≤ maxLength := by
    intro s0 v0 h0
    by_cases hc : ((P.bulk_read_nxt s0.usb (maxLength - v0.total)).1 != 0 &&
          (P.bulk_read_nxt s0.usb (maxLength - v0.total)).1 != LIBUSB_ERROR_TIMEOUT) = true
    · rw [raw_read_body_error P offset maxLength s0 v0 hc]
      exact h0
    · rw [raw_read_body_ok P offset maxLength s0 v0 (by simpa using hc)]
      simp only
      have hw := hB s0.usb (maxLength - v0.total)
      omega
  obtain ⟨s0, v0, hinv, hb, -⟩ := raw_read_loop_last P offset maxLength w
    (fun _ v0 => v0.total ≤ maxLength) (fun s0 v0 hi _ => hstep s0 v0 hi) fuel s v r s' hv h
  have := hstep s0 v0 hinv
  rw [hb] at this
  exact this

/-- What a `raw_write` call that returns leaves behind: the buffers of
`messaging.c` are untouched; a failure leaves `*transferred` as it was; and
over a transport whose bulk writes never report more than they were offered,
`*transferred` is otherwise at most `length`. -/
theorem raw_write_result {τ : Type} (P : Platform τ) (fuel : Nat) (s s' : State τ)
    (buf : List Nat) (offset length : Nat) (timeout : Int) (transferred transferred' : Nat)
    (e : libnxt_error)
    (h : raw_write P fuel s buf offset length timeout transferred
          = some (e, transferred', s')) :
    SameBuffers s s' ∧
    (e = LIBNXT_DISCONNECTED ∨ e = LIBNXT_IO_ERROR ∨ e = LIBNXT_NOT_OPENED →
      transferred' = transferred) ∧
    (WritesBounded P → transferred' = transferred ∨ transferred' ≤ length) := by
  by_cases hh : s.handle = true
  · by_cases hl : length = 0
    · unfold raw_write at h
      rw [if_neg (by simp [hh]), if_pos (by simp [hl])] at h
      simp only [Option.some.injEq, Prod.mk.injEq] at h
      obtain ⟨rfl, rfl, rfl⟩ := h
      refine ⟨sameBuffers_refl _, ?_, fun _ => Or.inr (Nat.zero_le _)⟩
      intro hfail
      rcases hfail with hf | hf | hf <;> cases hf
    · rw [raw_write_of_loop P fuel s buf offset length timeout transferred hh hl] at h
      cases hloop : raw_write_loop P buf offset length (timeout == 0) fuel s WriteVars.start with
      | none => rw [hloop] at h; simp at h
      | some r =>
        obtain ⟨v, s1⟩ := r
        rw [hloop] at h
        simp only [Option.map_some', Option.some.injEq] at h
        have hsame := raw_write_loop_sameBuffers P buf offset length _ fuel s _ v s1 hloop
        cases hio : v.ioError
        · simp only [hio, Bool.false_eq_true, if_false, Prod.mk.injEq] at h
          obtain ⟨he, rfl, rfl⟩ := h
          refine ⟨hsame, ?_, fun hB => Or.inr
            (raw_write_loop_total_le P hB buf offset length _ fuel s _ v _ (Nat.zero_le _) hloop)⟩
          intro hfail
          split at he <;> rw [← he] at hfail <;> rcases hfail with hf | hf | hf <;> cases hf
        · simp only [hio, if_true, Prod.mk.injEq] at h
          obtain ⟨-, rfl, rfl⟩ := h
          exact ⟨hsame, fun _ => rfl, fun _ => Or.inl rfl⟩
  · unfold raw_write at h
    rw [if_pos (by simpa using hh)] at h
    simp only [Option.some.injEq, Prod.mk.injEq] at h
    obtain ⟨rfl, rfl, rfl⟩ := h
    exact ⟨sameBuffers_refl _, fun _ => rfl, fun _ => Or.inl rfl⟩

/-- What a `raw_read` call that returns leaves behind: the buffers of
`messaging.c` are untouched (the block read into comes back separately); and
over a transport whose bulk reads never store more than they were asked for,
`*transferred` is as it was or at most `maxLength`. -/
theorem raw_read_result {τ : Type} (P : Platform τ) (fuel : Nat) (s s' : State τ)
    (buf buf' : List Nat) (offset maxLength : Nat) (timeout : Int)
    (transferred transferred' : Nat) (e : libnxt_error)
    (h : raw_read P fuel s buf offset maxLength timeout transferred
          = some (e, buf', transferred', s')) :
    SameBuffers s s' ∧
    (ReadsBounded P → transferred' = transferred ∨ transferred' ≤ maxLength) := by
  by_cases hh : s.handle = true
  · by_cases hl : maxLength = 0
    · unfold raw_read at h
      rw [if_neg (by simp [hh]), if_pos (by simp [hl])] at h
      simp only [Option.some.injEq, Prod.mk.injEq] at h
      obtain ⟨-, -, rfl, rfl⟩ := h
      exact ⟨sameBuffers_refl _, fun _ => Or.inr (Nat.zero_le _)⟩
    · rw [raw_read_of_loop P fuel s buf offset maxLength timeout transferred hh hl] at h
      cases hloop : raw_read_loop P offset maxLength (timeout == 0) fuel s
          (ReadVars.start buf) with
      | none => rw [hloop] at h; simp at h
      | some r =>
        obtain ⟨v, s1⟩ := r
        rw [hloop] at h
        simp only [Option.map_some', Option.some.injEq] at h
        have hsame := raw_read_loop_sameBuffers P offset maxLength _ fuel s _ v s1 hloop
        cases hio : v.ioError
        · simp only [hio, Bool.false_eq_true, if_false, Prod.mk.injEq] at h
          obtain ⟨-, -, rfl, rfl⟩ := h
          exact ⟨hsame, fun hB => Or.inr
            (raw_read_loop_total_le P hB offset maxLength _ fuel s _ v _ (Nat.zero_le _) hloop)⟩
        · simp only [hio, if_true, Prod.mk.injEq] at h
          obtain ⟨-, -, rfl, rfl⟩ := h
          exact ⟨hsame, fun _ => Or.inl rfl⟩
  · unfold raw_read at h
    rw [if_pos (by simpa using hh)] at h
    simp only [Option.some.injEq, Prod.mk.injEq] at h
    obtain ⟨-, -, rfl, rfl⟩ := h
    exact ⟨sameBuffers_refl _, fun _ => Or.inl rfl⟩

/-! ## flush_buffer: accounting -/

/-- C22: for every state with `outCount = n > 0` (a `size_t` value: `n` below
`2 ^ size_bits`) and every transport, `flush_buffer` is one `raw_write` call,
for the `n` bytes of `outBuf` from offset 0 with the current timeout flag and a
count preset to 0: it returns when that call returns, with the outcome of that
call, the state that call left and `outCount` the `size_t` difference of `n` and
`w`, where `w` is the count the call left in `written`.  That difference is
`n - w` whenever `w` is at most `n`, which it is over a transport whose bulk
writes never report more than they were offered.  When the call fails with
`LIBNXT_DISCONNECTED`, `LIBNXT_IO_ERROR` or `LIBNXT_NOT_OPENED`, `w` is 0 and
`outCount` stays `n`. -/
theorem flush_buffer_accounting {τ : Type} (P : Platform τ) (fuel : Nat) (s : State τ)
    (hn : 0 < s.outCount) (hsize : s.outCount < 2 ^ P.size_bits) :
    flush_buffer P fuel s
      = (raw_write P fuel s s.outBuf 0 s.outCount s.timeout 0).map
          (fun r => (r.1, { r.2.2 with
                              outCount := size_t_sub P.size_bits s.outCount r.2.1 })) ∧
    (∀ (e : libnxt_error) (w : Nat) (s1 : State τ),
      raw_write P fuel s s.outBuf 0 s.outCount s.timeout 0 = some (e, w, s1) →
      (w ≤ s.outCount → size_t_sub P.size_bits s.outCount w = s.outCount - w) ∧
      (e = LIBNXT_DISCONNECTED ∨ e = LIBNXT_IO_ERROR ∨ e = LIBNXT_NOT_OPENED →
        w = 0 ∧ size_t_sub P.size_bits s.outCount w = s.outCount) ∧
      (WritesBounded P → w ≤ s.outCount)) := by
  constructor
  · unfold flush_buffer
    rw [if_neg (by simpa using (by omega : s.outCount ≠ 0))]
    cases hw : raw_write P fuel s s.outBuf 0 s.outCount s.timeout 0 with
    | none => rfl
    | some r =>
      obtain ⟨e, w, s1⟩ := r
      obtain ⟨⟨-, -, -, -, hout⟩, -, -⟩ := raw_write_result P fuel s s1 _ _ _ _ _ _ e hw
      simp only [Option.map_some', hout]
  · intro e w s1 hw
    obtain ⟨-, hfail, hb⟩ := raw_write_result P fuel s s1 _ _ _ _ _ _ e hw
    refine ⟨fun hle => size_t_sub_exact _ _ _ hle hsize, fun he => ?_, fun hB => ?_⟩
    · have := hfail he
      subst this
      exact ⟨rfl, by rw [size_t_sub_exact _ _ _ (Nat.zero_le _) hsize]; rfl⟩
    · rcases hb hB with h0 | h0 <;> omega

/-- C22, exercised with the timeout flag set and three bytes queued, on a
device that takes 1 byte and reports a timeout: `flush_buffer` returns
`LIBNXT_TIMEOUT` and leaves `outCount = 3 - 1`. -/
theorem flush_buffer_accounting_witness :
    0 < queuedDemo.outCount ∧ queuedDemo.outCount < 2 ^ (replay true).size_bits ∧
    (∃ s', flush_buffer (replay true) 1 queuedDemo = some (LIBNXT_TIMEOUT, s') ∧
      s'.outCount = 2 ∧
      s'.calls = [UsbCall.usb_write [0xA, 0xB, 0xC] LIBUSB_ERROR_TIMEOUT 1]) ∧
    flush_buffer (replay true) 1 queuedDemo
      = (raw_write (replay true) 1 queuedDemo queuedDemo.outBuf 0 queuedDemo.outCount
          queuedDemo.timeout 0).map
          (fun r => (r.1, { r.2.2 with
                              outCount := size_t_sub (replay true).size_bits
                                            queuedDemo.outCount r.2.1 })) :=
  ⟨by decide, by decide, ⟨_, rfl, rfl, rfl⟩,
    (flush_buffer_accounting (replay true) 1 queuedDemo (by decide) (by decide)).1⟩

/-- Where the transport reports more bytes written than it was offered, the
subtraction in `flush_buffer` wraps around: with 3 bytes queued and 5 reported,
`outCount` becomes `2 ^ 64 - 2` where `size_t` is 64 bits wide. -/
theorem flush_buffer_wraps :
    (flush_buffer (replay true) 1 overshootDemo).map (fun r => (r.1, r.2.outCount))
      = some (LIBNXT_SUCCESS, 18446744073709551614) := by
  decide

/-! ## The buffer predicate -/

theorem fill_buffer_result {τ : Type} (P : Platform τ) (hP : ReadsBounded P) (fuel : Nat)
    (s s' : State τ) (e : libnxt_error) (h : fill_buffer P fuel s = some (e, s')) :
    s'.readOffset = 0 ∧ s'.inCount ≤ BUFFER_SIZE ∧ s'.outCount = s.outCount ∧
      s'.outBuf = s.outBuf := by
  unfold fill_buffer at h
  dsimp only at h
  split at h
  · exact absurd h (by simp)
  · rename_i e1 buf t' s1 hr
    simp only [Option.some.injEq, Prod.mk.injEq] at h
    obtain ⟨-, rfl⟩ := h
    obtain ⟨⟨-, hob, -, hro, hoc⟩, hb⟩ := raw_read_result P fuel _ s1 _ _ _ _ _ _ _ e1 hr
    refine ⟨hro, ?_, hoc, hob⟩
    rcases hb hP with h0 | h0
    · show t' ≤ BUFFER_SIZE
      rw [h0]
      exact Nat.zero_le _
    · exact h0

theorem flush_buffer_result {τ : Type} (P : Platform τ) (hB : WritesBounded P) (fuel : Nat)
    (s s' : State τ) (e : libnxt_error) (h : flush_buffer P fuel s = some (e, s')) :
    s'.outCount ≤ s.outCount ∧ s'.outBuf = s.outBuf ∧ s'.inBuf = s.inBuf ∧
      s'.inCount = s.inCount ∧ s'.readOffset = s.readOffset := by
  unfold flush_buffer at h
  split at h
  · simp only [Option.some.injEq, Prod.mk.injEq] at h
    obtain ⟨-, rfl⟩ := h
    exact ⟨Nat.le_refl _, rfl, rfl, rfl, rfl⟩
  · split at h
    · exact absurd h (by simp)
    · rename_i e1 w s1 hw
      simp only [Option.some.injEq, Prod.mk.injEq] at h
      obtain ⟨-, rfl⟩ := h
      obtain ⟨⟨hib, hob, hic, hro, hoc⟩, -, hb⟩ := raw_write_result P fuel s s1 _ _ _ _ _ _ e1 hw
      refine ⟨?_, hob, hib, hic, hro⟩
      show size_t_sub P.size_bits s1.outCount w ≤ s.outCount
      rw [hoc]
      exact size_t_sub_le _ _ _ (by rcases hb hB with h0 | h0 <;> omega)

/-- What `read_byte` does to the counters and to `*byte`: the output side is
untouched, `readOffset <= inCount <= BUFFER_SIZE` holds afterwards, a byte is
stored only on `LIBNXT_SUCCESS`, and it is `inBuf[i]` for the `i < inCount`
that `readOffset` has just passed. -/
theorem read_byte_result {τ : Type} (P : Platform τ) (hP : ReadsBounded P) (fuel : Nat)
    (s s' : State τ) (byte b : Nat) (e : libnxt_error)
    (hs : s.readOffset ≤ s.inCount ∧ s.inCount ≤ BUFFER_SIZE)
    (h : read_byte P fuel s byte = some (e, b, s')) :
    (s'.readOffset ≤ s'.inCount ∧ s'.inCount ≤ BUFFER_SIZE) ∧
    s'.outCount = s.outCount ∧ s'.outBuf = s.outBuf ∧
    (e = LIBNXT_SUCCESS →
      ∃ i, i < s'.inCount ∧ s'.readOffset = i + 1 ∧ b = s'.inBuf.getD i 0) ∧
    (e ≠ LIBNXT_SUCCESS → b = byte) := by
  have key : ∀ (e1 : libnxt_error) (s1 : State τ),
      (s1.readOffset ≤ s1.inCount ∧ s1.inCount ≤ BUFFER_SIZE) →
      s1.outCount = s.outCount → s1.outBuf = s.outBuf →
      (let error := e1.nonzero && e1 != LIBNXT_TIMEOUT
       if !error then
         if in_buffer_empty s1 then some (LIBNXT_TIMEOUT, byte, s1)
         else
           some (LIBNXT_SUCCESS, s1.inBuf.getD s1.readOffset 0,
                 { s1 with readOffset := s1.readOffset + 1 })
       else some (e1, byte, s1)) = some (e, b, s') →
      (s'.readOffset ≤ s'.inCount ∧ s'.inCount ≤ BUFFER_SIZE) ∧
      s'.outCount = s.outCount ∧ s'.outBuf = s.outBuf ∧
      (e = LIBNXT_SUCCESS →
        ∃ i, i < s'.inCount ∧ s'.readOffset = i + 1 ∧ b = s'.inBuf.getD i 0) ∧
      (e ≠ LIBNXT_SUCCESS → b = byte) := by
    intro e1 s1 h1 hoc hob h
    dsimp only at h
    split at h
    · split at h
      · simp only [Option.some.injEq, Prod.mk.injEq] at h
        obtain ⟨rfl, rfl, rfl⟩ := h
        exact ⟨h1, hoc, hob, fun he => absurd he (by decide), fun _ => rfl⟩
      · rename_i hne
        simp only [Option.some.injEq, Prod.mk.injEq] at h
        obtain ⟨rfl, rfl, rfl⟩ := h
        have hlt : s1.readOffset < s1.inCount := by
          simpa [in_buffer_empty] using hne
        exact ⟨⟨hlt, h1.2⟩, hoc, hob, fun _ => ⟨s1.readOffset, hlt, rfl, rfl⟩,
          fun he => absurd rfl he⟩
    · rename_i herr
      simp only [Option.some.injEq, Prod.mk.injEq] at h
      obtain ⟨rfl, rfl, rfl⟩ := h
      refine ⟨h1, hoc, hob, fun he => ?_, fun _ => rfl⟩
      rw [he] at herr
      simp [nonzero_success] at herr
  unfold read_byte at h
  by_cases hemp : in_buffer_empty s = true
  · rw [if_pos hemp] at h
    split at h
    · exact absurd h (by simp)
    · rename_i e1 s1 hf
      obtain ⟨h0, h512, hoc, hob⟩ := fill_buffer_result P hP fuel s s1 e1 hf
      exact key e1 s1 ⟨by omega, h512⟩ hoc hob h
  · rw [if_neg hemp] at h
    exact key LIBNXT_SUCCESS s hs rfl rfl h

/-- What `write_byte` does to the counters and to `outBuf`: the input side is
untouched, `outCount <= BUFFER_SIZE` holds afterwards, a byte is stored only on
`LIBNXT_SUCCESS`, and it is stored at the index `i < BUFFER_SIZE` that
`outCount` has just passed. -/
theorem write_byte_result {τ : Type} (P : Platform τ) (hB : WritesBounded P) (fuel : Nat)
    (s s' : State τ) (byte : Nat) (e : libnxt_error) (hs : s.outCount ≤ BUFFER_SIZE)
    (h : write_byte P fuel s byte = some (e, s')) :
    s'.outCount ≤ BUFFER_SIZE ∧
    s'.inCount = s.inCount ∧ s'.readOffset = s.readOffset ∧ s'.inBuf = s.inBuf ∧
    (e = LIBNXT_SUCCESS →
      ∃ i, i < BUFFER_SIZE ∧ s'.outCount = i + 1 ∧ s'.outBuf = s.outBuf.set i byte) ∧
    (e ≠ LIBNXT_SUCCESS → s'.outBuf = s.outBuf) := by
  have key : ∀ (e1 : libnxt_error) (s1 : State τ),
      s1.outCount ≤ BUFFER_SIZE → s1.outBuf = s.outBuf → s1.inBuf = s.inBuf →
      s1.inCount = s.inCount → s1.readOffset = s.readOffset →
      (let error := e1.nonzero && e1 != LIBNXT_TIMEOUT
       if !error then
         if out_buffer_full s1 then some (LIBNXT_TIMEOUT, s1)
         else
           some (LIBNXT_SUCCESS,
                 { s1 with outBuf := s1.outBuf.set s1.outCount byte,
                           outCount := s1.outCount + 1 })
       else some (e1, s1)) = some (e, s') →
      s'.outCount ≤ BUFFER_SIZE ∧
      s'.inCount = s.inCount ∧ s'.readOffset = s.readOffset ∧ s'.inBuf = s.inBuf ∧
      (e = LIBNXT_SUCCESS →
        ∃ i, i < BUFFER_SIZE ∧ s'.outCount = i + 1 ∧ s'.outBuf = s.outBuf.set i byte) ∧
      (e ≠ LIBNXT_SUCCESS → s'.outBuf = s.outBuf) := by
    intro e1 s1 h1 hob hib hic hro h
    dsimp only at h
    split at h
    · split at h
      · simp only [Option.some.injEq, Prod.mk.injEq] at h
        obtain ⟨rfl, rfl⟩ := h
        exact ⟨h1, hic, hro, hib, fun he => absurd he (by decide), fun _ => hob⟩
      · rename_i hne
        simp only [Option.some.injEq, Prod.mk.injEq] at h
        obtain ⟨rfl, rfl⟩ := h
        have hlt : s1.outCount < BUFFER_SIZE := by
          simpa [out_buffer_full] using hne
        refine ⟨hlt, hic, hro, hib, fun _ => ⟨s1.outCount, hlt, rfl, ?_⟩,
          fun he => absurd rfl he⟩
        show s1.outBuf.set s1.outCount byte = _
        rw [hob]
    · rename_i herr
      simp only [Option.some.injEq, Prod.mk.injEq] at h
      obtain ⟨rfl, rfl⟩ := h
      refine ⟨h1, hic, hro, hib, fun he => ?_, fun _ => hob⟩
      rw [he] at herr
      simp [nonzero_success] at herr
  unfold write_byte at h
  by_cases hfull : out_buffer_full s = true
  · rw [if_pos hfull] at h
    split at h
    · exact absurd h (by simp)
    · rename_i e1 s1 hf
      obtain ⟨hle, hob, hib, hic, hro⟩ := flush_buffer_result P hB fuel s s1 e1 hf
      exact key e1 s1 (by omega) hob hib hic hro h
  · rw [if_neg hfull] at h
    exact key LIBNXT_SUCCESS s hs rfl rfl rfl rfl h

theorem send_loop_result {τ : Type} (P : Platform τ) (hB : WritesBounded P) (fuel : Nat)
    (message : List Nat) (k : Nat) :
    ∀ (i : Nat) (s s' : State τ) (e : libnxt_error), s.outCount ≤ BUFFER_SIZE →
      send_loop P fuel message k i s = some (e, s') →
      s'.outCount ≤ BUFFER_SIZE ∧ s'.inCount = s.inCount ∧ s'.readOffset = s.readOffset := by
  induction k with
  | zero =>
    intro i s s' e hs h
    simp only [send_loop, Option.some.injEq, Prod.mk.injEq] at h
    obtain ⟨-, rfl⟩ := h
    exact ⟨hs, rfl, rfl⟩
  | succ k ih =>
    intro i s s' e hs h
    rw [send_loop] at h
    split at h
    · exact absurd h (by simp)
    · rename_i e1 s1 hw
      obtain ⟨h1, h2, h3, -, -, -⟩ := write_byte_result P hB fuel s s1 _ e1 hs hw
      split at h
      · simp only [Option.some.injEq, Prod.mk.injEq] at h
        obtain ⟨-, rfl⟩ := h
        exact ⟨h1, h2, h3⟩
      · obtain ⟨h4, h5, h6⟩ := ih _ _ _ _ h1 h
        exact ⟨h4, h5.trans h2, h6.trans h3⟩

theorem send_result {τ : Type} (P : Platform τ) (hB : WritesBounded P) (fuel : Nat)
    (message : List Nat) (length : Nat) (s s' : State τ) (e : libnxt_error) (hs : s.outCount ≤ BUFFER_SIZE)
    (h : send P fuel s message length = some (e, s')) :
    s'.outCount ≤ BUFFER_SIZE ∧ s'.inCount = s.inCount ∧ s'.readOffset = s.readOffset := by
  unfold send at h
  split at h
  · simp only [Option.some.injEq, Prod.mk.injEq] at h
    obtain ⟨-, rfl⟩ := h
    exact ⟨hs, rfl, rfl⟩
  · split at h
    · exact absurd h (by simp)
    · rename_i e1 s1 hw1
      obtain ⟨h1, h2, h3, -, -, -⟩ := write_byte_result P hB fuel s s1 _ e1 hs hw1
      split at h
      · simp only [Option.some.injEq, Prod.mk.injEq] at h
        obtain ⟨-, rfl⟩ := h
        exact ⟨h1, h2, h3⟩
      · split at h
        · exact absurd h (by simp)
        · rename_i e2 s2 hw2
          obtain ⟨h4, h5, h6, -, -, -⟩ := write_byte_result P hB fuel s1 s2 _ e2 h1 hw2
          split at h
          · exact absurd h (by simp)
          · rename_i e3 s3 hl
            obtain ⟨h7, h8, h9⟩ := send_loop_result P hB fuel message length 0 s2 s3 e3 h4 hl
            split at h
            · simp only [Option.some.injEq, Prod.mk.injEq] at h
              obtain ⟨-, rfl⟩ := h
              exact ⟨h7, h8.trans (h5.trans h2), h9.trans (h6.trans h3)⟩
            · obtain ⟨h10, -, -, h11, h12⟩ := flush_buffer_result P hB fuel s3 s' e h
              exact ⟨by omega, h11.trans (h8.trans (h5.trans h2)),
                h12.trans (h9.trans (h6.trans h3))⟩

theorem receive_loop_result {τ : Type} (P : Platform τ) (hP : ReadsBounded P) (fuel : Nat)
    (k : Nat) :
    ∀ (i : Nat) (s s' : State τ) (ret ret' : List Nat) (e : libnxt_error),
      (s.readOffset ≤ s.inCount ∧ s.inCount ≤ BUFFER_SIZE) →
      receive_loop P fuel k i s ret = some (e, ret', s') →
      (s'.readOffset ≤ s'.inCount ∧ s'.inCount ≤ BUFFER_SIZE) ∧ s'.outCount = s.outCount := by
  induction k with
  | zero =>
    intro i s s' ret ret' e hs h
    simp only [receive_loop, Option.some.injEq, Prod.mk.injEq] at h
    obtain ⟨-, -, rfl⟩ := h
    exact ⟨hs, rfl⟩
  | succ k ih =>
    intro i s s' ret ret' e hs h
    rw [receive_loop] at h
    split at h
    · exact absurd h (by simp)
    · rename_i e1 b s1 hr
      obtain ⟨h1, h2, -, -, -⟩ := read_byte_result P hP fuel s s1 _ b e1 hs hr
      split at h
      · simp only [Option.some.injEq, Prod.mk.injEq] at h
        obtain ⟨-, -, rfl⟩ := h
        exact ⟨h1, h2⟩
      · obtain ⟨h3, h4⟩ := ih _ _ _ _ _ _ h1 h
        exact ⟨h3, h4.trans h2⟩

theorem receive_result {τ : Type} (P : Platform τ) (hP : ReadsBounded P) (fuel : Nat)
    (s s' : State τ) (message message' : Option (List Nat)) (length length' : Nat)
    (e : libnxt_error) (hs : s.readOffset ≤ s.inCount ∧ s.inCount ≤ BUFFER_SIZE)
    (h : receive P fuel s message length = some (e, message', length', s')) :
    (s'.readOffset ≤ s'.inCount ∧ s'.inCount ≤ BUFFER_SIZE) ∧ s'.outCount = s.outCount := by
  unfold receive at h
  split at h
  · simp only [Option.some.injEq, Prod.mk.injEq] at h
    obtain ⟨-, -, -, rfl⟩ := h
    exact ⟨hs, rfl⟩
  · split at h
    · exact absurd h (by simp)
    · rename_i e1 b1 s1 hr1
      obtain ⟨h1, h2, -, -, -⟩ := read_byte_result P hP fuel s s1 _ b1 e1 hs hr1
      split at h
      · simp only [Option.some.injEq, Prod.mk.injEq] at h
        obtain ⟨-, -, -, rfl⟩ := h
        exact ⟨h1, h2⟩
      · split at h
        · exact absurd h (by simp)
        · rename_i e2 b2 s2 hr2
          obtain ⟨h3, h4, -, -, -⟩ := read_byte_result P hP fuel s1 s2 _ b2 e2 h1 hr2
          split at h
          · simp only [Option.some.injEq, Prod.mk.injEq] at h
            obtain ⟨-, -, -, rfl⟩ := h
            exact ⟨h3, h4.trans h2⟩
          · dsimp only at h
            split at h
            · simp only [Option.some.injEq, Prod.mk.injEq] at h
              obtain ⟨-, -, -, rfl⟩ := h
              exact ⟨h3, h4.trans h2⟩
            · split at h
              · exact absurd h (by simp)
              · rename_i e3 ret s4 hl
                obtain ⟨h5, h6⟩ := receive_loop_result P hP fuel _ _
                  { s2 with payloads := s2.payloads ++ [header_length P.char_signed b1 b2] }
                  _ _ _ _ h3 hl
                split at h <;>
                  · simp only [Option.some.injEq, Prod.mk.injEq] at h
                    obtain ⟨-, -, -, rfl⟩ := h
                    exact ⟨h5, h6.trans (h4.trans h2)⟩

theorem open_comm_counters {τ : Type} (P : Platform τ) (s : State τ) :
    SameCounters s (open_comm P s).2 := by
  unfold open_comm
  dsimp only
  split
  · exact ⟨rfl, rfl, rfl⟩
  · split
    · exact ⟨rfl, rfl, rfl⟩
    · split
      · exact ⟨rfl, rfl, rfl⟩
      · split <;> exact ⟨rfl, rfl, rfl⟩

theorem close_comm_counters {τ : Type} (P : Platform τ) (s : State τ) :
    SameCounters s (close_comm P s) := by
  unfold close_comm
  split <;> exact ⟨rfl, rfl, rfl⟩

/-- Whatever its outcome, `init_messaging` assigns none of the counters
`inCount`, `readOffset` and `outCount`. -/
theorem init_messaging_counters {τ : Type} (P : Platform τ) (fuel : Nat) (s s' : State τ)
    (reply : List Nat) (e : libnxt_error)
    (h : init_messaging P fuel s reply = some (e, s')) : SameCounters s s' := by
  unfold init_messaging at h
  split at h
  · simp only [Option.some.injEq, Prod.mk.injEq] at h
    obtain ⟨-, rfl⟩ := h
    exact ⟨rfl, rfl, rfl⟩
  · dsimp only at h
    have ho := open_comm_counters P s
    split at h
    · simp only [Option.some.injEq, Prod.mk.injEq] at h
      obtain ⟨-, rfl⟩ := h
      exact ho
    · split at h
      · exact absurd h (by simp)
      · rename_i e1 t1 s2 hw
        obtain ⟨⟨-, -, hw1, hw2, hw3⟩, -, -⟩ := raw_write_result P fuel _ s2 _ _ _ _ _ _ e1 hw
        have h2 : SameCounters s s2 :=
          ⟨hw1.trans ho.1, hw2.trans ho.2.1, hw3.trans ho.2.2⟩
        have hshake : ∀ (e4 : libnxt_error) (s4 : State τ),
            (if (!e1.nonzero) = true then
              match raw_read P fuel s2 reply 0 BUFFER_SIZE 0 t1 with
              | none => none
              | some (e2, reply2, transferred2, s3) =>
                if (!e2.nonzero) = true then
                  some (if (!reply_valid reply2 transferred2) = true then LIBNXT_OTHER_ERROR
                        else e2, s3)
                else some (e2, s3)
            else some (e1, s2)) = some (e4, s4) → SameCounters s s4 := by
          intro e4 s4 h4
          split at h4
          · split at h4
            · exact absurd h4 (by simp)
            · rename_i e2 reply2 t2 s3 hr
              obtain ⟨⟨-, -, hr1, hr2, hr3⟩, -⟩ := raw_read_result P fuel s2 s3 _ _ _ _ _ _ _ e2 hr
              have h3 : SameCounters s s3 :=
                ⟨hr1.trans h2.1, hr2.trans h2.2.1, hr3.trans h2.2.2⟩
              split at h4 <;>
                · simp only [Option.some.injEq, Prod.mk.injEq] at h4
                  obtain ⟨-, rfl⟩ := h4
                  exact h3
          · simp only [Option.some.injEq, Prod.mk.injEq] at h4
            obtain ⟨-, rfl⟩ := h4
            exact h2
        split at h
        · exact absurd h (by simp)
        · rename_i e4 s4 h4
          have hs4 := hshake e4 s4 h4
          split at h
          · simp only [Option.some.injEq, Prod.mk.injEq] at h
            obtain ⟨-, rfl⟩ := h
            have hc := close_comm_counters P s4
            exact ⟨hc.1.trans hs4.1, hc.2.1.trans hs4.2.1, hc.2.2.trans hs4.2.2⟩
          · simp only [Option.some.injEq, Prod.mk.injEq] at h
            obtain ⟨-, rfl⟩ := h
            exact hs4

theorem exit_loop_result {τ : Type} (P : Platform τ) (hP : ReadsBounded P) (fuel : Nat)
    (k : Nat) :
    ∀ (s s' : State τ) (dataIn : Option (List Nat)) (length : Nat),
      (s.readOffset ≤ s.inCount ∧ s.inCount ≤ BUFFER_SIZE) →
      exit_loop P fuel k s dataIn length = some s' →
      (s'.readOffset ≤ s'.inCount ∧ s'.inCount ≤ BUFFER_SIZE) ∧ s'.outCount = s.outCount := by
  induction k with
  | zero => intro s s' dataIn length _ h; simp [exit_loop] at h
  | succ k ih =>
    intro s s' dataIn length hs h
    rw [exit_loop] at h
    split at h
    · exact absurd h (by simp)
    · rename_i e1 d1 l1 s1 hr
      obtain ⟨h1, h2⟩ := receive_result P hP fuel s s1 _ _ _ _ e1 hs hr
      split at h
      · simp only [Option.some.injEq] at h
        subst h
        exact ⟨h1, h2⟩
      · split at h
        · obtain ⟨h3, h4⟩ := ih _ _ _ _ h1 h
          exact ⟨h3, h4.trans h2⟩
        · simp only [Option.some.injEq] at h
          subst h
          exact ⟨h1, h2⟩

theorem exit_messaging_result {τ : Type} (P : Platform τ) (hP : ReadsBounded P)
    (hB : WritesBounded P) (fuel : Nat)
    (s s' : State τ) (hs : BufferInv s) (h : exit_messaging P fuel s = some s') :
    BufferInv s' := by
  unfold exit_messaging at h
  split at h
  · dsimp only at h
    split at h
    · exact absurd h (by simp)
    · rename_i s3 hd
      simp only [Option.some.injEq] at h
      subst h
      have h3 : BufferInv s3 := by
        split at hd
        · exact absurd hd (by simp)
        · rename_i e1 s1 hf
          obtain ⟨f1, -, -, f2, f3⟩ := flush_buffer_result P hB fuel _ s1 e1 hf
          have hs1 : BufferInv s1 := by
            obtain ⟨a, b, c⟩ := hs
            refine ⟨?_, ?_, ?_⟩
            · rw [f2, f3]; exact a
            · rw [f2]; exact b
            · exact Nat.le_trans f1 c
          split at hd
          · split at hd
            · exact absurd hd (by simp)
            · rename_i e2 s2 he
              have hs2 : BufferInv s2 := by
                unfold send_eof at he
                split at he
                · exact absurd he (by simp)
                · rename_i e' w' s'' hw
                  simp only [Option.some.injEq, Prod.mk.injEq] at he
                  obtain ⟨-, rfl⟩ := he
                  obtain ⟨⟨-, -, w1, w2, w3⟩, -, -⟩ :=
                    raw_write_result P fuel s1 _ _ _ _ _ _ _ e' hw
                  obtain ⟨a, b, c⟩ := hs1
                  exact ⟨by rw [w1, w2]; exact a, by rw [w1]; exact b, by rw [w3]; exact c⟩
              split at hd
              · obtain ⟨l1, l2⟩ := exit_loop_result P hP fuel fuel s2 s3 none 0
                  ⟨hs2.1, hs2.2.1⟩ hd
                exact ⟨l1.1, l1.2, by rw [l2]; exact hs2.2.2⟩
              · simp only [Option.some.injEq] at hd
                subst hd
                exact hs2
          · simp only [Option.some.injEq] at hd
            subst hd
            exact hs1
      have hc := close_comm_counters P s3
      obtain ⟨a, b, c⟩ := h3
      refine ⟨?_, ?_, ?_⟩
      · show (close_comm P s3).readOffset ≤ (close_comm P s3).inCount
        rw [hc.1, hc.2.1]; exact a
      · show (close_comm P s3).inCount ≤ BUFFER_SIZE
        rw [hc.1]; exact b
      · show (close_comm P s3).outCount ≤ BUFFER_SIZE
        rw [hc.2.2]; exact c
  · simp only [Option.some.injEq] at h
    subst h
    exact hs

/-- C21: assuming every transport chunk call reports a byte count between 0 and
the length it was asked for, the predicate `readOffset <= inCount <= 512` and
`outCount <= 512` holds at program start and, whenever it holds before a call
of `fill_buffer`, `read_byte`, `flush_buffer`, `write_byte`, `send`, `receive`,
`init_messaging` or `exit_messaging` that returns, it holds after the call.
`read_byte` stores a byte only on `LIBNXT_SUCCESS`, and that byte is `inBuf[i]`
for the index `i < inCount` that `readOffset` has just passed; `write_byte`
changes `outBuf` only on `LIBNXT_SUCCESS`, and then at the index `i < 512` that
`outCount` has just passed. -/
theorem buffer_invariant {τ : Type} (P : Platform τ) (hP : CountsBounded P) :
    (∀ u : τ, BufferInv (State.initial u)) ∧
    (∀ fuel s e s', BufferInv s → fill_buffer P fuel s = some (e, s') → BufferInv s') ∧
    (∀ fuel s byte e b s', BufferInv s → read_byte P fuel s byte = some (e, b, s') →
      BufferInv s' ∧
      (e = LIBNXT_SUCCESS →
        ∃ i, i < s'.inCount ∧ s'.readOffset = i + 1 ∧ b = s'.inBuf.getD i 0) ∧
      (e ≠ LIBNXT_SUCCESS → b = byte)) ∧
    (∀ fuel s e s', BufferInv s → flush_buffer P fuel s = some (e, s') → BufferInv s') ∧
    (∀ fuel s byte e s', BufferInv s → write_byte P fuel s byte = some (e, s') →
      BufferInv s' ∧
      (e = LIBNXT_SUCCESS →
        ∃ i, i < BUFFER_SIZE ∧ s'.outCount = i + 1 ∧ s'.outBuf = s.outBuf.set i byte) ∧
      (e ≠ LIBNXT_SUCCESS → s'.outBuf = s.outBuf)) ∧
    (∀ fuel s message length e s', BufferInv s →
      send P fuel s message length = some (e, s') → BufferInv s') ∧
    (∀ fuel s message length e message' length' s', BufferInv s →
      receive P fuel s message length = some (e, message', length', s') → BufferInv s') ∧
    (∀ fuel s reply e s', BufferInv s →
      init_messaging P fuel s reply = some (e, s') → BufferInv s') ∧
    (∀ fuel s s', BufferInv s → exit_messaging P fuel s = some s' → BufferInv s') := by
  obtain ⟨hR, hW⟩ := hP
  refine ⟨fun u => ⟨Nat.le_refl _, Nat.zero_le _, Nat.zero_le _⟩, ?_, ?_, ?_, ?_, ?_, ?_, ?_, ?_⟩
  · intro fuel s e s' hs h
    obtain ⟨h1, h2, h3, -⟩ := fill_buffer_result P hR fuel s s' e h
    exact ⟨by rw [h1]; exact Nat.zero_le _, h2, by rw [h3]; exact hs.2.2⟩
  · intro fuel s byte e b s' hs h
    obtain ⟨h1, h2, -, h3, h4⟩ := read_byte_result P hR fuel s s' byte b e ⟨hs.1, hs.2.1⟩ h
    exact ⟨⟨h1.1, h1.2, by rw [h2]; exact hs.2.2⟩, h3, h4⟩
  · intro fuel s e s' hs h
    obtain ⟨h1, -, -, h2, h3⟩ := flush_buffer_result P hW fuel s s' e h
    exact ⟨by rw [h2, h3]; exact hs.1, by rw [h2]; exact hs.2.1, Nat.le_trans h1 hs.2.2⟩
  · intro fuel s byte e s' hs h
    obtain ⟨h1, h2, h3, -, h4, h5⟩ := write_byte_result P hW fuel s s' byte e hs.2.2 h
    exact ⟨⟨by rw [h2, h3]; exact hs.1, by rw [h2]; exact hs.2.1, h1⟩, h4, h5⟩
  · intro fuel s message length e s' hs h
    obtain ⟨h1, h2, h3⟩ := send_result P hW fuel message length s s' e hs.2.2 h
    exact ⟨by rw [h2, h3]; exact hs.1, by rw [h2]; exact hs.2.1, h1⟩
  · intro fuel s message length e message' length' s' hs h
    obtain ⟨h1, h2⟩ := receive_result P hR fuel s s' message message' length length' e
      ⟨hs.1, hs.2.1⟩ h
    exact ⟨h1.1, h1.2, by rw [h2]; exact hs.2.2⟩
  · intro fuel s reply e s' hs h
    obtain ⟨h1, h2, h3⟩ := init_messaging_counters P fuel s s' reply e h
    exact ⟨by rw [h1, h2]; exact hs.1, by rw [h1]; exact hs.2.1, by rw [h3]; exact hs.2.2⟩
  · intro fuel s s' hs h
    exact exit_messaging_result P hR hW fuel s s' hs h

theorem loopback_counts_bounded (cs : Bool) : CountsBounded (loopback cs) := by
  constructor
  · intro u n
    show (if u.isEmpty then (LIBUSB_ERROR_TIMEOUT, ([] : List Nat), u)
      else ((0 : Int), u.take n, u.drop n)).2.1.length ≤ n
    split
    · exact Nat.zero_le _
    · simp only [List.length_take]
      exact Nat.min_le_left _ _
  · intro u bytes
    exact Nat.le_refl _

/-- C21, exercised over the loopback on a freshly opened session with a frame of
three bytes in flight: `receive` returns the frame and `send` of a two-byte
message returns, and the predicate holds after each. -/
theorem buffer_invariant_witness :
    CountsBounded (loopback true) ∧ BufferInv (State.opened [3, 0, 7, 8, 9]) ∧
    (∃ s', receive (loopback true) 1 (State.opened [3, 0, 7, 8, 9]) none 0
        = some (LIBNXT_SUCCESS, some [7, 8, 9], 3, s') ∧
      BufferInv s' ∧ s'.readOffset = 5 ∧ s'.inCount = 5) ∧
    (∃ s', send (loopback true) 1 (State.opened [3, 0, 7, 8, 9]) [0, 8] 2
        = some (LIBNXT_SUCCESS, s') ∧
      BufferInv s' ∧ s'.outCount = 0) :=
  ⟨loopback_counts_bounded true, ⟨Nat.le_refl _, Nat.zero_le _, Nat.zero_le _⟩,
    ⟨_, rfl,
      (buffer_invariant (loopback true) (loopback_counts_bounded true)).2.2.2.2.2.2.1 1
        (State.opened [3, 0, 7, 8, 9]) none 0 _ _ _ _
        ⟨Nat.le_refl _, Nat.zero_le _, Nat.zero_le _⟩ rfl,
      rfl, rfl⟩,
    ⟨_, rfl,
      (buffer_invariant (loopback true) (loopback_counts_bounded true)).2.2.2.2.2.1 1
        (State.opened [3, 0, 7, 8, 9]) [0, 8] 2 _ _
        ⟨Nat.le_refl _, Nat.zero_le _, Nat.zero_le _⟩ rfl,
      rfl⟩⟩

/-! ## Re-opening a session -/

/-- C28: a session is opened, one of two frames that arrived in one chunk is
received, `send` of a one-byte message fails in its flush, and the session is
closed by `exit_messaging` and opened again.  The second `init_messaging`
returns `LIBNXT_SUCCESS` with `readOffset = 3 < inCount = 6` and
`outCount = 3`: the counters of the first session over fresh zeroed blocks.
The first `receive` then returns the exit sentinel read from the zeroed block
without a transport call, and the first `send`, of the one-byte message `0x06`,
transmits three zero bytes in front of its frame. -/
theorem init_messaging_keeps_stale_counters :
    reopenRun
      = some ((LIBNXT_SUCCESS, LIBNXT_SUCCESS, LIBNXT_IO_ERROR, LIBNXT_SUCCESS), reopened) ∧
    in_buffer_empty reopened = false ∧ reopened.outCount = 3 ∧
    receive (replay true) 1 reopened (some [7]) 1
      = some (LIBNXT_SUCCESS, none, 0, { reopened with readOffset := 5 }) ∧
    (send (replay true) 1 reopened [0x06] 1).map
        (fun r => (r.1, accepted (r.2.calls.drop reopened.calls.length)))
      = some (LIBNXT_SUCCESS, [0, 0, 0, 1, 0, 6]) := by
  refine ⟨by rfl, by decide, rfl, by rfl, by decide!⟩

/-! ## The input path: bytes come out in the order the transport handed them over -/

theorem blit_length (buf : List Nat) (off : Nat) (data : List Nat)
    (h : off + data.length ≤ buf.length) : (blit buf off data).length = buf.length := by
  unfold blit
  simp only [List.length_append, List.length_take, List.length_drop]
  omega

theorem blit_take (buf : List Nat) (off : Nat) (data : List Nat) (h : off ≤ buf.length) :
    (blit buf off data).take (off + data.length) = buf.take off ++ data := by
  unfold blit
  have hlen : (buf.take off ++ data).length = off + data.length := by
    simp only [List.length_append, List.length_take]
    omega
  rw [← hlen, List.take_left]

/-- Over a transport whose bulk reads never store more than they were asked
for, reading into a block that holds `offset + maxLength` bytes: the loop of
`raw_read` keeps the length of the block and `total` within `maxLength`, and as
long as no attempt met an error, the block holds from `offset` on the bytes
handed over, in order, and `total` counts them. -/
theorem raw_read_loop_content {τ : Type} (P : Platform τ) (hP : ReadsBounded P)
    (offset maxLength : Nat) (w : Bool) (fuel : Nat) (s : State τ) (buf : List Nat)
    (r : ReadVars) (s' : State τ) (hfit : offset + maxLength ≤ buf.length)
    (h : raw_read_loop P offset maxLength w fuel s (ReadVars.start buf) = some (r, s')) :
    r.buf.length = buf.length ∧ r.total ≤ maxLength ∧
    ∃ new, s'.calls = s.calls ++ new ∧
      (r.ioError = false →
        r.buf.take (offset + r.total) = buf.take offset ++ delivered new ∧
        r.total = (delivered new).length) := by
  have hstep : ∀ (s0 : State τ) (v0 : ReadVars),
      (v0.buf.length = buf.length ∧ v0.total ≤ maxLength ∧
        ∃ new, s0.calls = s.calls ++ new ∧
          (v0.ioError = false →
            v0.buf.take (offset + v0.total) = buf.take offset ++ delivered new ∧
            v0.total = (delivered new).length)) →
      ((raw_read_body P offset maxLength s0 v0).1.buf.length = buf.length ∧
        (raw_read_body P offset maxLength s0 v0).1.total ≤ maxLength ∧
        ∃ new, (raw_read_body P offset maxLength s0 v0).2.calls = s.calls ++ new ∧
          ((raw_read_body P offset maxLength s0 v0).1.ioError = false →
            (raw_read_body P offset maxLength s0 v0).1.buf.take
                (offset + (raw_read_body P offset maxLength s0 v0).1.total)
              = buf.take offset ++ delivered new ∧
            (raw_read_body P offset maxLength s0 v0).1.total = (delivered new).length)) := by
    intro s0 v0 ⟨hlen, htot, new, hcalls, hinv⟩
    have hb := hP s0.usb (maxLength - v0.total)
    have hbl : (blit v0.buf (offset + v0.total)
        (P.bulk_read_nxt s0.usb (maxLength - v0.total)).2.1).length = buf.length := by
      rw [blit_length _ _ _ (by omega), hlen]
    rw [raw_read_body_state]
    by_cases hc : ((P.bulk_read_nxt s0.usb (maxLength - v0.total)).1 != 0 &&
          (P.bulk_read_nxt s0.usb (maxLength - v0.total)).1 != LIBUSB_ERROR_TIMEOUT) = true
    · rw [raw_read_body_error P offset maxLength s0 v0 hc]
      refine ⟨hbl, htot, _, by rw [hcalls, List.append_assoc], fun hio => ?_⟩
      simp at hio
    · rw [raw_read_body_ok P offset maxLength s0 v0 (by simpa using hc)]
      refine ⟨hbl, by simp only; omega, _, by rw [hcalls, List.append_assoc], fun hio => ?_⟩
      obtain ⟨h1, h2⟩ := hinv hio
      simp only
      rw [delivered_append, ← Nat.add_assoc, blit_take _ _ _ (by omega), h1, h2]
      simp [delivered]
  obtain ⟨s0, v0, hinv, hb, -⟩ := raw_read_loop_last P offset maxLength w
    (fun s0 v0 => v0.buf.length = buf.length ∧ v0.total ≤ maxLength ∧
        ∃ new, s0.calls = s.calls ++ new ∧
          (v0.ioError = false →
            v0.buf.take (offset + v0.total) = buf.take offset ++ delivered new ∧
            v0.total = (delivered new).length))
    (fun s0 v0 hi _ => hstep s0 v0 hi) fuel s (ReadVars.start buf) r s'
    ⟨rfl, Nat.zero_le _, [], by simp, fun _ => ⟨by simp [ReadVars.start, delivered], rfl⟩⟩ h
  have := hstep s0 v0 hinv
  rw [hb] at this
  exact this

/-- What `fill_buffer` leaves in the input buffer, over a transport whose bulk
reads never store more than they were asked for: after `LIBNXT_SUCCESS` or
`LIBNXT_TIMEOUT`, `inBuf[0 .. inCount)` holds the bytes the transport handed
over during the call, in order; after any other outcome `inCount` is 0. -/
theorem fill_buffer_content {τ : Type} (P : Platform τ) (hP : ReadsBounded P) (fuel : Nat)
    (s s' : State τ) (e : libnxt_error) (hb : s.inBuf.length = BUFFER_SIZE)
    (h : fill_buffer P fuel s = some (e, s')) :
    s'.inBuf.length = BUFFER_SIZE ∧ s'.inCount ≤ BUFFER_SIZE ∧ s'.readOffset = 0 ∧
    ∃ new, s'.calls = s.calls ++ new ∧
      ((e = LIBNXT_SUCCESS ∨ e = LIBNXT_TIMEOUT) → s'.inBuf.take s'.inCount = delivered new) ∧
      (e ≠ LIBNXT_SUCCESS → e ≠ LIBNXT_TIMEOUT → s'.inCount = 0) := by
  unfold fill_buffer at h
  dsimp only at h
  by_cases hh : s.handle = true
  · rw [raw_read_of_loop P fuel { s with inCount := 0, readOffset := 0 } s.inBuf 0 BUFFER_SIZE
      s.timeout 0 hh (by decide)] at h
    cases hloop : raw_read_loop P 0 BUFFER_SIZE (s.timeout == 0) fuel
        { s with inCount := 0, readOffset := 0 } (ReadVars.start s.inBuf) with
    | none => rw [hloop] at h; simp at h
    | some r =>
      obtain ⟨v, s1⟩ := r
      rw [hloop] at h
      obtain ⟨hlen, htot, new, hcalls, hinv⟩ := raw_read_loop_content P hP 0 BUFFER_SIZE _ fuel
        _ s.inBuf v s1 (by rw [hb]; exact Nat.le_refl _) hloop
      obtain ⟨-, -, -, hro, -⟩ := raw_read_loop_sameBuffers P 0 BUFFER_SIZE _ fuel _ _ v s1 hloop
      simp only [Option.map_some'] at h
      cases hio : v.ioError
      · simp only [hio, Bool.false_eq_true, if_false, Option.some.injEq, Prod.mk.injEq] at h
        obtain ⟨he, rfl⟩ := h
        obtain ⟨h1, h2⟩ := hinv hio
        refine ⟨by rw [← hb]; exact hlen, htot, hro, new, hcalls, fun _ => ?_, ?_⟩
        · show v.buf.take v.total = _
          simpa using h1
        · intro h3 h4
          exfalso
          split at he
          · exact h4 he.symm
          · exact h3 he.symm
      · simp only [hio, if_true, Option.some.injEq, Prod.mk.injEq] at h
        obtain ⟨he, rfl⟩ := h
        refine ⟨by rw [← hb]; exact hlen, Nat.zero_le _, hro, new, hcalls, fun hok => ?_,
          fun _ _ => rfl⟩
        rcases hok with hok | hok <;> rw [hok] at he <;> split at he <;> cases he
  · unfold raw_read at h
    rw [if_pos (by simpa using hh)] at h
    simp only [Option.some.injEq, Prod.mk.injEq] at h
    obtain ⟨rfl, rfl⟩ := h
    exact ⟨hb, Nat.zero_le _, rfl, [], by simp,
      fun hok => (by rcases hok with hok | hok <;> cases hok), fun _ _ => rfl⟩

theorem unread_cons {τ : Type} (s : State τ) (hlt : s.readOffset < s.inCount)
    (hlen : s.inCount ≤ s.inBuf.length) :
    unread s = s.inBuf.getD s.readOffset 0 :: unread { s with readOffset := s.readOffset + 1 } := by
  unfold unread
  have h1 : s.readOffset < (s.inBuf.take s.inCount).length := by
    simp only [List.length_take]
    omega
  rw [List.drop_eq_getElem_cons h1, List.getElem_take]
  have h2 : s.readOffset < s.inBuf.length := by omega
  simp [List.getD_eq_getElem?_getD, List.getElem?_eq_getElem h2]

theorem unread_nil {τ : Type} (s : State τ) (h : s.inCount ≤ s.readOffset) : unread s = [] := by
  unfold unread
  apply List.drop_of_length_le
  simp only [List.length_take]
  omega

/-- The condition under which `read_byte` and `write_byte` give up after a
refill or a flush: an outcome other than `LIBNXT_SUCCESS` and `LIBNXT_TIMEOUT`. -/
theorem fatal_iff (e : libnxt_error) :
    (e.nonzero && e != LIBNXT_TIMEOUT) = true ↔ (e ≠ LIBNXT_SUCCESS ∧ e ≠ LIBNXT_TIMEOUT) := by
  cases e <;> decide

/-- One `read_byte` call on a session whose input block is allocated, over a
transport whose bulk reads never store more than they were asked for.  While
unread bytes are left no call is made on the transport.  Unless the call fails
with an outcome other than `LIBNXT_TIMEOUT`, the unread bytes from before the
call followed by the bytes the transport handed over during the call are the
byte returned, if one is, followed by the unread bytes after the call.  After a
failure other than `LIBNXT_TIMEOUT` no unread bytes are left. -/
theorem read_byte_step {τ : Type} (P : Platform τ) (hP : ReadsBounded P) (fuel : Nat)
    (s s' : State τ) (byte b : Nat) (e : libnxt_error)
    (hb : s.inBuf.length = BUFFER_SIZE) (hc : s.inCount ≤ BUFFER_SIZE)
    (h : read_byte P fuel s byte = some (e, b, s')) :
    s'.inBuf.length = BUFFER_SIZE ∧ s'.inCount ≤ BUFFER_SIZE ∧
    ∃ new, s'.calls = s.calls ++ new ∧
      (in_buffer_empty s = false → new = [] ∧ e = LIBNXT_SUCCESS) ∧
      (e = LIBNXT_SUCCESS → unread s ++ delivered new = b :: unread s') ∧
      (e = LIBNXT_TIMEOUT → unread s ++ delivered new = unread s') ∧
      (e ≠ LIBNXT_SUCCESS → e ≠ LIBNXT_TIMEOUT → unread s' = []) := by
  unfold read_byte at h
  by_cases hemp : in_buffer_empty s = true
  · rw [if_pos hemp] at h
    have hun : unread s = [] := unread_nil s (by simpa [in_buffer_empty] using hemp)
    split at h
    · exact absurd h (by simp)
    · rename_i e1 s1 hf
      obtain ⟨f1, f2, f3, new, f4, f5, f6⟩ := fill_buffer_content P hP fuel s s1 e1 hb hf
      dsimp only at h
      by_cases herr : (e1.nonzero && e1 != LIBNXT_TIMEOUT) = true
      · rw [if_neg (by simp [herr])] at h
        simp only [Option.some.injEq, Prod.mk.injEq] at h
        obtain ⟨rfl, rfl, rfl⟩ := h
        have hfatal := (fatal_iff e1).1 herr
        refine ⟨f1, f2, new, f4, fun hne => absurd hemp (by simp [hne]),
          fun he => absurd he hfatal.1, fun he => absurd he hfatal.2, fun _ _ => ?_⟩
        exact unread_nil s1 (by rw [f6 hfatal.1 hfatal.2]; exact Nat.zero_le _)
      · rw [if_pos (by simp [herr])] at h
        have hok : e1 = LIBNXT_SUCCESS ∨ e1 = LIBNXT_TIMEOUT := by
          by_contra hcon
          push_neg at hcon
          exact herr ((fatal_iff e1).2 hcon)
        have hd := f5 hok
        by_cases hem1 : in_buffer_empty s1 = true
        · rw [if_pos hem1] at h
          simp only [Option.some.injEq, Prod.mk.injEq] at h
          obtain ⟨rfl, rfl, rfl⟩ := h
          have h0 : s1.inCount = 0 := by
            have : s1.inCount ≤ s1.readOffset := by simpa [in_buffer_empty] using hem1
            omega
          rw [h0, List.take_zero] at hd
          refine ⟨f1, f2, new, f4, fun hne => absurd hemp (by simp [hne]),
            fun he => absurd he (by decide), fun _ => ?_, fun _ h2 => absurd rfl h2⟩
          rw [hun, ← hd, unread_nil s1 (by omega)]
          rfl
        · rw [if_neg hem1] at h
          simp only [Option.some.injEq, Prod.mk.injEq] at h
          obtain ⟨rfl, rfl, rfl⟩ := h
          have hlt : s1.readOffset < s1.inCount := by simpa [in_buffer_empty] using hem1
          refine ⟨f1, f2, new, f4, fun hne => absurd hemp (by simp [hne]), fun _ => ?_,
            fun he => absurd he (by decide), fun h1 _ => absurd rfl h1⟩
          rw [hun, List.nil_append, ← hd, ← unread_cons s1 hlt (by omega)]
          unfold unread
          rw [f3, List.drop_zero]
  · rw [if_neg hemp] at h
    have hne : in_buffer_empty s = false := by simpa using hemp
    have hlt : s.readOffset < s.inCount := by simpa [in_buffer_empty] using hne
    simp only [nonzero_success, Bool.false_and, Bool.not_false, if_true, hne,
      Bool.false_eq_true, if_false, Option.some.injEq, Prod.mk.injEq] at h
    obtain ⟨rfl, rfl, rfl⟩ := h
    refine ⟨hb, hc, [], by simp, fun _ => ⟨rfl, rfl⟩, fun _ => ?_,
      fun he => absurd he (by decide), fun h1 _ => absurd rfl h1⟩
    rw [unread_cons s hlt (by omega)]
    simp [delivered]

/-- A run of `read_byte` calls none of which fails with an outcome other than
`LIBNXT_TIMEOUT`: the unread bytes from before the run followed by the bytes
the transport handed over during the run are the bytes returned by the
successful calls, in order, followed by the unread bytes after the run. -/
theorem read_calls_fifo {τ : Type} (P : Platform τ) (hP : ReadsBounded P) (fuel : Nat)
    (k : Nat) :
    ∀ (s s' : State τ) (byte : Nat) (rs : List (libnxt_error × Nat)),
      s.inBuf.length = BUFFER_SIZE → s.inCount ≤ BUFFER_SIZE →
      read_calls P fuel k s byte = some (rs, s') →
      (∀ r ∈ rs, r.1 = LIBNXT_SUCCESS ∨ r.1 = LIBNXT_TIMEOUT) →
      s'.inBuf.length = BUFFER_SIZE ∧ s'.inCount ≤ BUFFER_SIZE ∧
      ∃ new, s'.calls = s.calls ++ new ∧
        unread s ++ delivered new = bytesRead rs ++ unread s' := by
  induction k with
  | zero =>
    intro s s' byte rs hb hc h _
    simp only [read_calls, Option.some.injEq, Prod.mk.injEq] at h
    obtain ⟨rfl, rfl⟩ := h
    exact ⟨hb, hc, [], by simp, by simp [delivered, bytesRead]⟩
  | succ k ih =>
    intro s s' byte rs hb hc h hok
    rw [read_calls] at h
    split at h
    · exact absurd h (by simp)
    · rename_i e b s1 hr
      split at h
      · exact absurd h (by simp)
      · rename_i rs1 s2 hrest
        simp only [Option.some.injEq, Prod.mk.injEq] at h
        obtain ⟨rfl, rfl⟩ := h
        obtain ⟨hb1, hc1, new1, hcalls1, -, hs1, ht1, -⟩ :=
          read_byte_step P hP fuel s s1 byte b e hb hc hr
        obtain ⟨hb2, hc2, new2, hcalls2, hfifo2⟩ := ih s1 s2 b rs1 hb1 hc1 hrest
          (fun r hr => hok r (List.mem_cons_of_mem _ hr))
        refine ⟨hb2, hc2, new1 ++ new2, by rw [hcalls2, hcalls1, List.append_assoc], ?_⟩
        rw [delivered_append, ← List.append_assoc]
        rcases hok (e, b) (List.mem_cons_self _ _) with he | he
        · simp only at he
          rw [hs1 he, he]
          simp only [bytesRead, if_true, List.cons_append]
          rw [hfifo2]
        · simp only at he
          rw [ht1 he, he, hfifo2]
          simp [bytesRead]

/-- C25: on a session whose input block is allocated, over a transport whose
bulk reads never store more than they were asked for.  While unread bytes are
left, `read_byte` returns the byte at `readOffset` without calling the raw
layer.  Over a run of successive `read_byte` calls none of which fails with an
outcome other than `LIBNXT_TIMEOUT`, the bytes unread before the run followed
by the bytes the transport handed over during the refills are the bytes the
successful calls returned, in order, followed by the bytes unread after the
run.  A `read_byte` whose refill ends in `LIBNXT_TIMEOUT` and leaves the buffer
empty returns `LIBNXT_TIMEOUT`; a refill that ends in any other failure is
returned unchanged, and leaves no unread bytes whatever its chunks moved. -/
theorem read_byte_fifo {τ : Type} (P : Platform τ) (hP : ReadsBounded P) :
    (∀ (fuel : Nat) (s : State τ) (byte : Nat), in_buffer_empty s = false →
      read_byte P fuel s byte
        = some (LIBNXT_SUCCESS, s.inBuf.getD s.readOffset 0,
                { s with readOffset := s.readOffset + 1 })) ∧
    (∀ (fuel k : Nat) (s s' : State τ) (byte : Nat) (rs : List (libnxt_error × Nat)),
      s.inBuf.length = BUFFER_SIZE → s.inCount ≤ BUFFER_SIZE →
      read_calls P fuel k s byte = some (rs, s') →
      (∀ r ∈ rs, r.1 = LIBNXT_SUCCESS ∨ r.1 = LIBNXT_TIMEOUT) →
      ∃ new, s'.calls = s.calls ++ new ∧
        unread s ++ delivered new = bytesRead rs ++ unread s') ∧
    (∀ (fuel : Nat) (s s1 : State τ) (byte : Nat) (e1 : libnxt_error),
      in_buffer_empty s = true → s.inBuf.length = BUFFER_SIZE →
      fill_buffer P fuel s = some (e1, s1) →
      (e1 = LIBNXT_TIMEOUT → in_buffer_empty s1 = true →
        read_byte P fuel s byte = some (LIBNXT_TIMEOUT, byte, s1)) ∧
      (e1 ≠ LIBNXT_SUCCESS → e1 ≠ LIBNXT_TIMEOUT →
        read_byte P fuel s byte = some (e1, byte, s1) ∧ unread s1 = [])) := by
  refine ⟨?_, ?_, ?_⟩
  · intro fuel s byte hne
    unfold read_byte
    simp only [hne, Bool.false_eq_true, if_false, nonzero_success, Bool.false_and,
      Bool.not_false, if_true]
  · intro fuel k s s' byte rs hb hc h hok
    exact (read_calls_fifo P hP fuel k s s' byte rs hb hc h hok).2.2
  · intro fuel s s1 byte e1 hemp hb hf
    obtain ⟨-, -, -, new, -, -, f6⟩ := fill_buffer_content P hP fuel s s1 e1 hb hf
    constructor
    · intro he hem1
      unfold read_byte
      rw [if_pos hemp, hf, he]
      simp only [hem1, if_true]
      rfl
    · intro h1 h2
      constructor
      · unfold read_byte
        rw [if_pos hemp, hf]
        dsimp only
        rw [if_neg (by simp [(fatal_iff e1).2 ⟨h1, h2⟩])]
      · exact unread_nil s1 (by rw [f6 h1 h2]; exact Nat.zero_le _)

/-- C25, exercised over the loopback with the timeout flag set and three bytes
in flight: four `read_byte` calls make one refill each for the first and the
last; the first three return 1, 2, 3 and the fourth returns `LIBNXT_TIMEOUT`. -/
theorem read_byte_fifo_witness :
    ReadsBounded (loopback true) ∧ fifoDemo.inBuf.length = BUFFER_SIZE ∧
    fifoDemo.inCount ≤ BUFFER_SIZE ∧
    ∃ s',
      read_calls (loopback true) 1 4 fifoDemo 0
        = some ([(LIBNXT_SUCCESS, 1), (LIBNXT_SUCCESS, 2), (LIBNXT_SUCCESS, 3),
                 (LIBNXT_TIMEOUT, 3)], s') ∧
      s'.calls = [UsbCall.usb_read 512 0 [1, 2, 3],
                  UsbCall.usb_read 512 LIBUSB_ERROR_TIMEOUT []] ∧
      ∃ new, s'.calls = fifoDemo.calls ++ new ∧
        unread fifoDemo ++ delivered new
          = bytesRead [(LIBNXT_SUCCESS, 1), (LIBNXT_SUCCESS, 2), (LIBNXT_SUCCESS, 3),
                       (LIBNXT_TIMEOUT, 3)] ++ unread s' :=
  ⟨(loopback_counts_bounded true).1, List.length_replicate _ _, Nat.zero_le _, _, rfl, rfl,
    (read_byte_fifo (loopback true) (loopback_counts_bounded true).1).2.1 1 4 fifoDemo _ 0 _
      (List.length_replicate _ _) (Nat.zero_le _) rfl (by decide)⟩

/-! ## Receiving does not depend on how the transport cuts the stream -/

/-- With the timeout disabled, over a transport that has nothing more to hand
over, the loop of `raw_read` never ends. -/
theorem raw_read_loop_starves {τ : Type} (P : Platform τ) (ρ : τ → List Nat)
    (hS : Starves P ρ) (offset maxLength : Nat) (fuel : Nat) :
    ∀ (s : State τ) (v : ReadVars), ρ s.usb = [] → v.unfinished = false →
      v.ioError = false → raw_read_loop P offset maxLength true fuel s v = none := by
  induction fuel with
  | zero => intro s v _ _ _; rfl
  | succ k ih =>
    intro s v hu hv hi
    obtain ⟨hcode, hdata, hnext⟩ := hS s.usb (maxLength - v.total) hu
    have hc : ((P.bulk_read_nxt s.usb (maxLength - v.total)).1 != 0 &&
        (P.bulk_read_nxt s.usb (maxLength - v.total)).1 != LIBUSB_ERROR_TIMEOUT) = false := by
      rcases hcode with h0 | h0 <;> rw [h0] <;> decide
    have hbody := raw_read_body_ok P offset maxLength s v hc
    have hstate := raw_read_body_state P offset maxLength s v
    rw [raw_read_loop]
    have hag : raw_read_again true (raw_read_body P offset maxLength s v).1 = true := by
      rw [hbody]
      simp [raw_read_again, hi, hdata]
    rw [if_pos hag]
    apply ih
    · rw [hstate]
      exact hnext
    · rw [hbody]
      simp [hv, hdata]
    · rw [hbody]
      exact hi

/-- With the timeout disabled, over a transport that has nothing more to hand
over, `read_byte` on an exhausted input buffer never returns. -/
theorem read_byte_starves {τ : Type} (P : Platform τ) (ρ : τ → List Nat)
    (hS : Starves P ρ) (fuel : Nat) (s : State τ) (byte : Nat) (hs : InputOk s)
    (ht : s.timeout = 0) (hp : pending ρ s = []) :
    read_byte P fuel s byte = none := by
  obtain ⟨hh, hin⟩ := hs
  unfold pending at hp
  obtain ⟨hbuf, hu⟩ := List.append_eq_nil.1 hp
  have hempty : s.inCount ≤ s.readOffset := by
    rcases hin with h | h
    · have := congrArg List.length hbuf
      simp only [List.length_drop, List.length_take, List.length_nil] at this
      omega
    · exact h
  have hemp : in_buffer_empty s = true := by simpa [in_buffer_empty] using hempty
  have hfill : fill_buffer P fuel s = none := by
    unfold fill_buffer
    dsimp only
    rw [raw_read_of_loop P fuel { s with inCount := 0, readOffset := 0 } s.inBuf 0 BUFFER_SIZE
      s.timeout 0 hh (by decide)]
    have := raw_read_loop_starves P ρ hS 0 BUFFER_SIZE fuel
      { s with inCount := 0, readOffset := 0 } (ReadVars.start s.inBuf) hu rfl rfl
    have h0 : (s.timeout == 0) = true := by rw [ht]; rfl
    rw [h0, this]
    rfl
  unfold read_byte
  rw [if_pos hemp, hfill]

/-- With the timeout disabled, over a transport that delivers its stream and
then has nothing more, the payload loop of `receive` never ends when it is to
read more bytes than are pending. -/
theorem receive_loop_starves {τ : Type} (P : Platform τ) (ρ : τ → List Nat)
    (hD : Delivers P ρ) (hS : Starves P ρ) (fuel : Nat) (k : Nat) :
    ∀ (i : Nat) (s : State τ) (ret : List Nat), InputOk s → s.timeout = 0 →
      (pending ρ s).length < k → receive_loop P (fuel + 1) k i s ret = none := by
  induction k with
  | zero => intro i s ret _ _ h; omega
  | succ k ih =>
    intro i s ret hs ht hk
    rw [receive_loop]
    cases hp : pending ρ s with
    | nil => rw [read_byte_starves P ρ hS (fuel + 1) s _ hs ht hp]
    | cons b rest =>
      obtain ⟨s1, hr, hs1, hp1⟩ := read_byte_delivers P ρ hD fuel s (ret.getD i 0) b rest hs hp
      have ht1 : s1.timeout = 0 := by
        rw [(read_byte_steady hr).2.2.1]
        exact ht
      rw [hr]
      simp only [nonzero_success, Bool.false_eq_true, if_false]
      apply ih _ _ _ hs1 ht1
      rw [hp1]
      rw [hp] at hk
      simp only [List.length_cons] at hk
      omega

/-- With the timeout disabled, over a transport that delivers its stream in
non-empty chunks and then has nothing more: `receive` on an Open session
returns the frame at the head of the pending bytes, with any positive fuel, and
leaves what follows the frame pending; it never returns when the pending bytes
end inside the frame. -/
theorem receive_head_frame {τ : Type} (P : Platform τ) (ρ : τ → List Nat)
    (hD : Delivers P ρ) (hS : Starves P ρ) (fuel : Nat) (s : State τ)
    (message : Option (List Nat)) (length : Nat)
    (he : s.eof = false) (hs : InputOk s) (ht : s.timeout = 0) :
    (∀ n m rest, head_frame P.char_signed (pending ρ s) = some ((n, m), rest) →
      ∃ s', receive P (fuel + 1) s message length = some (LIBNXT_SUCCESS, m, n, s') ∧
        s'.eof = false ∧ InputOk s' ∧ s'.timeout = 0 ∧ pending ρ s' = rest) ∧
    (head_frame P.char_signed (pending ρ s) = none →
      receive P (fuel + 1) s message length = none) := by
  cases hp : pending ρ s with
  | nil =>
    refine ⟨fun n m rest h => by simp [head_frame] at h, fun _ => ?_⟩
    unfold receive
    rw [if_neg (by rw [he]; decide), read_byte_starves P ρ hS (fuel + 1) s 0 hs ht hp]
  | cons b0 tail0 =>
    obtain ⟨s1, hr1, hs1, hp1⟩ := read_byte_delivers P ρ hD fuel s 0 b0 tail0 hs hp
    have ht1 : s1.timeout = 0 := by rw [(read_byte_steady hr1).2.2.1]; exact ht
    have he1 : s1.eof = false := by rw [(read_byte_steady hr1).2.1]; exact he
    cases tail0 with
    | nil =>
      refine ⟨fun n m rest h => by simp [head_frame] at h, fun _ => ?_⟩
      unfold receive
      rw [if_neg (by rw [he]; decide), hr1]
      simp only [nonzero_success, Bool.false_eq_true, if_false]
      rw [read_byte_starves P ρ hS (fuel + 1) s1 0 hs1 ht1 hp1]
    | cons b1 rest =>
      obtain ⟨s2, hr2, hs2, hp2⟩ := read_byte_delivers P ρ hD fuel s1 0 b1 rest hs1 hp1
      have ht2 : s2.timeout = 0 := by rw [(read_byte_steady hr2).2.2.1]; exact ht1
      have he2 : s2.eof = false := by rw [(read_byte_steady hr2).2.1]; exact he1
      by_cases h0 : header_length P.char_signed b0 b1 = 0
      · have hrecv : receive P (fuel + 1) s message length
            = some (LIBNXT_SUCCESS, none, 0, s2) := by
          unfold receive
          rw [if_neg (by rw [he]; decide), hr1]
          simp only [nonzero_success, Bool.false_eq_true, if_false, hr2, h0, beq_self_eq_true,
            if_true]
        refine ⟨fun n m rest' h => ?_, fun h => ?_⟩
        · simp only [head_frame, h0, beq_self_eq_true, if_true, Option.some.injEq,
            Prod.mk.injEq] at h
          obtain ⟨⟨rfl, rfl⟩, rfl⟩ := h
          exact ⟨s2, hrecv, he2, hs2, ht2, hp2⟩
        · simp [head_frame, h0] at h
      · have h0' : (header_length P.char_signed b0 b1 == 0) = false := by simpa using h0
        by_cases hfit : header_length P.char_signed b0 b1 ≤ rest.length
        · refine ⟨fun n m rest' h => ?_, fun h => ?_⟩
          · simp only [head_frame, h0', Bool.false_eq_true, if_false, hfit, if_true,
              Option.some.injEq, Prod.mk.injEq] at h
            obtain ⟨⟨rfl, rfl⟩, rfl⟩ := h
            have hlen : (rest.take (header_length P.char_signed b0 b1)).length
                = header_length P.char_signed b0 b1 := by
              simp only [List.length_take]
              omega
            obtain ⟨s', hrecv, hs', hp'⟩ := receive_delivers P ρ hD fuel s b0 b1
              (rest.take (header_length P.char_signed b0 b1))
              (rest.drop (header_length P.char_signed b0 b1)) message length he hs
              (by rw [hp, List.take_append_drop]) hlen.symm (by rw [hlen]; omega)
            rw [hlen] at hrecv
            have hheld := receive_held hrecv
            exact ⟨s', hrecv, by rw [hheld.2.1]; exact he, hs',
              by rw [hheld.2.2.1]; exact ht, hp'⟩
          · simp [head_frame, h0', hfit] at h
        · refine ⟨fun n m rest' h => by simp [head_frame, h0', hfit] at h, fun _ => ?_⟩
          unfold receive
          rw [if_neg (by rw [he]; decide), hr1]
          simp only [nonzero_success, Bool.false_eq_true, if_false, hr2, h0']
          have hs3 : InputOk { s2 with payloads := s2.payloads ++
              [header_length P.char_signed b0 b1] } := hs2
          rw [receive_loop_starves P ρ hD hS fuel (header_length P.char_signed b0 b1) 0
            { s2 with payloads := s2.payloads ++ [header_length P.char_signed b0 b1] } _ hs3 ht2
            (by
              show (pending ρ s2).length < _
              rw [hp2]
              omega)]

/-- With the timeout disabled, over a transport that delivers its stream in
non-empty chunks and then has nothing more: the results of `k` successive
`receive` calls on an Open session are the first `k` frames of the pending
bytes, with any positive fuel, and the calls never all return when the pending
bytes end before the `k`-th frame is complete. -/
theorem receive_calls_frames {τ : Type} (P : Platform τ) (ρ : τ → List Nat)
    (hD : Delivers P ρ) (hS : Starves P ρ) (fuel : Nat) (k : Nat) :
    ∀ (s : State τ) (message : Option (List Nat)) (length : Nat),
      s.eof = false → InputOk s → s.timeout = 0 →
      (receive_calls P (fuel + 1) k s message length).map Prod.fst
        = frames P.char_signed k (pending ρ s) := by
  induction k with
  | zero => intro s message length _ _ _; rfl
  | succ k ih =>
    intro s message length he hs ht
    obtain ⟨hsome, hnone⟩ := receive_head_frame P ρ hD hS fuel s message length he hs ht
    rw [receive_calls, frames]
    cases hf : head_frame P.char_signed (pending ρ s) with
    | none =>
      rw [hnone hf]
      rfl
    | some r =>
      obtain ⟨⟨n, m⟩, rest⟩ := r
      obtain ⟨s', hrecv, he', hs', ht', hp'⟩ := hsome n m rest hf
      rw [hrecv]
      have := ih s' m n he' hs' ht'
      rw [hp'] at this
      simp only
      cases hrest : receive_calls P (fuel + 1) k s' m n with
      | none =>
        rw [hrest] at this
        rw [← this]
        rfl
      | some r2 =>
        rw [hrest] at this
        rw [← this]
        rfl

/-- C26: two Open sessions with empty input buffers and the timeout disabled,
on targets with the same `char`, each over a transport that delivers the stream
held by its device in non-empty chunks of at most the length asked for, without
error, and has nothing more once the stream is used up.  When both devices hold
the same stream, `k` successive `receive` calls produce the same sequence of
results (outcome, `*length`, payload) in both runs, with any positive fuel:
either all `k` calls return in both runs, with the same results, or in neither
run do they all return. -/
theorem receive_chunking_independent {τ1 τ2 : Type} (P1 : Platform τ1) (P2 : Platform τ2)
    (ρ1 : τ1 → List Nat) (ρ2 : τ2 → List Nat)
    (hD1 : Delivers P1 ρ1) (hS1 : Starves P1 ρ1) (hD2 : Delivers P2 ρ2) (hS2 : Starves P2 ρ2)
    (hcs : P1.char_signed = P2.char_signed) (s1 : State τ1) (s2 : State τ2)
    (he1 : s1.eof = false) (hh1 : s1.handle = true) (ht1 : s1.timeout = 0)
    (hi1 : in_buffer_empty s1 = true)
    (he2 : s2.eof = false) (hh2 : s2.handle = true) (ht2 : s2.timeout = 0)
    (hi2 : in_buffer_empty s2 = true)
    (hstream : ρ1 s1.usb = ρ2 s2.usb) (k f1 f2 : Nat)
    (m1 m2 : Option (List Nat)) (l1 l2 : Nat) :
    (receive_calls P1 (f1 + 1) k s1 m1 l1).map Prod.fst
      = (receive_calls P2 (f2 + 1) k s2 m2 l2).map Prod.fst := by
  have hpend : ∀ {τ : Type} (ρ : τ → List Nat) (s : State τ), in_buffer_empty s = true →
      pending ρ s = ρ s.usb := by
    intro τ ρ s hi
    have hle : s.inCount ≤ s.readOffset := by simpa [in_buffer_empty] using hi
    unfold pending
    rw [List.drop_of_length_le (by simp only [List.length_take]; omega), List.nil_append]
  have hok1 : InputOk s1 := ⟨hh1, Or.inr (by simpa [in_buffer_empty] using hi1)⟩
  have hok2 : InputOk s2 := ⟨hh2, Or.inr (by simpa [in_buffer_empty] using hi2)⟩
  rw [receive_calls_frames P1 ρ1 hD1 hS1 f1 k s1 m1 l1 he1 hok1 ht1,
    receive_calls_frames P2 ρ2 hD2 hS2 f2 k s2 m2 l2 he2 hok2 ht2,
    hpend ρ1 s1 hi1, hpend ρ2 s2 hi2, hstream, hcs]

theorem loopback_starves (cs : Bool) : Starves (loopback cs) (fun u => u) := by
  intro u n hu
  have hu' : u = [] := hu
  subst hu'
  exact ⟨Or.inr rfl, rfl, rfl⟩

theorem trickle_delivers (cs : Bool) : Delivers (trickle cs) (fun u => u) := by
  intro u n hn hu
  cases u with
  | nil => exact absurd rfl hu
  | cons a rest =>
    have hmin : min n 1 = 1 := by omega
    have hr : (trickle cs).bulk_read_nxt (a :: rest) n = (0, [a], rest) := by
      show (if (a :: rest).isEmpty then (LIBUSB_ERROR_TIMEOUT, [], a :: rest)
        else (0, (a :: rest).take (min n 1), (a :: rest).drop (min n 1))) = _
      rw [hmin]
      rfl
    rw [hr]
    exact ⟨rfl, by simp, by simpa using hn, rfl⟩

theorem trickle_starves (cs : Bool) : Starves (trickle cs) (fun u => u) := by
  intro u n hu
  have hu' : u = [] := hu
  subst hu'
  exact ⟨Or.inr rfl, rfl, rfl⟩

/-- C26, exercised on the stream `02 00 07 08 00 00`: over the loopback, which
hands it over in one chunk, and over a device that hands it over byte by byte,
two `receive` calls return the frame `07 08` and the exit sentinel. -/
theorem receive_chunking_independent_witness :
    (State.opened [2, 0, 7, 8, 0, 0] : State (List Nat)).eof = false ∧
    in_buffer_empty (State.opened [2, 0, 7, 8, 0, 0] : State (List Nat)) = true ∧
    (receive_calls (trickle true) 1 2 (State.opened [2, 0, 7, 8, 0, 0]) none 0).map Prod.fst
      = some [(LIBNXT_SUCCESS, 2, some [7, 8]), (LIBNXT_SUCCESS, 0, none)] ∧
    (receive_calls (loopback true) 1 2 (State.opened [2, 0, 7, 8, 0, 0]) none 0).map Prod.fst
      = (receive_calls (trickle true) 1 2 (State.opened [2, 0, 7, 8, 0, 0]) none 0).map
          Prod.fst :=
  ⟨rfl, rfl, by decide,
    receive_chunking_independent (loopback true) (trickle true) (fun u => u) (fun u => u)
      (loopback_delivers true) (loopback_starves true) (trickle_delivers true)
      (trickle_starves true) rfl (State.opened [2, 0, 7, 8, 0, 0])
      (State.opened [2, 0, 7, 8, 0, 0]) rfl rfl rfl rfl rfl rfl rfl rfl rfl 2 0 0 none none 0 0⟩

end LibNxt
